import Mathlib

/-!
# The pub/sub changefeed sink (`pkg/ccl/changefeedccl/sink_pubsub.go`)

A shallow embedding of the sharded worker-pool sink: the single-slot error
channel, the hashed choice of a worker mailbox, the worker loop and the flush
barrier.  Go channels and goroutines are embedded as explicit state: a
buffered channel of capacity one is an `Option`, an unbuffered channel is a
rendezvous with the program counter of the receiving goroutine, and a `select`
is a function of the case that fires, defined only where that case is ready.
-/

namespace changefeedccl

/-- Byte strings (`[]byte`); every element is read modulo 256. -/
abbrev Bytes := List Nat

/-! ## Errors -/

/-- Non-nil Go `error` values that the sink handles.  A Go `error` that may be
nil is an `Option Err`. -/
inductive Err where
  /-- The value `context.Canceled`. -/
  | canceled : Err
  /-- The value `context.DeadlineExceeded`. -/
  | deadlineExceeded : Err
  /-- An error returned by `json.Marshal`, by the encoder or by the transport. -/
  | external (code : Nat) : Err
  /-- The result of `errors.Wrap(cause, msg)`. -/
  | wrap (msg : String) (cause : Err) : Err
  /-- The result of `errors.WithSecondaryError(cause, sec)`: `cause` stays the
  error proper, `sec` is carried along as an annotation. -/
  | withSecondary (cause : Err) (sec : Err) : Err
  deriving DecidableEq, Repr

/-- Library function `errors.CombineErrors(err, otherErr)` of
`github.com/cockroachdb/errors`: "returns err, or, if err is nil, otherErr; if
err is non-nil, otherErr is attached as secondary error". -/
def CombineErrors : Option Err → Option Err → Option Err
  | none, otherErr => otherErr
  | some err, none => some err
  | some err, some otherErr => some (Err.withSecondary err otherErr)

/-! ## CRC-32 (Go standard library `hash/crc32`) -/

/-- The constant `crc32.IEEE`, the reversed IEEE polynomial. -/
def IEEE : Nat := 0xedb88320

/-- One round of the inner loop of `simplePopulateTable`. -/
def crcRound (poly crc : Nat) : Nat :=
  if crc % 2 = 1 then (crc >>> 1) ^^^ poly else crc >>> 1

/-- Entry `i` of the table built by `simplePopulateTable(poly, t)`. -/
def simpleTableEntry (poly i : Nat) : Nat :=
  (crcRound poly)^[8] i

/-- The function `simpleUpdate(crc, tab, p)` on 32-bit values:
`crc = ^crc; for v in p { crc = tab[byte(crc)^v] ^ (crc >> 8) }; return ^crc`. -/
def simpleUpdate (poly crc : Nat) (p : Bytes) : Nat :=
  (p.foldl (fun c v => simpleTableEntry poly ((c % 256) ^^^ (v % 256)) ^^^ (c >>> 8))
    (crc ^^^ 0xffffffff)) ^^^ 0xffffffff

/-- The function `crc32.ChecksumIEEE(data)`. -/
def ChecksumIEEE (data : Bytes) : Nat :=
  simpleUpdate IEEE 0 data

/-! ## Data model -/

/-- The struct `payload`: what is serialised and sent to the transport. -/
structure payload where
  Key : Bytes
  Value : Bytes
  Topic : String
  deriving DecidableEq, Repr

/-- The struct `pubsubMessage`: what travels through a worker channel.  The
`alloc` is the identity of the `kvevent.Alloc` token. -/
structure pubsubMessage where
  alloc : Nat
  message : payload
  isFlush : Bool
  topicId : Nat
  deriving DecidableEq, Repr

/-- The literal `pubsubMessage{isFlush: true}`: every other field is zero. -/
def flushMessage : pubsubMessage :=
  { alloc := 0, message := { Key := [], Value := [], Topic := "" }, isFlush := true, topicId := 0 }

/-- A `*pubsub.Topic` handle.  `isGcp` says whether `As(&c)` succeeds for a
`*gcpClient.PublisherClient`. -/
structure topicClient where
  isGcp : Bool
  deriving DecidableEq, Repr

/-- The struct `topicStruct`; `topicClient` is `none` while the pointer is nil. -/
structure topicStruct where
  topicName : String
  pathName : String
  topicClient : Option topicClient
  deriving DecidableEq, Repr

/-- The struct `pubsubSink`, without the goroutines (they are in `State`).

* `topics` is the map `map[descpb.ID]*topicStruct` as an association list;
* `workerCtx` is `none` while `workerCtx.Done()` is open, and `some e` with
  `e = workerCtx.Err()` afterwards;
* `exitWorkersCalls` counts the calls of the cancel function `exitWorkers`;
* `errChan` is the buffer of `make(chan error, 1)`; its only writer sends
  non-nil errors;
* `flushDone` is the buffer of `make(chan struct{}, 1)`, `true` when it holds
  its token;
* `eventsChans` are unbuffered and hold nothing: there are `numWorkers` of
  them. -/
structure pubsubSink where
  topics : List (Nat × topicStruct)
  numWorkers : Nat
  workerCtx : Option Err
  exitWorkersCalls : Nat
  errChan : Option Err
  flushDone : Bool
  deriving DecidableEq, Repr

/-- The request that `sendMessage` hands to the transport. -/
inductive transportCall where
  /-- The call `c.Publish(ctx, &pbapi.PublishRequest{Topic: pathName,
  Messages: [{Data: m, OrderingKey: key}]})` of the GCP client. -/
  | Publish (topic : String) (data : Bytes) (orderingKey : Bytes) : transportCall
  /-- The call `topicClient.Send(p.workerCtx, &pubsub.Message{Body: m})`. -/
  | Send (body : Bytes) : transportCall
  deriving DecidableEq, Repr

/-- Observable actions of the sink. -/
inductive Event where
  /-- The send `p.eventsChans[i] <- m` completed. -/
  | handoff (i : Nat) (m : pubsubMessage) : Event
  /-- Worker `j` called `p.sendMessage(b, msg.topicId, string(msg.message.Key))`
  for the dequeued message `msg`, which made the transport request `call`. -/
  | publish (j : Nat) (msg : pubsubMessage) (call : transportCall) : Event
  /-- The method `emitResolvedTimestamp` called `p.sendMessage(payload, topicId, "")`. -/
  | publishResolved (topicId : Nat) (call : transportCall) : Event
  /-- The call `alloc.Release(...)`. -/
  | release (alloc : Nat) : Event
  deriving DecidableEq, Repr

/-- Result of running a piece of code that may fault or may have to wait. -/
inductive Outcome (α : Type) where
  /-- A Go run-time panic (nil dereference, integer division by zero). -/
  | fault : Outcome α
  /-- The chosen `select` case is not ready. -/
  | blocked : Outcome α
  /-- The code ran to the end. -/
  | done (a : α) : Outcome α
  deriving DecidableEq, Repr

/-! ## The error channel -/

/-- The cancel function `p.exitWorkers` of `context.WithCancel`: the first
cancellation fixes `workerCtx.Err()`, later calls change nothing. -/
def exitWorkers (p : pubsubSink) : pubsubSink :=
  { p with
    workerCtx := match p.workerCtx with
      | none => some Err.canceled
      | some e => some e
    exitWorkersCalls := p.exitWorkersCalls + 1 }

/-- The method `exitWorkersWithError`:
`select { case p.errChan <- err: p.exitWorkers(); default: }`. -/
def exitWorkersWithError (p : pubsubSink) (err : Err) : pubsubSink :=
  match p.errChan with
  | none => exitWorkers { p with errChan := some err }
  | some _ => p

/-- The statement `if err != nil { p.exitWorkersWithError(err) }`. -/
def exitOnError (p : pubsubSink) (err : Option Err) : pubsubSink :=
  match err with
  | some e => exitWorkersWithError p e
  | none => p

/-- The method `sinkError`:
`select { case err := <-p.errChan: return err; default: }; return nil`. -/
def sinkError (p : pubsubSink) : Option Err × pubsubSink :=
  match p.errChan with
  | some err => (some err, { p with errChan := none })
  | none => (none, p)

/-- The method `workerIndex`: `crc32.ChecksumIEEE(key) % uint32(p.numWorkers)`.
The conversion `uint32(...)` reduces `numWorkers` modulo `2^32`; a zero divisor
is a run-time panic, here `none`. -/
def workerIndex (numWorkers : Nat) (key : Bytes) : Option Nat :=
  if numWorkers % 2 ^ 32 = 0 then none
  else some (ChecksumIEEE key % (numWorkers % 2 ^ 32))

/-! ## The dispatcher -/

/-- The four cases of the `select` in `emitRow`. -/
inductive emitCase where
  /-- The case `<-p.workerCtx.Done()`. -/
  | workerCtxDone : emitCase
  /-- The case `<-ctx.Done()`. -/
  | ctxDone : emitCase
  /-- The case `err := <-p.errChan`. -/
  | errChan : emitCase
  /-- The case `p.eventsChans[i] <- m`. -/
  | send : emitCase
  deriving DecidableEq, Repr

/-- The method `emitRow`, as a function of the `select` case that fires.

* `recvReady i` says whether worker `i` is waiting in its `select`, so that a
  send on the unbuffered `p.eventsChans[i]` can complete;
* `ctxErr` is the caller's `ctx`: `none` while `ctx.Done()` is open, else
  `some ctx.Err()`.

The result is the returned error, the sink afterwards and the events of the
call.  The lookup `p.topics[topic.GetID()].topicName` faults on a missing
entry (nil pointer), `workerIndex` on a zero divisor.  The call is one step:
it has no effect before its `select` fires, and the read of `p.sinkError()` in
the first case is taken together with that case.

This is the method on a sink in use, whose channels `Close` has not closed;
`pubsubSink.emitRow` below is the method with the channels that `Close` closed,
and equals this one while none is closed. -/
def emitRow (p : pubsubSink) (recvReady : Nat → Bool) (ctxErr : Option Err)
    (topicID : Nat) (key value : Bytes) (alloc : Nat) (c : emitCase) :
    Outcome (Option Err × pubsubSink × List Event) :=
  match p.topics.lookup topicID with
  | none => Outcome.fault
  | some t =>
    let m : pubsubMessage :=
      { alloc := alloc, isFlush := false, topicId := topicID,
        message := { Key := key, Value := value, Topic := t.topicName } }
    match workerIndex p.numWorkers key with
    | none => Outcome.fault
    | some i =>
      match c with
      | emitCase.workerCtxDone =>
        match p.workerCtx with
        | none => Outcome.blocked
        | some e => Outcome.done (CombineErrors (some e) (sinkError p).1, (sinkError p).2, [])
      | emitCase.ctxDone =>
        match ctxErr with
        | none => Outcome.blocked
        | some e => Outcome.done (some e, p, [])
      | emitCase.errChan =>
        match p.errChan with
        | none => Outcome.blocked
        | some err => Outcome.done (some err, { p with errChan := none }, [])
      | emitCase.send =>
        if recvReady i then Outcome.done (none, p, [Event.handoff i m]) else Outcome.blocked

/-! ## The transport boundary -/

/-- The method `sendMessage(m, topicId, key)`; `tr` is the answer of the
transport.  A missing registry entry or a nil `topicClient` is a nil
dereference. -/
def sendMessage (p : pubsubSink) (m : Bytes) (topicId : Nat) (key : Bytes) (tr : Option Err) :
    Outcome (transportCall × Option Err) :=
  match p.topics.lookup topicId with
  | none => Outcome.fault
  | some t =>
    match t.topicClient with
    | none => Outcome.fault
    | some c =>
      if c.isGcp then Outcome.done (transportCall.Publish t.pathName m key, tr)
      else Outcome.done (transportCall.Send m, tr)

/-! ## The worker -/

/-- Where a worker goroutine stands in `workerLoop`. -/
inductive workerPC where
  /-- Waiting in the `select` at the head of the loop. -/
  | idle : workerPC
  /-- Dequeued `msg` (not a flush marker), about to run `json.Marshal(m)` and,
  on failure, the `select` of `exitWorkersWithError`. -/
  | marshal (msg : pubsubMessage) : workerPC
  /-- Inside `exitWorkersWithError` after a failed `json.Marshal`: the error
  went into `p.errChan`, the call `p.exitWorkers()` is next. -/
  | marshalExit (msg : pubsubMessage) (b : Bytes) : workerPC
  /-- About to call `p.sendMessage(b, msg.topicId, string(msg.message.Key))` and,
  on failure, to run the `select` of `exitWorkersWithError`. -/
  | send (msg : pubsubMessage) (b : Bytes) : workerPC
  /-- Inside `exitWorkersWithError` after a failed `sendMessage`: the error
  went into `p.errChan`, the call `p.exitWorkers()` is next. -/
  | sendExit (msg : pubsubMessage) : workerPC
  /-- About to call `msg.alloc.Release(p.workerCtx)`. -/
  | release (msg : pubsubMessage) : workerPC
  /-- Returned from `workerLoop`. -/
  | stopped : workerPC
  deriving DecidableEq, Repr

/-- The case `msg := <-p.eventsChans[workerIndex]` of a waiting worker: a flush
marker makes it `continue`, any other message is processed. -/
def workerRecv (msg : pubsubMessage) : workerPC :=
  if msg.isFlush then workerPC.idle else workerPC.marshal msg

/-- One step of worker `j` in `workerLoop`, apart from the receive (which is
the sender's step too: see `workerRecv`).  The environment supplies the result
`(b, err)` of `json.Marshal(m)` and the answer `tr` of the transport.  A call of
`exitWorkersWithError` takes two steps when its `select` sends the error: the
send `p.errChan <- err`, then the call `p.exitWorkers()`; other goroutines can
run in between. -/
def workerStep (p : pubsubSink) (j : Nat) (pc : workerPC) (b : Bytes) (err : Option Err)
    (tr : Option Err) : Outcome (workerPC × pubsubSink × List Event) :=
  match pc with
  | workerPC.idle =>
    match p.workerCtx with
    | none => Outcome.blocked
    | some _ => Outcome.done (workerPC.stopped, p, [])
  | workerPC.marshal msg =>
    match err with
    | some e =>
      match p.errChan with
      | none => Outcome.done (workerPC.marshalExit msg b, { p with errChan := some e }, [])
      | some _ => Outcome.done (workerPC.send msg b, p, [])
    | none => Outcome.done (workerPC.send msg b, p, [])
  | workerPC.marshalExit msg b' => Outcome.done (workerPC.send msg b', exitWorkers p, [])
  | workerPC.send msg b' =>
    match sendMessage p b' msg.topicId msg.message.Key tr with
    | Outcome.fault => Outcome.fault
    | Outcome.blocked => Outcome.blocked
    | Outcome.done (call, some e) =>
      match p.errChan with
      | none =>
        Outcome.done (workerPC.sendExit msg, { p with errChan := some e },
          [Event.publish j msg call])
      | some _ => Outcome.done (workerPC.release msg, p, [Event.publish j msg call])
    | Outcome.done (call, none) =>
      Outcome.done (workerPC.release msg, p, [Event.publish j msg call])
  | workerPC.sendExit msg => Outcome.done (workerPC.release msg, exitWorkers p, [])
  | workerPC.release msg => Outcome.done (workerPC.idle, p, [Event.release msg.alloc])
  | workerPC.stopped => Outcome.blocked

/-- Sequencing of two pieces of code, the events of the first before those of
the second. -/
def Outcome.andThen {α β : Type} (o : Outcome (α × pubsubSink × List Event))
    (f : α → pubsubSink → Outcome (β × pubsubSink × List Event)) :
    Outcome (β × pubsubSink × List Event) :=
  match o with
  | Outcome.fault => Outcome.fault
  | Outcome.blocked => Outcome.blocked
  | Outcome.done (a, p, evs) =>
    match f a p with
    | Outcome.fault => Outcome.fault
    | Outcome.blocked => Outcome.blocked
    | Outcome.done (r, p', evs') => Outcome.done (r, p', evs ++ evs')

/-- The steps of worker `j` from `pc` until it is back at the head of the loop,
at most `fuel` of them, with no other goroutine in between. -/
def workerSteps (j : Nat) (b : Bytes) (err : Option Err) (tr : Option Err) :
    Nat → pubsubSink → workerPC → Outcome (workerPC × pubsubSink × List Event)
  | 0, p, pc => if pc = workerPC.idle then Outcome.done (pc, p, []) else Outcome.blocked
  | fuel + 1, p, pc =>
    if pc = workerPC.idle then Outcome.done (pc, p, [])
    else (workerStep p j pc b err tr).andThen fun pc1 p1 => workerSteps j b err tr fuel p1 pc1

/-- One iteration of the loop of `workerLoop` by worker `j`, from the dequeue
of `msg` until the worker is back at the head of the loop, with no other
goroutine in between.  An iteration has at most five steps. -/
def workerIteration (p : pubsubSink) (j : Nat) (msg : pubsubMessage) (b : Bytes)
    (err : Option Err) (tr : Option Err) : Outcome (workerPC × pubsubSink × List Event) :=
  workerSteps j b err tr 5 p (workerRecv msg)

/-! ## The flush coordinator -/

/-- Where a caller stands in `flush` (and in the `flushWorkers` it calls). -/
inductive flushPC where
  /-- At the first `select` of `flush`. -/
  | select1 : flushPC
  /-- In the loop of `flushWorkers`, at the `select` for index `i`. -/
  | workers (i : Nat) : flushPC
  /-- At the last `select` of `flushWorkers`. -/
  | signal : flushPC
  /-- At the second `select` of `flush`. -/
  | select2 : flushPC
  /-- The call `flush` returned `r`. -/
  | returned (r : Option Err) : flushPC
  deriving DecidableEq, Repr

/-- The `select` cases of `flush` and `flushWorkers`. -/
inductive flushCase where
  /-- The case `<-ctx.Done()` of `flush`. -/
  | ctxDone : flushCase
  /-- The case `err := <-p.errChan` of `flush`. -/
  | errChan : flushCase
  /-- The case `default` of the first `select` of `flush`. -/
  | dflt : flushCase
  /-- The case `<-p.workerCtx.Done()` of `flushWorkers`. -/
  | workerCtxDone : flushCase
  /-- The case `p.eventsChans[i] <- pubsubMessage{isFlush: true}`. -/
  | sendFlush : flushCase
  /-- The case `p.flushDone <- struct{}{}` of `flushWorkers`. -/
  | sendDone : flushCase
  /-- The case `<-p.flushDone` of `flush`. -/
  | recvDone : flushCase
  deriving DecidableEq, Repr

/-- The loop head `for i := 0; i < p.numWorkers; i++` of `flushWorkers`. -/
def flushLoop (p : pubsubSink) (i : Nat) : flushPC :=
  if i < p.numWorkers then flushPC.workers i else flushPC.signal

/-- One step of a `flush` call: the `select` at `pc` fires case `c`.  The
result is `none` when that `select` has no such case or the case is not ready
(`default` is ready only when no other case of its `select` is).  The read of
`p.sinkError()` after `<-p.flushDone` is taken together with that case. -/
def flushStep (p : pubsubSink) (recvReady : Nat → Bool) (ctxErr : Option Err) (pc : flushPC)
    (c : flushCase) : Option (flushPC × pubsubSink × List Event) :=
  match pc, c with
  | flushPC.select1, flushCase.ctxDone =>
    match ctxErr with
    | some e => some (flushPC.returned (some e), p, [])
    | none => none
  | flushPC.select1, flushCase.errChan =>
    match p.errChan with
    | some err => some (flushPC.returned (some err), { p with errChan := none }, [])
    | none => none
  | flushPC.select1, flushCase.dflt =>
    match ctxErr, p.errChan with
    | none, none => some (flushLoop p 0, p, [])
    | _, _ => none
  | flushPC.workers _, flushCase.workerCtxDone =>
    match p.workerCtx with
    | some e => some (flushPC.returned (some e), p, [])
    | none => none
  | flushPC.workers i, flushCase.sendFlush =>
    if recvReady i then some (flushLoop p (i + 1), p, [Event.handoff i flushMessage]) else none
  | flushPC.signal, flushCase.workerCtxDone =>
    match p.workerCtx with
    | some e => some (flushPC.returned (some e), p, [])
    | none => none
  | flushPC.signal, flushCase.sendDone =>
    if p.flushDone then none else some (flushPC.select2, { p with flushDone := true }, [])
  | flushPC.select2, flushCase.ctxDone =>
    match ctxErr with
    | some e => some (flushPC.returned (some e), p, [])
    | none => none
  | flushPC.select2, flushCase.errChan =>
    match p.errChan with
    | some err => some (flushPC.returned (some err), { p with errChan := none }, [])
    | none => none
  | flushPC.select2, flushCase.recvDone =>
    if p.flushDone then
      some (flushPC.returned (sinkError { p with flushDone := false }).1,
        (sinkError { p with flushDone := false }).2, [])
    else none
  | _, _ => none

/-! ## Resolved timestamps -/

/-- The loop `for topicId := range p.topics` of `emitResolvedTimestamp` over
the entries still to visit; `tr topicId` is the answer of the transport to the
send for `topicId`. -/
def emitResolvedLoop (p : pubsubSink) (payload : Bytes) (tr : Nat → Option Err) :
    List (Nat × topicStruct) → Outcome (Option Err × List Event)
  | [] => Outcome.done (none, [])
  | (topicId, _) :: rest =>
    match sendMessage p payload topicId [] (tr topicId) with
    | Outcome.fault => Outcome.fault
    | Outcome.blocked => Outcome.blocked
    | Outcome.done (call, some e) =>
      Outcome.done (some (Err.wrap "emiting resolved timestamp" e),
        [Event.publishResolved topicId call])
    | Outcome.done (call, none) =>
      match emitResolvedLoop p payload tr rest with
      | Outcome.fault => Outcome.fault
      | Outcome.blocked => Outcome.blocked
      | Outcome.done (r, evs) => Outcome.done (r, Event.publishResolved topicId call :: evs)

/-- The method `emitResolvedTimestamp`; `(payload, err)` is the result of
`encoder.EncodeResolvedTimestamp`.  The registry is visited in the order of
the list `p.topics`. -/
def emitResolvedTimestamp (p : pubsubSink) (payload : Bytes) (err : Option Err)
    (tr : Nat → Option Err) : Outcome (Option Err × List Event) :=
  match err with
  | some e => Outcome.done (some (Err.wrap "encoding resolved timestamp" e), [])
  | none => emitResolvedLoop p payload tr p.topics
/-! ## The running sink: goroutines and their interleavings -/

/-- A caller inside `flush`: where it stands, and its `ctx` (`none` while
`ctx.Done()` is open, else `some ctx.Err()`). -/
structure flushThread where
  pc : flushPC
  ctxErr : Option Err
  deriving DecidableEq, Repr

/-- The sink with its goroutines: the `numWorkers` workers started by
`setupWorkers`, the callers that are inside `flush`, and the events so far. -/
structure State where
  p : pubsubSink
  workers : List workerPC
  flushes : List flushThread
  log : List Event
  deriving DecidableEq, Repr

/-- The method `setupWorkers` on a fresh sink: empty `errChan` and `flushDone`,
one channel and one goroutine per worker, every goroutine at the head of
`workerLoop`. -/
def setupWorkers (topics : List (Nat × topicStruct)) (numWorkers : Nat) : State :=
  { p := { topics := topics, numWorkers := numWorkers, workerCtx := none,
           exitWorkersCalls := 0, errChan := none, flushDone := false },
    workers := List.replicate numWorkers workerPC.idle,
    flushes := [],
    log := [] }

/-- Whether worker `i` waits in the `select` of `workerLoop`, where it can
receive from `p.eventsChans[i]`. -/
def recvReady (ws : List workerPC) (i : Nat) : Bool :=
  match ws[i]? with
  | some workerPC.idle => true
  | _ => false

/-- The receiving side of the handoffs among `evs`: each receiver takes its
message. -/
def deliver (ws : List workerPC) : List Event → List workerPC
  | [] => ws
  | Event.handoff i m :: evs => deliver (ws.set i (workerRecv m)) evs
  | _ :: evs => deliver ws evs

/-- What can happen next in a running sink. -/
inductive Action where
  /-- A call of `emitRow` whose `select` fires case `c`. -/
  | emitRow (ctxErr : Option Err) (topicID : Nat) (key value : Bytes) (alloc : Nat)
      (c : emitCase) : Action
  /-- A call of `emitResolvedTimestamp`. -/
  | emitResolvedTimestamp (payload : Bytes) (err : Option Err) (tr : Nat → Option Err) : Action
  /-- A caller enters `flush` with a context in state `ctxErr`. -/
  | flushCall (ctxErr : Option Err) : Action
  /-- The caller `t` inside `flush` takes its next step. -/
  | flushStep (t : Nat) (c : flushCase) : Action
  /-- The context of the caller `t` inside `flush` is cancelled (or expires). -/
  | ctxCancel (t : Nat) (e : Err) : Action
  /-- Worker `j` takes its next step. -/
  | workerStep (j : Nat) (b : Bytes) (err : Option Err) (tr : Option Err) : Action
  /-- The context given to `MakePubsubSink`, parent of `workerCtx`, is
  cancelled (or expires). -/
  | parentCancel (e : Err) : Action

/-- One step of the running sink; `none` when the action is not possible in
`s` (the case is not ready, the thread does not exist) or the program
faults.  A `select` with several ready cases may fire any of them, and a
goroutine that waits in a `select` may take any case that becomes ready. -/
def step (s : State) : Action → Option State
  | Action.emitRow ctxErr topicID key value alloc c =>
    match emitRow s.p (recvReady s.workers) ctxErr topicID key value alloc c with
    | Outcome.done (_, p', evs) =>
      some { s with p := p', workers := deliver s.workers evs, log := s.log ++ evs }
    | _ => none
  | Action.emitResolvedTimestamp payload err tr =>
    match emitResolvedTimestamp s.p payload err tr with
    | Outcome.done (_, evs) => some { s with log := s.log ++ evs }
    | _ => none
  | Action.flushCall ctxErr =>
    some { s with flushes := s.flushes ++ [{ pc := flushPC.select1, ctxErr := ctxErr }] }
  | Action.flushStep t c =>
    match s.flushes[t]? with
    | none => none
    | some th =>
      match flushStep s.p (recvReady s.workers) th.ctxErr th.pc c with
      | some (pc', p', evs) =>
        some { p := p', workers := deliver s.workers evs,
               flushes := s.flushes.set t { th with pc := pc' }, log := s.log ++ evs }
      | none => none
  | Action.ctxCancel t e =>
    match s.flushes[t]? with
    | none => none
    | some th =>
      match th.ctxErr with
      | none => some { s with flushes := s.flushes.set t { th with ctxErr := some e } }
      | some _ => some s
  | Action.workerStep j b err tr =>
    match s.workers[j]? with
    | none => none
    | some pc =>
      match workerStep s.p j pc b err tr with
      | Outcome.done (pc', p', evs) =>
        some { s with p := p', workers := s.workers.set j pc', log := s.log ++ evs }
      | _ => none
  | Action.parentCancel e =>
    match s.p.workerCtx with
    | none => some { s with p := { s.p with workerCtx := some e } }
    | some _ => some s

/-- A run: the actions of `acts` one after the other. -/
def run (s : State) : List Action → Option State
  | [] => some s
  | a :: acts =>
    match step s a with
    | some s' => run s' acts
    | none => none

/-- The states a sink built by `setupWorkers` can be in. -/
def Reachable (topics : List (Nat × topicStruct)) (numWorkers : Nat) (s : State) : Prop :=
  ∃ acts, run (setupWorkers topics numWorkers) acts = some s

/-! ### Reading the log -/

/-- The row messages handed to mailbox `j`, in the order of handoff. -/
def handedTo (j : Nat) (log : List Event) : List pubsubMessage :=
  log.filterMap fun e =>
    match e with
    | Event.handoff i m => if i = j ∧ m.isFlush = false then some m else none
    | _ => none

/-- The messages for which worker `j` called the transport, in the order of
the calls. -/
def publishedBy (j : Nat) (log : List Event) : List pubsubMessage :=
  log.filterMap fun e =>
    match e with
    | Event.publish i m _ => if i = j then some m else none
    | _ => none

/-- The row messages with key `key` that `emitRow` handed to a mailbox, in the
order of handoff. -/
def acceptedWithKey (key : Bytes) (log : List Event) : List pubsubMessage :=
  log.filterMap fun e =>
    match e with
    | Event.handoff _ m => if m.isFlush = false ∧ m.message.Key = key then some m else none
    | _ => none

/-- The messages with key `key` for which some worker called the transport, in
the order of the calls. -/
def publishedWithKey (key : Bytes) (log : List Event) : List pubsubMessage :=
  log.filterMap fun e =>
    match e with
    | Event.publish _ m _ => if m.message.Key = key then some m else none
    | _ => none

/-- The message a worker has dequeued and not yet passed to the transport. -/
def inflight : workerPC → List pubsubMessage
  | workerPC.marshal msg => [msg]
  | workerPC.marshalExit msg _ => [msg]
  | workerPC.send msg _ => [msg]
  | _ => []

/-! ## The method `flushWorkers` as a whole -/

/-- What a caller inside `flushWorkers` meets at one of its steps: the sink as
the other goroutines left it, the workers that wait in their `select`, and the
case of its own `select` that fires. -/
structure flushEnv where
  p : pubsubSink
  recvReady : Nat → Bool
  c : flushCase

/-- Whether a caller at `pc` is inside `flushWorkers`. -/
def flushPC.inFlushWorkers : flushPC → Bool
  | flushPC.workers _ => true
  | flushPC.signal => true
  | _ => false

/-- The token that a step puts into `p.flushDone`: one when the buffer was empty
before the step and is full after it. -/
def tokenPut (before after : pubsubSink) : Nat :=
  if after.flushDone && !before.flushDone then 1 else 0

/-- The method `flushWorkers`, step after step from the place `pc`, each step in
the environment it meets.  The result is the place reached, the handoffs made,
in order, and the number of tokens put into `p.flushDone`; `none` when a step is
not possible or comes after `flushWorkers` has returned. -/
def flushWorkers (ctxErr : Option Err) : List flushEnv → flushPC →
    Option (flushPC × List Event × Nat)
  | [], pc => some (pc, [], 0)
  | env :: envs, pc =>
    if pc.inFlushWorkers then
      match flushStep env.p env.recvReady ctxErr pc env.c with
      | none => none
      | some (pc', p', evs) =>
        match flushWorkers ctxErr envs pc' with
        | none => none
        | some (pc'', evs', k) => some (pc'', evs ++ evs', tokenPut env.p p' + k)
    else none

/-! ## Dial and Close -/

/-- The request that `sendMessage(payload, topicId, "")` makes for the registry
entry `t`: `Publish` through the GCP client when `As(&c)` succeeds, else
`Send`. -/
def resolvedCall (t : topicStruct) (payload : Bytes) : transportCall :=
  match t.topicClient with
  | some c =>
    if c.isGcp then transportCall.Publish t.pathName payload [] else transportCall.Send payload
  | none => transportCall.Send payload

/-- The calls that `Close` makes on its way. -/
inductive cleanupCall where
  /-- The call `p.exitWorkers()`. -/
  | exitWorkers : cleanupCall
  /-- The call `p.workerGroup.Wait()`. -/
  | Wait : cleanupCall
  /-- The call `topic.topicClient.Shutdown(...)` for the entry `topicId`. -/
  | Shutdown (topicId : Nat) : cleanupCall
  /-- The call `close(p.errChan)`. -/
  | closeErrChan : cleanupCall
  /-- The call `close(p.flushDone)`. -/
  | closeFlushDone : cleanupCall
  /-- The call `close(p.eventsChans[i])`. -/
  | closeEventsChan (i : Nat) : cleanupCall
  /-- The call `p.client.Close()` of the GCP sink. -/
  | clientClose : cleanupCall
  /-- The call `p.conn.Close()` of the GCP sink. -/
  | connClose : cleanupCall
  /-- The call `p.cleanup()` of the GCP sink. -/
  | cleanup : cleanupCall
  deriving DecidableEq, Repr

/-- The loop `for _, topic := range p.topics` of `pubsubSink.close` over the
entries still to visit; `sd topicId` is the result of `Shutdown` for the entry
`topicId`.  The first failure returns from `close`. -/
def closeTopics (sd : Nat → Option Err) : List (Nat × topicStruct) →
    Option Err × List cleanupCall
  | [] => (none, [])
  | (topicId, t) :: rest =>
    match t.topicClient with
    | none => closeTopics sd rest
    | some _ =>
      match sd topicId with
      | some err => (some (Err.wrap "closing pubsub topic" err), [cleanupCall.Shutdown topicId])
      | none => ((closeTopics sd rest).1, cleanupCall.Shutdown topicId :: (closeTopics sd rest).2)

/-- The method `pubsubSink.close`: the returned error and the calls made, in
order. -/
def pubsubSink.close (p : pubsubSink) (sd : Nat → Option Err) : Option Err × List cleanupCall :=
  match closeTopics sd p.topics with
  | (some err, calls) => (some err, cleanupCall.exitWorkers :: cleanupCall.Wait :: calls)
  | (none, calls) =>
    (none, cleanupCall.exitWorkers :: cleanupCall.Wait :: calls ++
      [cleanupCall.closeErrChan, cleanupCall.closeFlushDone] ++
      (List.range p.numWorkers).map cleanupCall.closeEventsChan)

/-- The struct `gcpPubsubSink`; `client`, `cleanup` and `conn` say whether the
field is non-nil. -/
structure gcpPubsubSink where
  client : Bool
  cleanup : Bool
  pubsubSink : pubsubSink
  conn : Bool
  deriving DecidableEq, Repr

/-- The struct `memPubsubSink`. -/
structure memPubsubSink where
  pubsubSink : pubsubSink
  deriving DecidableEq, Repr

/-- The method `gcpPubsubSink.Close`. -/
def gcpPubsubSink.Close (g : gcpPubsubSink) (sd : Nat → Option Err) :
    Option Err × List cleanupCall :=
  match g.pubsubSink.close sd with
  | (some err, calls) => (some err, calls)
  | (none, calls) =>
    (none, calls ++ (if g.client then [cleanupCall.clientClose] else []) ++
      (if g.conn then [cleanupCall.connClose] else []) ++
      (if g.cleanup then [cleanupCall.cleanup] else []))

/-- The method `memPubsubSink.Close`. -/
def memPubsubSink.Close (m : memPubsubSink) : Option Err × List cleanupCall :=
  (none, [cleanupCall.exitWorkers, cleanupCall.Wait, cleanupCall.closeErrChan,
    cleanupCall.closeFlushDone] ++
    (List.range m.pubsubSink.numWorkers).map cleanupCall.closeEventsChan)

/-- The function `createGCPURL`: `path.Join("projects", u.Host, "topics",
topicName)`, with the library function `path.Join` as `join`. -/
def createGCPURL (join : List String → String) (host topicName : String) : String :=
  join ["projects", host, "topics", topicName]

/-- The loop `for _, topic := range p.pubsubSink.topics` of the two `Dial`
methods over the entries still to visit.  `openTopic topicId` is the result of
opening the topic of the entry `topicId`: an error (with a nil handle) or a
handle; the assignment `topic.topicClient, err = ...` stores the handle either
way.  `store` is what the loop body does to the entry after a success. -/
def dialTopics (openTopic : Nat → Err ⊕ topicClient) (store : topicStruct → topicStruct) :
    List (Nat × topicStruct) → Option Err × List (Nat × topicStruct)
  | [] => (none, [])
  | (topicId, t) :: rest =>
    match openTopic topicId with
    | Sum.inl err =>
      (some (Err.wrap "opening topic" err), (topicId, { t with topicClient := none }) :: rest)
    | Sum.inr h =>
      ((dialTopics openTopic store rest).1,
        (topicId, store { t with topicClient := some h }) :: (dialTopics openTopic store rest).2)

/-- The method `memPubsubSink.Dial`. -/
def memPubsubSink.Dial (m : memPubsubSink) (openTopic : Nat → Err ⊕ topicClient) :
    Option Err × memPubsubSink :=
  ((dialTopics openTopic id m.pubsubSink.topics).1,
    { m with pubsubSink :=
      { m.pubsubSink with topics := (dialTopics openTopic id m.pubsubSink.topics).2 } })

/-- The method `gcpPubsubSink.Dial`.  `connErr` is the error of
`gcppubsub.Dial`, `clientErr` that of `gcppubsub.PublisherClient`, `host` is
`p.pubsubSink.url.Host`. -/
def gcpPubsubSink.Dial (g : gcpPubsubSink) (connErr clientErr : Option Err)
    (openTopic : Nat → Err ⊕ topicClient) (join : List String → String) (host : String) :
    Option Err × gcpPubsubSink :=
  match connErr with
  | some err => (some (Err.wrap "establishing gcp connection" err), g)
  | none =>
    match clientErr with
    | some err =>
      (some (Err.wrap "creating publisher client" err), { g with conn := true, cleanup := true })
    | none =>
      ((dialTopics openTopic
          (fun t => { t with pathName := createGCPURL join host t.topicName })
          g.pubsubSink.topics).1,
        { g with
          conn := true, cleanup := true, client := true,
          pubsubSink :=
            { g.pubsubSink with topics :=
                (dialTopics openTopic
                  (fun t => { t with pathName := createGCPURL join host t.topicName })
                  g.pubsubSink.topics).2 } })

/-- The registry entry `x` after the loop body of `Dial` has run for it. -/
def dialEntry (openTopic : Nat → Err ⊕ topicClient) (store : topicStruct → topicStruct)
    (x : Nat × topicStruct) : Nat × topicStruct :=
  match openTopic x.1 with
  | Sum.inr h => (x.1, store { x.2 with topicClient := some h })
  | Sum.inl _ => (x.1, { x.2 with topicClient := none })

/-- What the loop of `Dial` does to the registry `ts`, with result `r` and
registry `ts'` afterwards: either every topic was opened, the result is nil and
every entry holds its handle; or the entries before the first failure `x` hold
their handles, `x` holds none, the entries after `x` are untouched, and the
result wraps the failure. -/
def dialKeeps (openTopic : Nat → Err ⊕ topicClient) (store : topicStruct → topicStruct)
    (ts : List (Nat × topicStruct)) (r : Option Err) (ts' : List (Nat × topicStruct)) : Prop :=
  (r = none →
    (∀ x ∈ ts, ∃ h, openTopic x.1 = Sum.inr h) ∧
    ts' = ts.map (dialEntry openTopic store) ∧
    ∀ x ∈ ts', x.2.topicClient ≠ none) ∧
  (∀ e, r = some e → ∃ pre x post e0,
    ts = pre ++ x :: post ∧
    (∀ y ∈ pre, ∃ h, openTopic y.1 = Sum.inr h ∧
      (dialEntry openTopic store y).2.topicClient = some h) ∧
    openTopic x.1 = Sum.inl e0 ∧
    e = Err.wrap "opening topic" e0 ∧
    ts' = pre.map (dialEntry openTopic store) ++ (x.1, { x.2 with topicClient := none }) :: post)

/-! ## Construction -/

/-- The struct `jobspb.ChangefeedTarget`, with the one field that
`MakePubsubSink` reads. -/
structure ChangefeedTarget where
  StatementTimeName : String
  deriving DecidableEq, Repr

/-- The constants of package `changefeedbase` that `MakePubsubSink` uses; the
package is not part of the sources at hand, so they are parameters. -/
structure changefeedbase where
  OptFormat : String
  OptFormatJSON : String
  OptEnvelope : String
  OptEnvelopeWrapped : String
  deriving DecidableEq, Repr

/-- The constant `gcpScheme`. -/
def gcpScheme : String := "gcppubsub"

/-- The constant `memScheme`. -/
def memScheme : String := "mem"

/-- The function `isPubsubSink`, on `u.Scheme`. -/
def isPubsubSink (scheme : String) : Bool :=
  if scheme = gcpScheme ∨ scheme = memScheme then true else false

/-- The interface value `Sink` that `MakePubsubSink` returns. -/
inductive Sink where
  | gcp (g : gcpPubsubSink) : Sink
  | mem (m : memPubsubSink) : Sink
  deriving DecidableEq, Repr

/-- The errors that `MakePubsubSink` returns. -/
inductive makeError where
  /-- The error "this sink is incompatible with `opt`=`value`". -/
  | incompatible (opt : String) (value : String) : makeError
  /-- The error of `getGCPCredentials`. -/
  | credentials (err : Err) : makeError
  /-- The error "unknown scheme: `scheme`". -/
  | unknownScheme (scheme : String) : makeError
  deriving DecidableEq, Repr

/-- The value `opts[key]` of a Go `map[string]string`: the empty string when the
key is missing. -/
def optsGet (opts : List (String × String)) (key : String) : String :=
  (opts.lookup key).getD ""

/-- The entry `&topicStruct{topicName: topicName}` that `MakePubsubSink` builds
for a target: the topic name is the URL parameter `topic_name` when that is not
empty, else the statement-time name of the target. -/
def makeTopic (pubsubTopicName : String) (target : ChangefeedTarget) : topicStruct :=
  { topicName := if pubsubTopicName = "" then target.StatementTimeName else pubsubTopicName,
    pathName := "", topicClient := none }

/-- The registry that `MakePubsubSink` builds, one entry per target. -/
def makeTopics (pubsubTopicName : String) (targets : List (Nat × ChangefeedTarget)) :
    List (Nat × topicStruct) :=
  targets.map fun x => (x.1, makeTopic pubsubTopicName x.2)

/-- The function `MakePubsubSink`.  `scheme` is `u.Scheme`, `pubsubTopicName`
the URL parameter `topic_name`, `credsErr` the error of `getGCPCredentials`.
The result is the error or the sink, and the calls of the `p.close()` that the
failing paths make after `setupWorkers`. -/
def MakePubsubSink (cb : changefeedbase) (scheme pubsubTopicName : String)
    (opts : List (String × String)) (targets : List (Nat × ChangefeedTarget))
    (credsErr : Option Err) : (makeError ⊕ Sink) × List cleanupCall :=
  if optsGet opts cb.OptFormat ≠ cb.OptFormatJSON then
    (Sum.inl (makeError.incompatible cb.OptFormat (optsGet opts cb.OptFormat)), [])
  else if optsGet opts cb.OptEnvelope ≠ cb.OptEnvelopeWrapped then
    (Sum.inl (makeError.incompatible cb.OptEnvelope (optsGet opts cb.OptEnvelope)), [])
  else
    let p : pubsubSink := (setupWorkers (makeTopics pubsubTopicName targets) 100).p
    if scheme = gcpScheme then
      match credsErr with
      | some err => (Sum.inl (makeError.credentials err), (p.close fun _ => none).2)
      | none =>
        (Sum.inr (Sink.gcp { client := false, cleanup := false, pubsubSink := p,
                             conn := false }), [])
    else if scheme = memScheme then
      (Sum.inr (Sink.mem { pubsubSink := p }), [])
    else (Sum.inl (makeError.unknownScheme scheme), (p.close fun _ => none).2)

/-- Every case of the `select` statements of `flush` and `flushWorkers`. -/
def allFlushCases : List flushCase :=
  [flushCase.ctxDone, flushCase.errChan, flushCase.dflt, flushCase.workerCtxDone,
   flushCase.sendFlush, flushCase.sendDone, flushCase.recvDone]

end changefeedccl

namespace main

/-! ## The error report of optgen (`pkg/sql/opt/optgen/cmd/optgen/main.go`) -/

/-- Go's `int` on a 64-bit platform: the result of an arithmetic operation is
reduced to the signed 64-bit range. -/
def wrapInt (x : Int) : Int := (x + 2 ^ 63) % 2 ^ 64 - 2 ^ 63

/-- A line written to `g.stdErr` by the error loop of `run`: either one error
(format `%v`), or the message `... too many errors (%d more)` with its count. -/
inductive Line (E : Type) where
  | error (err : E)
  | tooManyErrors (count : Int)
  deriving DecidableEq, Repr

/-- The field of `optgen` read by the error loop. -/
structure optgen where
  maxErrors : Int
  deriving DecidableEq, Repr

/-- The loop `for i, err := range errors` of `optgen.run`, from index `i` on,
with `len` the value of `len(errors)`: at an index `i >= g.maxErrors-1` the
count `len(errors) - g.maxErrors + 1` is computed and, when it exceeds 1, the
message is written and the loop is left; otherwise the error is written. -/
def optgen.printErrors {E : Type} (g : optgen) (len : Int) : Nat → List E → List (Line E)
  | _, [] => []
  | i, err :: rest =>
    if (i : Int) ≥ wrapInt (g.maxErrors - 1) ∧
        wrapInt (wrapInt (len - g.maxErrors) + 1) > 1 then
      [Line.tooManyErrors (wrapInt (wrapInt (len - g.maxErrors) + 1))]
    else
      Line.error err :: optgen.printErrors g len (i + 1) rest

/-- The block `if errors != nil { ... }` of `optgen.run`: what is written to
`g.stdErr` for the error list `errors`. -/
def optgen.reportErrors {E : Type} (g : optgen) (errors : List E) : List (Line E) :=
  g.printErrors (errors.length : Int) 0 errors

/-- The number of error lines among the written lines. -/
def errorLines {E : Type} (out : List (Line E)) : Nat :=
  (out.filter fun l => match l with
    | Line.error _ => true
    | Line.tooManyErrors _ => false).length

end main

namespace row

/-! ## The lookup queue of FK work (`pkg/sql/row/fk_table_lookup.go`) -/

/-- An `error` value of the callbacks, by a code. -/
structure Err where
  code : Nat
  deriving DecidableEq, Repr

/-- `ID` is an alias for `sqlbase.ID` (table IDs). -/
abbrev ID := Nat

/-- `sqlbase.ImmutableTableDescriptor`, of which the queue reads the name only. -/
structure ImmutableTableDescriptor where
  Name : String
  deriving DecidableEq, Repr

/-- `sqlbase.CheckHelper`: the state that `Init` left in it. -/
structure CheckHelper where
  state : Nat
  deriving DecidableEq, Repr

/-- `sqlbase.AnalyzeExprFunction`: a function value, by its identity. -/
structure AnalyzeExprFunction where
  id : Nat
  deriving DecidableEq, Repr

/-- The privilege kinds that the queue asks for. -/
inductive privilege.Kind where
  | SELECT
  | DELETE
  | UPDATE
  deriving DecidableEq, Repr

/-- What the file uses of package `sqlbase`: the method `CheckHelper.Init`, as a
function of the analysis function, the table name and the descriptor, giving the
initialised helper and the error it returns. -/
structure sqlbase where
  Init : AnalyzeExprFunction → String → ImmutableTableDescriptor → CheckHelper × Option Err

/-- `TableEntry`: an optional table descriptor (`nil` is `none`), the flag
`IsAdding`, and an optional `CheckHelper`. -/
structure TableEntry where
  Table : Option ImmutableTableDescriptor
  IsAdding : Bool
  CheckHelper : Option CheckHelper
  deriving DecidableEq, Repr

/-- The zero value `TableEntry{}`. -/
def TableEntry.zero : TableEntry :=
  { Table := none, IsAdding := false, CheckHelper := none }

/-- `FKCheckType` is an `int`. -/
abbrev FKCheckType := Int

/-- `CheckDeletes` checks if rows reference a changed value. -/
def CheckDeletes : FKCheckType := 0

/-- `CheckInserts` checks if a new value references an existing row. -/
def CheckInserts : FKCheckType := 1

/-- `CheckUpdates` checks all references. -/
def CheckUpdates : FKCheckType := 2

/-- `tableLookupQueueElement` describes one unit of work in the lookup queue. -/
structure tableLookupQueueElement where
  tableEntry : TableEntry
  usage : FKCheckType
  deriving DecidableEq, Repr

/-- `tableLookupQueue`.  A Go map is a list of key-value pairs that is read with
`List.lookup` and written by putting the new pair in front, so that a read finds
the latest write; the inner `map[FKCheckType]struct{}` is the list of its keys.
The callbacks are functions of their arguments other than the context. -/
structure tableLookupQueue where
  queue : List tableLookupQueueElement
  alreadyChecked : List (ID × List FKCheckType)
  result : List (ID × TableEntry)
  tblLookupFn : ID → TableEntry × Option Err
  privCheckFn : ImmutableTableDescriptor → privilege.Kind → Option Err
  analyzeExpr : Option AnalyzeExprFunction

/-- `addCheckHelper` populates the `CheckHelper` field of a `TableEntry`.  The
receiver is a pointer: the entry after the call is returned with the error.
`table` is the descriptor `tl.Table` points to; the one caller has checked that
it is not `nil`. -/
def TableEntry.addCheckHelper (sb : sqlbase) (tl : TableEntry)
    (table : ImmutableTableDescriptor) (analyzeExpr : Option AnalyzeExprFunction) :
    TableEntry × Option Err :=
  match analyzeExpr with
  | none => (tl, none)
  | some f =>
    let r := sb.Init f table.Name table
    ({ tl with CheckHelper := some r.1 }, r.2)

/-- `getTable` retrieves one table's metadata: a cached `TableEntry` is reused,
otherwise it is looked up, checked and stored in `q.result`.  Returns the entry,
the error and the queue after the call. -/
def tableLookupQueue.getTable (sb : sqlbase) (q : tableLookupQueue) (tableID : ID) :
    (TableEntry × Option Err) × tableLookupQueue :=
  match q.result.lookup tableID with
  | some tableEntry => ((tableEntry, none), q)
  | none =>
    match q.tblLookupFn tableID with
    | (_, some err) => ((TableEntry.zero, some err), q)
    | (tableEntry, none) =>
      match tableEntry.IsAdding, tableEntry.Table with
      | false, some table =>
        match q.privCheckFn table privilege.Kind.SELECT with
        | some err => ((TableEntry.zero, some err), q)
        | none =>
          match tableEntry.addCheckHelper sb table q.analyzeExpr with
          | (_, some err) => ((TableEntry.zero, some err), q)
          | (tableEntry, none) =>
            ((tableEntry, none), { q with result := (tableID, tableEntry) :: q.result })
      | _, _ => ((tableEntry, none), { q with result := (tableID, tableEntry) :: q.result })

/-- The privilege check in the `switch usage` of `enqueue`: `DELETE` for
`CheckDeletes`, `UPDATE` for `CheckUpdates`, none for any other usage. -/
def tableLookupQueue.checkUsage (q : tableLookupQueue) (table : ImmutableTableDescriptor)
    (usage : FKCheckType) : Option Err :=
  if usage = CheckDeletes then q.privCheckFn table privilege.Kind.DELETE
  else if usage = CheckUpdates then q.privCheckFn table privilege.Kind.UPDATE
  else none

/-- `enqueue` prepares the lookup work for a given table.  Returns the error and
the queue after the call. -/
def tableLookupQueue.enqueue (sb : sqlbase) (q : tableLookupQueue) (tableID : ID)
    (usage : FKCheckType) : Option Err × tableLookupQueue :=
  match q.getTable sb tableID with
  | ((_, some err), q) => (some err, q)
  | ((tableEntry, none), q) =>
    match tableEntry.Table with
    | none => (none, q)
    | some table =>
      let alreadyCheckByTableID := q.alreadyChecked.lookup tableID
      if (match alreadyCheckByTableID with
          | some inner => inner.contains usage
          | none => false) then (none, q)
      else
        let q : tableLookupQueue :=
          { q with alreadyChecked :=
              (tableID, usage :: alreadyCheckByTableID.getD []) :: q.alreadyChecked }
        if tableEntry.IsAdding then (none, q)
        else
          match q.checkUsage table usage with
          | some err => (some err, q)
          | none =>
            (none, { q with queue := q.queue ++
              [{ tableEntry := tableEntry, usage := usage }] })

/-- `dequeue` retrieves the next item in the queue (and pops it).  Returns the
three results and the queue after the call. -/
def tableLookupQueue.dequeue (q : tableLookupQueue) :
    (TableEntry × FKCheckType × Bool) × tableLookupQueue :=
  match q.queue with
  | [] => ((TableEntry.zero, 0, false), q)
  | elem :: rest => ((elem.tableEntry, elem.usage, true), { q with queue := rest })

/-- A call on the queue, as the lookup loop makes them. -/
inductive queueCall where
  | enqueue (tableID : ID) (usage : FKCheckType)
  | dequeue
  deriving DecidableEq, Repr

/-- What a call did to the queue: `appended` for an element that a call of
`enqueue` with this table ID put at the end, `dequeued` for an element that
`dequeue` returned with `true`. -/
inductive queueEvent where
  | appended (tableID : ID) (elem : tableLookupQueueElement)
  | dequeued (elem : tableLookupQueueElement)
  deriving DecidableEq, Repr

/-- One call on the queue, with its events: for `enqueue`, the elements of the
new queue beyond the length of the old one. -/
def queueCall.run (sb : sqlbase) (q : tableLookupQueue) :
    queueCall → tableLookupQueue × List queueEvent
  | queueCall.enqueue tableID usage =>
    let r := q.enqueue sb tableID usage
    (r.2, (r.2.queue.drop q.queue.length).map (queueEvent.appended tableID))
  | queueCall.dequeue =>
    let r := q.dequeue
    (r.2, if r.1.2.2 then [queueEvent.dequeued { tableEntry := r.1.1, usage := r.1.2.1 }]
          else [])

/-- A sequence of calls on one queue, with the events in order. -/
def runCalls (sb : sqlbase) : tableLookupQueue → List queueCall →
    tableLookupQueue × List queueEvent
  | q, [] => (q, [])
  | q, c :: cs =>
    let r := c.run sb q
    let rs := runCalls sb r.1 cs
    (rs.1, r.2 ++ rs.2)

/-- The elements that were appended, in order. -/
def appendedElems : List queueEvent → List tableLookupQueueElement
  | [] => []
  | queueEvent.appended _ elem :: evs => elem :: appendedElems evs
  | queueEvent.dequeued _ :: evs => appendedElems evs

/-- The elements that were dequeued, in order. -/
def dequeuedElems : List queueEvent → List tableLookupQueueElement
  | [] => []
  | queueEvent.appended _ _ :: evs => dequeuedElems evs
  | queueEvent.dequeued elem :: evs => elem :: dequeuedElems evs

/-- The pairs of table ID and usage for which an element was appended. -/
def appendedPairs : List queueEvent → List (ID × FKCheckType)
  | [] => []
  | queueEvent.appended tableID elem :: evs => (tableID, elem.usage) :: appendedPairs evs
  | queueEvent.dequeued _ :: evs => appendedPairs evs

/-- The table IDs of the `enqueue` calls. -/
def enqueuedIDs : List queueCall → List ID
  | [] => []
  | queueCall.enqueue tableID _ :: cs => tableID :: enqueuedIDs cs
  | queueCall.dequeue :: cs => enqueuedIDs cs

/-- The usages of the `enqueue` calls. -/
def enqueuedUsages : List queueCall → List FKCheckType
  | [] => []
  | queueCall.enqueue _ usage :: cs => usage :: enqueuedUsages cs
  | queueCall.dequeue :: cs => enqueuedUsages cs

/-- The pair of table ID and usage is noted in `alreadyChecked`. -/
def tableLookupQueue.checked (q : tableLookupQueue) (x : ID × FKCheckType) : Bool :=
  match q.alreadyChecked.lookup x.1 with
  | some inner => inner.contains x.2
  | none => false

/-- A lookup function for the samples: tables 1 and 2 are public, table 3 is
being added, any other table is unknown. -/
def sampleLookup (tableID : ID) : TableEntry × Option Err :=
  if tableID = 1 then ({ Table := some { Name := "a" }, IsAdding := false, CheckHelper := none }, none)
  else if tableID = 2 then
    ({ Table := some { Name := "b" }, IsAdding := false, CheckHelper := none }, none)
  else if tableID = 3 then
    ({ Table := some { Name := "c" }, IsAdding := true, CheckHelper := none }, none)
  else (TableEntry.zero, none)

/-- A fresh queue for the samples, with no privilege refused and no analysis
function. -/
def sampleQueue : tableLookupQueue :=
  { queue := [], alreadyChecked := [], result := [],
    tblLookupFn := sampleLookup, privCheckFn := fun _ _ => none, analyzeExpr := none }

/-- The `sqlbase` of the samples: `Init` gives a helper in state 0 and no error. -/
def sampleSqlbase : sqlbase :=
  { Init := fun _ _ _ => ({ state := 0 }, none) }

/-- A sample sequence of calls, with a cycle between tables 1 and 2. -/
def sampleCalls : List queueCall :=
  [queueCall.enqueue 1 CheckUpdates, queueCall.dequeue, queueCall.enqueue 2 CheckDeletes,
   queueCall.enqueue 1 CheckUpdates, queueCall.enqueue 3 CheckInserts,
   queueCall.dequeue, queueCall.enqueue 1 CheckDeletes, queueCall.enqueue 2 CheckDeletes]

end row

namespace changefeedccl

/-! ## Topic paths: `parseGCPURL` -/

/-- An item of the regular expressions of this file: the character `c`, or
`[^c]+`, one or more characters other than `c`. -/
inductive reItem where
  | lit (c : Char)
  | plusNot (c : Char)
  deriving DecidableEq, Repr

/-- `MatchString` for an expression `^ items $`, after package `regexp`: the
whole text is the concatenation of texts that the items match in turn, `[^c]+`
taking any number of characters from one on. -/
def reMatch : List reItem → List Char → Bool
  | [], [] => true
  | [], _ :: _ => false
  | _ :: _, [] => false
  | reItem.lit c :: r, x :: s => x == c && reMatch r s
  | reItem.plusNot c :: r, x :: s => x != c && (reMatch r s || reMatch (reItem.plusNot c :: r) s)

/-- The items for the characters of a string. -/
def reLit (s : String) : List reItem :=
  s.data.map reItem.lit

/-- `fullTopicPathRE`, the expression `^projects/[^/]+/topics/[^/]+$`. -/
def fullTopicPathRE : List reItem :=
  reLit "projects/" ++ [reItem.plusNot '/'] ++ reLit "/topics/" ++ [reItem.plusNot '/']

/-- `shortTopicPathRE`, the expression `^[^/]+/[^/]+$`. -/
def shortTopicPathRE : List reItem :=
  [reItem.plusNot '/', reItem.lit '/', reItem.plusNot '/']

/-- The text before the first `sep` and, when there is one, the text after it. -/
def strings.cut (sep : Char) : List Char → List Char × Option (List Char)
  | [] => ([], none)
  | x :: s =>
    if x = sep then ([], some s)
    else ((x :: (strings.cut sep s).1), (strings.cut sep s).2)

/-- `strings.SplitN(s, sep, n)` for a separator of one character and `n ≥ 0`,
after package `strings`: at most `n` substrings, the last one being the
unsplit remainder; no substring for `n = 0`. -/
def strings.SplitN (s : List Char) (sep : Char) : Nat → List (List Char)
  | 0 => []
  | 1 => [s]
  | n + 2 =>
    match strings.cut sep s with
    | (a, none) => [a]
    | (a, some rest) => a :: strings.SplitN rest sep (n + 1)

/-- All the substrings of `s` between separators `sep`. -/
def strings.Split (sep : Char) (s : List Char) : List (List Char) :=
  strings.SplitN s sep (s.length + 1)

/-- The elements of a path that `path.Clean` keeps, `out` being those kept so
far, last first: empty elements and `.` are dropped; `..` removes the element
before it unless there is none or that is `..` too, in which case `..` is
kept when the path is not rooted and dropped when it is. -/
def path.cleanElems (rooted : Bool) : List (List Char) → List (List Char) → List (List Char)
  | out, [] => out.reverse
  | out, e :: rest =>
    if e = [] ∨ e = ['.'] then path.cleanElems rooted out rest
    else if e = ['.', '.'] then
      match out with
      | top :: below =>
        if top = ['.', '.'] then path.cleanElems rooted (e :: out) rest
        else path.cleanElems rooted below rest
      | [] => if rooted then path.cleanElems rooted [] rest else path.cleanElems rooted [e] rest
    else path.cleanElems rooted (e :: out) rest

/-- `path.Clean`, after package `path`: the shortest path name equivalent to
`p` by lexical processing; the empty string becomes `.`. -/
def path.Clean (p : List Char) : List Char :=
  let rooted := p.head? = some '/'
  let out := ['/'].intercalate (path.cleanElems rooted [] (strings.Split '/' p))
  let out := if rooted then '/' :: out else out
  if out = [] then ['.'] else out

/-- `path.Join`, after package `path`: empty elements are ignored, the others
are joined with slashes and the result is cleaned; when all elements are empty
the result is the empty string. -/
def path.Join (elem : List String) : String :=
  let parts := (elem.filter fun e => e ≠ "").map String.data
  if parts = [] then "" else String.mk (path.Clean (['/'].intercalate parts))

/-- The errors of `parseGCPURL`, by their format string, with the path that is
printed in them. -/
inductive parseError where
  | unexpectedComponents (fullPath : String)
  | couldNotParse (fullPath : String)
  deriving DecidableEq, Repr

/-- The function `parseGCPURL`, with the fields `Host` and `Path` of the URL;
`join` is `path.Join`. -/
def parseGCPURL (join : List String → String) (uHost uPath : String) :
    String × Option parseError :=
  let fullPath := join [uHost, uPath]
  if reMatch fullTopicPathRE fullPath.data then
    let parts := strings.SplitN fullPath.data '/' 4
    if parts.length < 4 then ("", some (parseError.unexpectedComponents fullPath))
    else (fullPath, none)
  else if reMatch shortTopicPathRE fullPath.data then
    (join ["projects", uHost, "topics", uPath], none)
  else ("", some (parseError.couldNotParse fullPath))

/-! ## `emitRow` and the channels that `Close` closes -/

/-- The call `close(p.errChan)` is among the calls that `Close` has made. -/
def errChanClosed (closed : List cleanupCall) : Bool :=
  closed.contains cleanupCall.closeErrChan

/-- The call `close(p.eventsChans[i])` is among the calls that `Close` has made. -/
def eventsChanClosed (closed : List cleanupCall) (i : Nat) : Bool :=
  closed.contains (cleanupCall.closeEventsChan i)

/-- The method `emitRow` on a sink on which `Close` has made the calls `closed`
(no call for a sink in use), as a function of the `select` case that fires; the
other arguments are those of `emitRow` above.

A receive from a closed channel gives what the buffer still holds and, once it
is empty, the zero value at once: the case `err := <-p.errChan` is then ready
with a nil `err`, and `p.sinkError()` returns nil as it does on an open empty
channel.  A send on a closed channel is ready and is a run-time panic. -/
def pubsubSink.emitRow (p : pubsubSink) (closed : List cleanupCall) (recvReady : Nat → Bool)
    (ctxErr : Option Err) (topicID : Nat) (key value : Bytes) (alloc : Nat) (c : emitCase) :
    Outcome (Option Err × pubsubSink × List Event) :=
  match p.topics.lookup topicID with
  | none => Outcome.fault
  | some t =>
    let m : pubsubMessage :=
      { alloc := alloc, isFlush := false, topicId := topicID,
        message := { Key := key, Value := value, Topic := t.topicName } }
    match workerIndex p.numWorkers key with
    | none => Outcome.fault
    | some i =>
      match c with
      | emitCase.workerCtxDone =>
        match p.workerCtx with
        | none => Outcome.blocked
        | some e => Outcome.done (CombineErrors (some e) (sinkError p).1, (sinkError p).2, [])
      | emitCase.ctxDone =>
        match ctxErr with
        | none => Outcome.blocked
        | some e => Outcome.done (some e, p, [])
      | emitCase.errChan =>
        match p.errChan with
        | some err => Outcome.done (some err, { p with errChan := none }, [])
        | none => if errChanClosed closed then Outcome.done (none, p, []) else Outcome.blocked
      | emitCase.send =>
        if eventsChanClosed closed i then Outcome.fault
        else if recvReady i then Outcome.done (none, p, [Event.handoff i m])
        else Outcome.blocked

/-- One element of a path as `path.Clean` keeps it: not empty, without a
slash, and neither `.` nor `..`. -/
def pathElement (e : List Char) : Bool :=
  !e.isEmpty && !e.contains '/' && e != ['.'] && e != ['.', '.']

/-! ## Predicates used in the proofs -/

/-- How a worker changes place in a step of its own, and the events of that
step. -/
inductive workerMove (j : Nat) : workerPC → workerPC → List Event → Prop where
  | stop : workerMove j workerPC.idle workerPC.stopped []
  | marshal (msg : pubsubMessage) (b : Bytes) :
      workerMove j (workerPC.marshal msg) (workerPC.send msg b) []
  | marshalFail (msg : pubsubMessage) (b : Bytes) :
      workerMove j (workerPC.marshal msg) (workerPC.marshalExit msg b) []
  | marshalExit (msg : pubsubMessage) (b : Bytes) :
      workerMove j (workerPC.marshalExit msg b) (workerPC.send msg b) []
  | send (msg : pubsubMessage) (b : Bytes) (call : transportCall) :
      workerMove j (workerPC.send msg b) (workerPC.release msg) [Event.publish j msg call]
  | sendFail (msg : pubsubMessage) (b : Bytes) (call : transportCall) :
      workerMove j (workerPC.send msg b) (workerPC.sendExit msg) [Event.publish j msg call]
  | sendExit (msg : pubsubMessage) :
      workerMove j (workerPC.sendExit msg) (workerPC.release msg) []
  | release (msg : pubsubMessage) :
      workerMove j (workerPC.release msg) workerPC.idle [Event.release msg.alloc]

/-- What a step of a caller inside `flush` can be. -/
inductive flushMove (p : pubsubSink) (rr : Nat → Bool) : flushPC → flushPC → List Event → Prop
    where
  | enter : flushMove p rr flushPC.select1 (flushLoop p 0) []
  | fail1 (e : Err) : flushMove p rr flushPC.select1 (flushPC.returned (some e)) []
  | marker (i : Nat) (h : rr i = true) :
      flushMove p rr (flushPC.workers i) (flushLoop p (i + 1)) [Event.handoff i flushMessage]
  | failWorkers (i : Nat) (e : Err) :
      flushMove p rr (flushPC.workers i) (flushPC.returned (some e)) []
  | signalled : flushMove p rr flushPC.signal flushPC.select2 []
  | failSignal (e : Err) : flushMove p rr flushPC.signal (flushPC.returned (some e)) []
  | finish (r : Option Err) : flushMove p rr flushPC.select2 (flushPC.returned r) []

/-- What one step of the running sink does to the workers and to the log. -/
inductive Moved (s s' : State) : Prop where
  /-- No handoff and no worker step: the workers stay, the log gets at most
  sends of resolved timestamps. -/
  | quiet (evs : List Event) (hw : s'.workers = s.workers) (hl : s'.log = s.log ++ evs)
      (hq : ∀ e ∈ evs, ∃ t c, e = Event.publishResolved t c) : Moved s s'
  /-- Some `emitRow` handed a row message to the waiting worker `i`. -/
  | accept (i : Nat) (m : pubsubMessage) (hr : s.workers[i]? = some workerPC.idle)
      (hm : m.isFlush = false) (hi : workerIndex s.p.numWorkers m.message.Key = some i)
      (hw : s'.workers = s.workers.set i (workerPC.marshal m))
      (hl : s'.log = s.log ++ [Event.handoff i m]) : Moved s s'
  /-- Some `flushWorkers` handed a flush marker to the waiting worker `i`. -/
  | barrier (i : Nat) (hr : s.workers[i]? = some workerPC.idle)
      (hw : s'.workers = s.workers)
      (hl : s'.log = s.log ++ [Event.handoff i flushMessage]) : Moved s s'
  /-- Worker `j` took a step of its own. -/
  | work (j : Nat) (pc pc' : workerPC) (evs : List Event) (hj : s.workers[j]? = some pc)
      (hw : s'.workers = s.workers.set j pc') (hl : s'.log = s.log ++ evs)
      (hm : workerMove j pc pc' evs) : Moved s s'

/-- The message that worker `j` has dequeued and not yet passed to the
transport, if there is one. -/
def inflightAt (ws : List workerPC) (j : Nat) : List pubsubMessage :=
  match ws[j]? with
  | some pc => inflight pc
  | none => []

/-- The invariant of the running sink: there is one goroutine per worker;
each worker has called the transport for the row messages handed to it, in the
order of handoff, up to the one it is busy with; and a row message is only ever
handed to the mailbox that `workerIndex` gives for its key. -/
structure Inv (s : State) : Prop where
  len : s.workers.length = s.p.numWorkers
  work : ∀ j, publishedBy j s.log ++ inflightAt s.workers j = handedTo j s.log
  idx : ∀ i m, Event.handoff i m ∈ s.log → m.isFlush = false →
    workerIndex s.p.numWorkers m.message.Key = some i

/-- Every worker below `k` has called the transport for all the row messages
that the log `L0` shows as handed to it. -/
def covered (L0 : List Event) (s : State) (k : Nat) : Prop :=
  ∀ j, j < k → handedTo j L0 <+: publishedBy j s.log

/-- What a caller inside `flush` knows at each place about the log `L0` of the
moment it entered: a marker was taken by every worker below the loop index,
and a worker takes a marker only when it is done with what it got before. -/
def flushProgress (L0 : List Event) (s : State) : flushPC → Prop
  | flushPC.select1 => True
  | flushPC.workers i => covered L0 s i
  | flushPC.signal => covered L0 s s.p.numWorkers
  | flushPC.select2 => covered L0 s s.p.numWorkers
  | flushPC.returned none => covered L0 s s.p.numWorkers
  | flushPC.returned (some _) => True

/-- The invariant of the caller `t` inside `flush` that entered when the log
was `L0`. -/
def FInv (L0 : List Event) (t : Nat) (s : State) : Prop :=
  L0 <+: s.log ∧ ∀ th, s.flushes[t]? = some th → flushProgress L0 s th.pc

/-- The steps whose `select` case receives from `p.errChan`, directly or
through `sinkError`. -/
def Action.readsErrChan : Action → Bool
  | Action.emitRow _ _ _ _ _ emitCase.errChan => true
  | Action.emitRow _ _ _ _ _ emitCase.workerCtxDone => true
  | Action.flushStep _ flushCase.errChan => true
  | Action.flushStep _ flushCase.recvDone => true
  | _ => false

/-! ## Sample data -/

/-- A registry with one dialed GCP topic, of ID 7. -/
def sampleTopics : List (Nat × topicStruct) :=
  [(7, { topicName := "t", pathName := "projects/p/topics/t",
         topicClient := some { isGcp := true } })]

/-- A sink with two workers, cancelled, whose error channel holds an error. -/
def failedSink : pubsubSink :=
  { topics := sampleTopics, numWorkers := 2, workerCtx := some Err.canceled,
    exitWorkersCalls := 1, errChan := some (Err.external 3), flushDone := false }

/-- A row message for the topic of `sampleTopics`. -/
def sampleMessage (alloc : Nat) (key : Bytes) : pubsubMessage :=
  { alloc := alloc, message := { Key := key, Value := [1], Topic := "t" }, isFlush := false,
    topicId := 7 }

/-- A run with two workers: a row with key `a` (mailbox 1) is accepted and
published, then a second row with the same key is accepted. -/
def sampleRun1 : List Action :=
  [Action.emitRow none 7 [0x61] [1] 5 emitCase.send,
   Action.workerStep 1 [9] none none,
   Action.workerStep 1 [] none none,
   Action.workerStep 1 [] none none,
   Action.emitRow none 7 [0x61] [1] 6 emitCase.send]

/-- The state after `sampleRun1`. -/
def sampleState1 : State :=
  (run (setupWorkers sampleTopics 2) sampleRun1).getD (setupWorkers sampleTopics 2)

/-- The steps of a `flush` call, thread 0, that returns nil; worker 1 finishes
its message before it takes the marker. -/
def sampleRun2 : List Action :=
  [Action.flushStep 0 flushCase.dflt,
   Action.flushStep 0 flushCase.sendFlush,
   Action.workerStep 1 [9] none none,
   Action.workerStep 1 [] none none,
   Action.workerStep 1 [] none none,
   Action.flushStep 0 flushCase.sendFlush,
   Action.flushStep 0 flushCase.sendDone,
   Action.flushStep 0 flushCase.recvDone]

/-- The state after `sampleRun1`, a call of `flush` and `sampleRun2`. -/
def sampleState2 : State :=
  (run sampleState1 (Action.flushCall none :: sampleRun2)).getD sampleState1

/-- A run with two workers in which the publish of the first row fails with
error 3 and worker 1 sends the error into the error channel; its call of the
cancel function is still to come. -/
def recordRun : List Action :=
  [Action.emitRow none 7 [0x61] [1] 5 emitCase.send,
   Action.workerStep 1 [9] none none,
   Action.workerStep 1 [] none (some (Err.external 3))]

/-- The state after `recordRun`. -/
def recordedState : State :=
  (run (setupWorkers sampleTopics 2) recordRun).getD (setupWorkers sampleTopics 2)

/-- The run `recordRun` followed by the call of the cancel function: the error
is recorded and the pool is cancelled. -/
def failRun : List Action :=
  recordRun ++ [Action.workerStep 1 [] none none]

/-- The state after `failRun`. -/
def failedState : State :=
  (run (setupWorkers sampleTopics 2) failRun).getD (setupWorkers sampleTopics 2)

/-- The state after `failRun` and one call of `emitRow` that received the
recorded error from the error channel. -/
def drainedState : State :=
  (step failedState (Action.emitRow none 7 [0x61] [1] 6 emitCase.errChan)).getD failedState

/-- A run with two workers in which a caller is inside `flushWorkers`, waiting
for worker 1, when the publish of worker 1 fails with error 3: the error is
recorded, the pool is cancelled, and the caller takes the case
`<-p.workerCtx.Done()`. -/
def flushFailRun : List Action :=
  [Action.emitRow none 7 [0x61] [1] 5 emitCase.send,
   Action.flushCall none,
   Action.flushStep 0 flushCase.dflt,
   Action.flushStep 0 flushCase.sendFlush,
   Action.workerStep 1 [9] none none,
   Action.workerStep 1 [] none (some (Err.external 3)),
   Action.workerStep 1 [] none none,
   Action.flushStep 0 flushCase.workerCtxDone]

/-- A fresh sink with two workers. -/
def freshSink : pubsubSink :=
  (setupWorkers sampleTopics 2).p

/-- The steps of a call of `flushWorkers` that goes through, on `freshSink` with
both workers waiting. -/
def sampleFlushEnvs : List flushEnv :=
  [{ p := freshSink, recvReady := fun _ => true, c := flushCase.sendFlush },
   { p := freshSink, recvReady := fun _ => true, c := flushCase.sendFlush },
   { p := freshSink, recvReady := fun _ => true, c := flushCase.sendDone }]

/-- A registry with two topics that are not opened yet, of IDs 7 and 8. -/
def twoTopics : List (Nat × topicStruct) :=
  [(7, { topicName := "t", pathName := "", topicClient := none }),
   (8, { topicName := "u", pathName := "", topicClient := none })]

/-- A registry entry with an opened topic of the in-memory transport. -/
def openMemTopic (topicId : Nat) (topicName : String) : Nat × topicStruct :=
  (topicId, { topicName := topicName, pathName := "", topicClient := some { isGcp := false } })

/-- A registry with two opened topics of the in-memory transport. -/
def twoOpenTopics : List (Nat × topicStruct) :=
  [openMemTopic 7 "t", openMemTopic 8 "u"]

/-- A sink with two workers over `twoOpenTopics`. -/
def twoTopicSink : pubsubSink :=
  (setupWorkers twoOpenTopics 2).p

/-- An in-memory sink with two workers whose topics are not opened yet. -/
def sampleMemSink : memPubsubSink :=
  { pubsubSink := (setupWorkers twoTopics 2).p }

/-- A run with two workers in which `json.Marshal` fails with error 4 for the
row that worker 1 dequeued, and the worker goes on. -/
def marshalFailRun : List Action :=
  [Action.emitRow none 7 [0x61] [1] 5 emitCase.send,
   Action.workerStep 1 [] (some (Err.external 4)) none,
   Action.workerStep 1 [] none none,
   Action.workerStep 1 [] none none]

/-- A run with two workers: worker 1 is busy with a row, a caller of `flush` has
handed its marker to worker 0 and waits in `flushWorkers` for worker 1, and
the context of the caller is cancelled. -/
def blockedFlushRun : List Action :=
  [Action.emitRow none 7 [0x61] [1] 5 emitCase.send,
   Action.flushCall none,
   Action.flushStep 0 flushCase.dflt,
   Action.flushStep 0 flushCase.sendFlush,
   Action.ctxCancel 0 Err.canceled]

/-- The state after `blockedFlushRun`. -/
def blockedFlushState : State :=
  (run (setupWorkers sampleTopics 2) blockedFlushRun).getD (setupWorkers sampleTopics 2)

/-- A run with two workers: a caller of `flush` goes through `flushWorkers`, its
context is cancelled, and its final `select` takes the case `<-ctx.Done()`. -/
def leakRun : List Action :=
  [Action.flushCall none,
   Action.flushStep 0 flushCase.dflt,
   Action.flushStep 0 flushCase.sendFlush,
   Action.flushStep 0 flushCase.sendFlush,
   Action.flushStep 0 flushCase.sendDone,
   Action.ctxCancel 0 Err.canceled,
   Action.flushStep 0 flushCase.ctxDone]

/-- The state after `leakRun`. -/
def leakedState : State :=
  (run (setupWorkers sampleTopics 2) leakRun).getD (setupWorkers sampleTopics 2)

/-- The state after `leakRun` and a second call of `flush` that went as far as
the last `select` of `flushWorkers`. -/
def secondFlushState : State :=
  (run leakedState
    [Action.flushCall none, Action.flushStep 1 flushCase.dflt,
     Action.flushStep 1 flushCase.sendFlush, Action.flushStep 1 flushCase.sendFlush]).getD
    leakedState

/-- Sample values for the constants of package `changefeedbase`. -/
def sampleBase : changefeedbase :=
  { OptFormat := "format", OptFormatJSON := "json",
    OptEnvelope := "envelope", OptEnvelopeWrapped := "wrapped" }

/-! ## Facts about the checksum -/

theorem crcRound_lt (poly crc : Nat) (hp : poly < 2 ^ 32) (hc : crc < 2 ^ 32) :
    crcRound poly crc < 2 ^ 32 := by
  have hs : crc >>> 1 < 2 ^ 32 := by
    rw [Nat.shiftRight_eq_div_pow]
    exact lt_of_le_of_lt (Nat.div_le_self _ _) hc
  unfold crcRound
  split
  · exact Nat.xor_lt_two_pow hs hp
  · exact hs

theorem crcRound_iterate_lt (poly : Nat) (hp : poly < 2 ^ 32) (n crc : Nat)
    (hc : crc < 2 ^ 32) : (crcRound poly)^[n] crc < 2 ^ 32 := by
  induction n generalizing crc with
  | zero => simpa using hc
  | succ n ih =>
    rw [Function.iterate_succ_apply]
    exact ih _ (crcRound_lt poly crc hp hc)

theorem simpleTableEntry_lt (poly i : Nat) (hp : poly < 2 ^ 32) (hi : i < 2 ^ 32) :
    simpleTableEntry poly i < 2 ^ 32 :=
  crcRound_iterate_lt poly hp 8 i hi

theorem simpleUpdate_lt (poly crc : Nat) (p : Bytes) (hp : poly < 2 ^ 32)
    (hc : crc < 2 ^ 32) : simpleUpdate poly crc p < 2 ^ 32 := by
  have hfold : ∀ (q : Bytes) (c : Nat), c < 2 ^ 32 →
      q.foldl (fun c v => simpleTableEntry poly ((c % 256) ^^^ (v % 256)) ^^^ (c >>> 8)) c
        < 2 ^ 32 := by
    intro q
    induction q with
    | nil => intro c hc; simpa using hc
    | cons v q ih =>
      intro c hc
      rw [List.foldl_cons]
      apply ih
      have hidx : (c % 256) ^^^ (v % 256) < 2 ^ 32 := by
        have h8 : (c % 256) ^^^ (v % 256) < 2 ^ 8 :=
          Nat.xor_lt_two_pow (Nat.mod_lt _ (by norm_num)) (Nat.mod_lt _ (by norm_num))
        exact lt_trans h8 (by norm_num)
      have hsh : c >>> 8 < 2 ^ 32 := by
        rw [Nat.shiftRight_eq_div_pow]
        exact lt_of_le_of_lt (Nat.div_le_self _ _) hc
      exact Nat.xor_lt_two_pow (simpleTableEntry_lt poly _ hp hidx) hsh
  unfold simpleUpdate
  exact Nat.xor_lt_two_pow
    (hfold p _ (Nat.xor_lt_two_pow hc (by norm_num))) (by norm_num)

theorem ChecksumIEEE_lt (data : Bytes) : ChecksumIEEE data < 2 ^ 32 :=
  simpleUpdate_lt IEEE 0 data (by norm_num [IEEE]) (by norm_num)

theorem ChecksumIEEE_nil : ChecksumIEEE [] = 0 := by decide

theorem ChecksumIEEE_a : ChecksumIEEE [0x61] = 0xe8b7be43 := by decide

theorem ChecksumIEEE_check :
    ChecksumIEEE [0x31, 0x32, 0x33, 0x34, 0x35, 0x36, 0x37, 0x38, 0x39] = 0xcbf43926 := by
  decide!

theorem setupWorkers_workers_length (topics : List (Nat × topicStruct)) (numWorkers : Nat) :
    (setupWorkers topics numWorkers).workers.length = numWorkers := by
  simp [setupWorkers]

/-! ## Hash stability and the worker index -/

/-- C3: for `0 < numWorkers < 2^32`, `workerIndex` is the CRC-32 (IEEE) checksum of
the key, a 32-bit value, modulo `numWorkers`; it is below `numWorkers`, hence a
valid index into the `numWorkers` channels that `setupWorkers` creates.  With
`numWorkers = 0` the computation divides by zero (`none`). -/
theorem workerIndex_spec (topics : List (Nat × topicStruct)) (numWorkers : Nat) (key : Bytes)
    (hpos : 0 < numWorkers) (h32 : numWorkers < 2 ^ 32) :
    ChecksumIEEE key < 2 ^ 32 ∧
    workerIndex numWorkers key = some (ChecksumIEEE key % numWorkers) ∧
    ChecksumIEEE key % numWorkers < numWorkers ∧
    ChecksumIEEE key % numWorkers < (setupWorkers topics numWorkers).workers.length ∧
    workerIndex 0 key = none := by
  have hmod : numWorkers % 2 ^ 32 = numWorkers := Nat.mod_eq_of_lt h32
  refine ⟨ChecksumIEEE_lt key, ?_, Nat.mod_lt _ hpos, ?_, ?_⟩
  · unfold workerIndex
    rw [hmod, if_neg (Nat.pos_iff_ne_zero.mp hpos)]
  · rw [setupWorkers_workers_length]
    exact Nat.mod_lt _ hpos
  · simp [workerIndex]

theorem workerIndex_spec_witness :
    ChecksumIEEE [0x61] < 2 ^ 32 ∧
    workerIndex 100 [0x61] = some (ChecksumIEEE [0x61] % 100) ∧
    ChecksumIEEE [0x61] % 100 < 100 ∧
    ChecksumIEEE [0x61] % 100 < (setupWorkers sampleTopics 100).workers.length ∧
    workerIndex 0 [0x61] = none :=
  workerIndex_spec sampleTopics 100 [0x61] (by decide) (by decide)

theorem emitRow_events (p : pubsubSink) (recvReady : Nat → Bool) (ctxErr : Option Err)
    (topicID : Nat) (key value : Bytes) (alloc : Nat) (c : emitCase)
    (r : Option Err) (p' : pubsubSink) (evs : List Event)
    (h : emitRow p recvReady ctxErr topicID key value alloc c = Outcome.done (r, p', evs)) :
    (r ≠ none ∧ evs = []) ∨
    (r = none ∧ c = emitCase.send ∧ p' = p ∧ ∃ i t,
      workerIndex p.numWorkers key = some i ∧ recvReady i = true ∧
      p.topics.lookup topicID = some t ∧
      evs = [Event.handoff i
        { alloc := alloc, isFlush := false, topicId := topicID,
          message := { Key := key, Value := value, Topic := t.topicName } }]) := by
  unfold emitRow at h
  cases ht : p.topics.lookup topicID with
  | none => simp [ht] at h
  | some t =>
    cases hi : workerIndex p.numWorkers key with
    | none => simp [ht, hi] at h
    | some i =>
      simp only [ht, hi] at h
      cases c with
      | workerCtxDone =>
        cases hw : p.workerCtx with
        | none => simp [hw] at h
        | some w =>
          simp only [hw, Outcome.done.injEq, Prod.mk.injEq] at h
          obtain ⟨hr, -, hev⟩ := h
          left
          refine ⟨?_, hev.symm⟩
          rw [← hr]
          cases (sinkError p).1 <;> simp [CombineErrors]
      | ctxDone =>
        cases hc : ctxErr with
        | none => simp [hc] at h
        | some e =>
          simp only [hc, Outcome.done.injEq, Prod.mk.injEq] at h
          obtain ⟨hr, -, hev⟩ := h
          left
          exact ⟨by rw [← hr]; simp, hev.symm⟩
      | errChan =>
        cases hc : p.errChan with
        | none => simp [hc] at h
        | some e =>
          simp only [hc, Outcome.done.injEq, Prod.mk.injEq] at h
          obtain ⟨hr, -, hev⟩ := h
          left
          exact ⟨by rw [← hr]; simp, hev.symm⟩
      | send =>
        by_cases hrr : recvReady i = true
        · simp only [hrr, if_true, Outcome.done.injEq, Prod.mk.injEq] at h
          obtain ⟨hr, hp, hev⟩ := h
          right
          exact ⟨hr.symm, rfl, hp.symm, i, t, rfl, hrr, rfl, hev.symm⟩
        · simp [hrr] at h

/-- C2: two calls of `emitRow` with the same key bytes on sinks with the same
`numWorkers` offer their message to the same mailbox, namely
`workerIndex numWorkers key`, whatever the topic, the value, the alloc, the
caller context and the rest of the sink state are. -/
theorem emitRow_same_key_same_mailbox (p1 p2 : pubsubSink) (key : Bytes)
    (rr1 rr2 : Nat → Bool) (ctx1 ctx2 : Option Err) (topic1 topic2 : Nat)
    (value1 value2 : Bytes) (alloc1 alloc2 : Nat) (c1 c2 : emitCase)
    (r1 r2 : Option Err × pubsubSink × List Event) (i1 i2 : Nat) (m1 m2 : pubsubMessage)
    (hn : p1.numWorkers = p2.numWorkers)
    (h1 : emitRow p1 rr1 ctx1 topic1 key value1 alloc1 c1 = Outcome.done r1)
    (h2 : emitRow p2 rr2 ctx2 topic2 key value2 alloc2 c2 = Outcome.done r2)
    (hm1 : Event.handoff i1 m1 ∈ r1.2.2) (hm2 : Event.handoff i2 m2 ∈ r2.2.2) :
    i1 = i2 ∧ workerIndex p1.numWorkers key = some i1 := by
  obtain ⟨e1, q1, evs1⟩ := r1
  obtain ⟨e2, q2, evs2⟩ := r2
  rcases emitRow_events _ _ _ _ _ _ _ _ _ _ _ h1 with ⟨-, hev⟩ | ⟨-, -, -, j1, t1, hj1, -, -, hev⟩
  · simp [hev] at hm1
  rcases emitRow_events _ _ _ _ _ _ _ _ _ _ _ h2 with ⟨-, hev'⟩ | ⟨-, -, -, j2, t2, hj2, -, -, hev'⟩
  · simp [hev'] at hm2
  simp only [hev, List.mem_singleton, Event.handoff.injEq] at hm1
  simp only [hev', List.mem_singleton, Event.handoff.injEq] at hm2
  rw [← hn] at hj2
  rw [hj1] at hj2
  have hjj : j1 = j2 := by simpa using hj2
  refine ⟨?_, ?_⟩
  · rw [hm1.1, hm2.1, hjj]
  · rw [hj1, hm1.1]

theorem emitRow_same_key_same_mailbox_witness :
    1 = 1 ∧ workerIndex failedSink.numWorkers [0x61] = some 1 :=
  emitRow_same_key_same_mailbox failedSink { failedSink with errChan := none } [0x61]
    (fun _ => true) (fun _ => true) none (some Err.canceled) 7 7 [1] [2] 5 6
    emitCase.send emitCase.send
    (none, failedSink, [Event.handoff 1 (sampleMessage 5 [0x61])])
    (none, { failedSink with errChan := none },
      [Event.handoff 1 { sampleMessage 6 [0x61] with message := { Key := [0x61], Value := [2], Topic := "t" } }])
    1 1 (sampleMessage 5 [0x61])
    { sampleMessage 6 [0x61] with message := { Key := [0x61], Value := [2], Topic := "t" } }
    rfl (by decide) (by decide) (by simp) (by simp)

/-- On a sink on which `Close` has closed neither `errChan` nor the mailbox of
the key, the method is `emitRow` as embedded for the sink in use. -/
theorem emitRow_open (p : pubsubSink) (closed : List cleanupCall) (recvReady : Nat → Bool)
    (ctxErr : Option Err) (topicID : Nat) (key value : Bytes) (alloc : Nat) (c : emitCase)
    (he : errChanClosed closed = false) (hm : ∀ i, eventsChanClosed closed i = false) :
    p.emitRow closed recvReady ctxErr topicID key value alloc c =
      emitRow p recvReady ctxErr topicID key value alloc c := by
  unfold pubsubSink.emitRow emitRow
  cases p.topics.lookup topicID with
  | none => rfl
  | some t =>
    cases workerIndex p.numWorkers key with
    | none => rfl
    | some i =>
      cases c with
      | workerCtxDone => rfl
      | ctxDone => rfl
      | errChan => cases hc : p.errChan <;> simp [he]
      | send => simp [hm i]

/-- C5, checked against the code: `memPubsubSink.Close` on a sink with two
workers calls `exitWorkers`, waits, and closes `errChan`, `flushDone` and both
mailboxes.  A call of `emitRow` on the sink after that, whose `select` takes
the case `err := <-p.errChan`, returns nil and has no event: the message is
handed to no mailbox.  The case `p.eventsChans[i] <- m` is a panic there. -/
theorem emitRow_nil_after_Close :
    memPubsubSink.Close ⟨freshSink⟩ =
      (none, [cleanupCall.exitWorkers, cleanupCall.Wait, cleanupCall.closeErrChan,
        cleanupCall.closeFlushDone, cleanupCall.closeEventsChan 0,
        cleanupCall.closeEventsChan 1]) ∧
    (exitWorkers freshSink).emitRow (memPubsubSink.Close ⟨freshSink⟩).2 (fun _ => false) none
        7 [0x61] [1] 5 emitCase.errChan =
      Outcome.done (none, exitWorkers freshSink, []) ∧
    (exitWorkers freshSink).emitRow (memPubsubSink.Close ⟨freshSink⟩).2 (fun _ => false) none
        7 [0x61] [1] 5 emitCase.send = Outcome.fault := by
  decide

/-- C5 (amended): for a call of `emitRow` on a sink on which `Close` has made the
calls `closed` (none for a sink in use),

* when it returns a non-nil error, the call handed the message to no mailbox and
  released nothing (it has no event at all);
* when it returns nil and `errChan` has not been closed, its events are exactly
  one handoff, of the message built from the arguments (with the caller's
  alloc), to the mailbox `workerIndex numWorkers key`, whose worker was waiting
  to receive;
* when it returns nil without a handoff, `errChan` has been closed and is empty,
  the `select` took the case `err := <-p.errChan`, and the sink is unchanged;
* in every case the events are none or that one handoff. -/
theorem emitRow_error_iff_no_handoff (p : pubsubSink) (closed : List cleanupCall)
    (recvReady : Nat → Bool)
    (ctxErr : Option Err) (topicID : Nat) (key value : Bytes) (alloc : Nat) (c : emitCase)
    (r : Option Err) (p' : pubsubSink) (evs : List Event)
    (h : p.emitRow closed recvReady ctxErr topicID key value alloc c =
      Outcome.done (r, p', evs)) :
    (r ≠ none → evs = []) ∧
    (r = none → errChanClosed closed = false →
      ∃ i m, evs = [Event.handoff i m] ∧ workerIndex p.numWorkers key = some i ∧
        recvReady i = true ∧ m.alloc = alloc ∧ m.isFlush = false ∧ m.topicId = topicID ∧
        m.message.Key = key ∧ m.message.Value = value) ∧
    (r = none → evs = [] →
      errChanClosed closed = true ∧ c = emitCase.errChan ∧ p.errChan = none ∧ p' = p) ∧
    (evs = [] ∨
      ∃ i m, evs = [Event.handoff i m] ∧ workerIndex p.numWorkers key = some i ∧
        eventsChanClosed closed i = false ∧ recvReady i = true ∧ r = none ∧ m.alloc = alloc ∧
        m.isFlush = false ∧ m.topicId = topicID ∧ m.message.Key = key ∧
        m.message.Value = value) := by
  unfold pubsubSink.emitRow at h
  cases ht : p.topics.lookup topicID with
  | none => simp [ht] at h
  | some t =>
    cases hi : workerIndex p.numWorkers key with
    | none => simp [ht, hi] at h
    | some i =>
      simp only [ht, hi] at h
      cases c with
      | workerCtxDone =>
        cases hw : p.workerCtx with
        | none => simp [hw] at h
        | some w =>
          simp only [hw, Outcome.done.injEq, Prod.mk.injEq] at h
          obtain ⟨hr, -, hev⟩ := h
          have hne : r ≠ none := by
            rw [← hr]
            cases (sinkError p).1 <;> simp [CombineErrors]
          exact ⟨fun _ => hev.symm, fun h0 => absurd h0 hne, fun h0 => absurd h0 hne,
            Or.inl hev.symm⟩
      | ctxDone =>
        cases hc : ctxErr with
        | none => simp [hc] at h
        | some e =>
          simp only [hc, Outcome.done.injEq, Prod.mk.injEq] at h
          obtain ⟨hr, -, hev⟩ := h
          have hne : r ≠ none := by
            rw [← hr]
            simp
          exact ⟨fun _ => hev.symm, fun h0 => absurd h0 hne, fun h0 => absurd h0 hne,
            Or.inl hev.symm⟩
      | errChan =>
        cases hc : p.errChan with
        | some e =>
          simp only [hc, Outcome.done.injEq, Prod.mk.injEq] at h
          obtain ⟨hr, -, hev⟩ := h
          have hne : r ≠ none := by
            rw [← hr]
            simp
          exact ⟨fun _ => hev.symm, fun h0 => absurd h0 hne, fun h0 => absurd h0 hne,
            Or.inl hev.symm⟩
        | none =>
          simp only [hc] at h
          by_cases hcl : errChanClosed closed = true
          · simp only [hcl, if_true, Outcome.done.injEq, Prod.mk.injEq] at h
            obtain ⟨-, hp, hev⟩ := h
            refine ⟨fun _ => hev.symm, fun _ h1 => ?_, fun _ _ => ⟨hcl, rfl, rfl, hp.symm⟩,
              Or.inl hev.symm⟩
            rw [hcl] at h1
            exact absurd h1 (by simp)
          · simp [hcl] at h
      | send =>
        by_cases hcl : eventsChanClosed closed i = true
        · simp [hcl] at h
        · by_cases hrr : recvReady i = true
          · simp only [hcl, hrr, if_true, Bool.false_eq_true, if_false, Outcome.done.injEq,
              Prod.mk.injEq] at h
            obtain ⟨hr, -, hev⟩ := h
            have hex : ∃ i m, evs = [Event.handoff i m] ∧
                workerIndex p.numWorkers key = some i ∧
                eventsChanClosed closed i = false ∧ recvReady i = true ∧ r = none ∧
                m.alloc = alloc ∧ m.isFlush = false ∧ m.topicId = topicID ∧
                m.message.Key = key ∧ m.message.Value = value :=
              ⟨i, _, hev.symm, hi ▸ rfl, by simpa using hcl, hrr, hr.symm, rfl, rfl, rfl, rfl,
                rfl⟩
            obtain ⟨i0, m0, e1, e2, e3, e4, e5, e6, e7, e8, e9, e10⟩ := hex
            rw [hi] at e2
            refine ⟨fun h0 => absurd hr.symm h0, fun _ _ =>
              ⟨i0, m0, e1, e2, e4, e6, e7, e8, e9, e10⟩, fun _ h1 => ?_,
              Or.inr ⟨i0, m0, e1, e2, e3, e4, e5, e6, e7, e8, e9, e10⟩⟩
            rw [e1] at h1
            exact absurd h1 (by simp)
          · simp [hcl, hrr] at h

theorem emitRow_error_iff_no_handoff_witness :
    failedSink.emitRow [] (fun _ => true) none 7 [0x61] [1] 5 emitCase.send =
      Outcome.done (none, failedSink, [Event.handoff 1 (sampleMessage 5 [0x61])]) ∧
    failedSink.emitRow [] (fun _ => true) none 7 [0x61] [1] 5 emitCase.errChan =
      Outcome.done (some (Err.external 3), { failedSink with errChan := none }, []) ∧
    ([Event.handoff 1 (sampleMessage 5 [0x61])] = ([] : List Event) ∨
      ∃ i m, [Event.handoff 1 (sampleMessage 5 [0x61])] = [Event.handoff i m] ∧
        workerIndex failedSink.numWorkers [0x61] = some i ∧
        eventsChanClosed [] i = false ∧ (fun _ => true) i = true ∧
        (none : Option Err) = none ∧ m.alloc = 5 ∧
        m.isFlush = false ∧ m.topicId = 7 ∧ m.message.Key = [0x61] ∧
        m.message.Value = [1]) :=
  ⟨by decide, by decide,
   (emitRow_error_iff_no_handoff failedSink [] (fun _ => true) none 7 [0x61] [1] 5
      emitCase.send none failedSink [Event.handoff 1 (sampleMessage 5 [0x61])]
      (by decide)).2.2.2⟩

/-! ## The worker iteration -/

theorem sendMessage_dialed (p : pubsubSink) (m : Bytes) (topicId : Nat) (key : Bytes)
    (tr : Option Err) (t : topicStruct) (c : topicClient)
    (ht : p.topics.lookup topicId = some t) (hc : t.topicClient = some c) :
    sendMessage p m topicId key tr =
      Outcome.done (if c.isGcp then transportCall.Publish t.pathName m key
        else transportCall.Send m, tr) := by
  unfold sendMessage
  rw [ht]
  simp only [hc]
  by_cases hg : c.isGcp = true
  · rw [if_pos hg, if_pos hg]
  · rw [if_neg hg, if_neg hg]

/-- With no other goroutine in between, the steps of one iteration amount to the
body of the loop: marshal, `exitWorkersWithError` on failure, `sendMessage`,
`exitWorkersWithError` on failure, `Release`. -/
theorem workerIteration_eq (p : pubsubSink) (j : Nat) (msg : pubsubMessage)
    (b : Bytes) (err tr : Option Err) (t : topicStruct) (c : topicClient)
    (hmsg : msg.isFlush = false) (ht : p.topics.lookup msg.topicId = some t)
    (hc : t.topicClient = some c) :
    workerIteration p j msg b err tr =
      Outcome.done (workerPC.idle, exitOnError (exitOnError p err) tr,
        [Event.publish j msg (if c.isGcp then transportCall.Publish t.pathName b msg.message.Key
            else transportCall.Send b),
          Event.release msg.alloc]) := by
  cases hg : c.isGcp <;> cases err <;> cases tr <;> cases he : p.errChan <;>
    simp [workerIteration, workerSteps, workerRecv, hmsg, workerStep, Outcome.andThen,
      sendMessage, ht, hc, hg, he, exitOnError, exitWorkersWithError, exitWorkers]

/-- C4: for a dequeued message that is not a flush marker (its topic registered
and dialed, so that `sendMessage` reaches the transport), one iteration of
`workerLoop` runs to the head of the loop and calls `Release` exactly once, on
the alloc of that message, after the one call of the transport, whatever
`json.Marshal` and the transport answer. -/
theorem workerIteration_releases_once (p : pubsubSink) (j : Nat) (msg : pubsubMessage)
    (b : Bytes) (err tr : Option Err) (t : topicStruct) (c : topicClient)
    (hmsg : msg.isFlush = false) (ht : p.topics.lookup msg.topicId = some t)
    (hc : t.topicClient = some c) :
    ∃ p' evs, workerIteration p j msg b err tr = Outcome.done (workerPC.idle, p', evs) ∧
      evs.count (Event.release msg.alloc) = 1 ∧
      (∀ a, Event.release a ∈ evs → a = msg.alloc) ∧
      (∃ call, evs = [Event.publish j msg call, Event.release msg.alloc]) := by
  refine ⟨_, _, workerIteration_eq p j msg b err tr t c hmsg ht hc, ?_, ?_, _, rfl⟩
  · simp [List.count_cons]
  · intro a ha
    simpa using ha

theorem workerIteration_releases_once_witness :
    ∃ p' evs, workerIteration failedSink 1 (sampleMessage 5 [0x61]) [] (some (Err.external 1))
        (some (Err.external 2)) = Outcome.done (workerPC.idle, p', evs) ∧
      evs.count (Event.release (sampleMessage 5 [0x61]).alloc) = 1 ∧
      (∀ a, Event.release a ∈ evs → a = (sampleMessage 5 [0x61]).alloc) ∧
      (∃ call, evs = [Event.publish 1 (sampleMessage 5 [0x61]) call,
        Event.release (sampleMessage 5 [0x61]).alloc]) :=
  workerIteration_releases_once failedSink 1 (sampleMessage 5 [0x61]) []
    (some (Err.external 1)) (some (Err.external 2))
    { topicName := "t", pathName := "projects/p/topics/t", topicClient := some { isGcp := true } }
    { isGcp := true } rfl rfl rfl

/-! ## The error signal -/

/-- C7: `exitWorkersWithError(err)` on an empty slot stores `err` and calls the
cancel function once, which closes `workerCtx.Done()`; on an occupied slot it
changes nothing at all: the held error stays, `err` is dropped and the cancel
function is not called.  It is a total function (the `select` has a `default`),
and the worker steps that perform it (the `select`, then the call of the cancel
function when the error was sent) always complete. -/
theorem exitWorkersWithError_first_write_wins (p : pubsubSink) (err : Err) :
    (p.errChan = none →
      (exitWorkersWithError p err).errChan = some err ∧
      (exitWorkersWithError p err).exitWorkersCalls = p.exitWorkersCalls + 1 ∧
      (exitWorkersWithError p err).workerCtx ≠ none) ∧
    (∀ e, p.errChan = some e → exitWorkersWithError p err = p) ∧
    ((exitWorkersWithError p err).exitWorkersCalls = p.exitWorkersCalls + 1 ↔
      p.errChan = none) ∧
    (p.errChan = none → ∀ j msg b b' err' tr,
      workerStep p j (workerPC.marshal msg) b (some err) tr =
        Outcome.done (workerPC.marshalExit msg b, { p with errChan := some err }, []) ∧
      workerStep { p with errChan := some err } j (workerPC.marshalExit msg b) b' err' tr =
        Outcome.done (workerPC.send msg b, exitWorkersWithError p err, [])) ∧
    (p.errChan ≠ none → ∀ j msg b tr,
      workerStep p j (workerPC.marshal msg) b (some err) tr =
        Outcome.done (workerPC.send msg b, exitWorkersWithError p err, [])) := by
  refine ⟨?_, ?_, ?_, ?_, ?_⟩
  · intro h
    unfold exitWorkersWithError exitWorkers
    rw [h]
    refine ⟨rfl, rfl, ?_⟩
    cases p.workerCtx <;> simp
  · intro e h
    unfold exitWorkersWithError
    rw [h]
  · unfold exitWorkersWithError exitWorkers
    cases h : p.errChan <;> simp
  · intro h j msg b b' err' tr
    simp [workerStep, exitWorkersWithError, h]
  · intro h j msg b tr
    cases he : p.errChan with
    | none => exact absurd he h
    | some e => simp [workerStep, exitWorkersWithError, he]

theorem exitWorkersWithError_first_write_wins_witness :
    (exitWorkersWithError { failedSink with errChan := none } (Err.external 4)).errChan
      = some (Err.external 4) ∧
    exitWorkersWithError failedSink (Err.external 4) = failedSink :=
  ⟨((exitWorkersWithError_first_write_wins { failedSink with errChan := none }
      (Err.external 4)).1 rfl).1,
   (exitWorkersWithError_first_write_wins failedSink (Err.external 4)).2.1 (Err.external 3) rfl⟩

/-! ## What one step does to the workers and to the log -/

theorem recvReady_iff (ws : List workerPC) (i : Nat) :
    recvReady ws i = true ↔ ws[i]? = some workerPC.idle := by
  unfold recvReady
  cases h : ws[i]? with
  | none => simp
  | some pc => cases pc <;> simp

theorem sinkError_frame (p : pubsubSink) :
    (sinkError p).2.numWorkers = p.numWorkers ∧ (sinkError p).2.topics = p.topics ∧
    (sinkError p).2.workerCtx = p.workerCtx ∧ (sinkError p).2.flushDone = p.flushDone := by
  unfold sinkError
  cases p.errChan <;> simp

theorem exitWorkersWithError_frame (p : pubsubSink) (e : Err) :
    (exitWorkersWithError p e).numWorkers = p.numWorkers ∧
    (exitWorkersWithError p e).topics = p.topics ∧
    (exitWorkersWithError p e).flushDone = p.flushDone := by
  unfold exitWorkersWithError exitWorkers
  cases p.errChan <;> simp

theorem emitRow_frame (p : pubsubSink) (recvReady : Nat → Bool) (ctxErr : Option Err)
    (topicID : Nat) (key value : Bytes) (alloc : Nat) (c : emitCase)
    (r : Option Err) (p' : pubsubSink) (evs : List Event)
    (h : emitRow p recvReady ctxErr topicID key value alloc c = Outcome.done (r, p', evs)) :
    p'.numWorkers = p.numWorkers := by
  unfold emitRow at h
  cases ht : p.topics.lookup topicID with
  | none => simp [ht] at h
  | some t =>
    cases hi : workerIndex p.numWorkers key with
    | none => simp [ht, hi] at h
    | some i =>
      simp only [ht, hi] at h
      cases c with
      | workerCtxDone =>
        cases hw : p.workerCtx with
        | none => simp [hw] at h
        | some w =>
          simp only [hw, Outcome.done.injEq, Prod.mk.injEq] at h
          rw [← h.2.1]
          exact (sinkError_frame p).1
      | ctxDone =>
        cases hc : ctxErr with
        | none => simp [hc] at h
        | some e =>
          simp only [hc, Outcome.done.injEq, Prod.mk.injEq] at h
          rw [← h.2.1]
      | errChan =>
        cases hc : p.errChan with
        | none => simp [hc] at h
        | some e =>
          simp only [hc, Outcome.done.injEq, Prod.mk.injEq] at h
          rw [← h.2.1]
      | send =>
        by_cases hrr : recvReady i = true
        · simp only [hrr, if_true, Outcome.done.injEq, Prod.mk.injEq] at h
          rw [← h.2.1]
        · simp [hrr] at h

theorem workerStep_move (p : pubsubSink) (j : Nat) (pc : workerPC) (b : Bytes)
    (err tr : Option Err) (pc' : workerPC) (p' : pubsubSink) (evs : List Event)
    (h : workerStep p j pc b err tr = Outcome.done (pc', p', evs)) :
    workerMove j pc pc' evs ∧ p'.numWorkers = p.numWorkers := by
  cases pc with
  | idle =>
    unfold workerStep at h
    cases hw : p.workerCtx with
    | none => simp [hw] at h
    | some w =>
      simp only [hw, Outcome.done.injEq, Prod.mk.injEq] at h
      obtain ⟨h1, h2, h3⟩ := h
      subst h1 h2 h3
      exact ⟨workerMove.stop, rfl⟩
  | marshal msg =>
    unfold workerStep at h
    cases err with
    | none =>
      simp only [Outcome.done.injEq, Prod.mk.injEq] at h
      obtain ⟨h1, h2, h3⟩ := h
      subst h1 h2 h3
      exact ⟨workerMove.marshal msg b, rfl⟩
    | some e =>
      cases he : p.errChan with
      | none =>
        simp only [he, Outcome.done.injEq, Prod.mk.injEq] at h
        obtain ⟨h1, h2, h3⟩ := h
        subst h1 h2 h3
        exact ⟨workerMove.marshalFail msg b, rfl⟩
      | some e' =>
        simp only [he, Outcome.done.injEq, Prod.mk.injEq] at h
        obtain ⟨h1, h2, h3⟩ := h
        subst h1 h2 h3
        exact ⟨workerMove.marshal msg b, rfl⟩
  | marshalExit msg b' =>
    unfold workerStep at h
    simp only [Outcome.done.injEq, Prod.mk.injEq] at h
    obtain ⟨h1, h2, h3⟩ := h
    subst h1 h2 h3
    exact ⟨workerMove.marshalExit msg b', rfl⟩
  | send msg b' =>
    unfold workerStep at h
    cases hs : sendMessage p b' msg.topicId msg.message.Key tr with
    | fault => simp [hs] at h
    | blocked => simp [hs] at h
    | done res =>
      obtain ⟨call, r⟩ := res
      cases r with
      | none =>
        simp only [hs, Outcome.done.injEq, Prod.mk.injEq] at h
        obtain ⟨h1, h2, h3⟩ := h
        subst h1 h2 h3
        exact ⟨workerMove.send msg b' call, rfl⟩
      | some e =>
        cases he : p.errChan with
        | none =>
          simp only [hs, he, Outcome.done.injEq, Prod.mk.injEq] at h
          obtain ⟨h1, h2, h3⟩ := h
          subst h1 h2 h3
          exact ⟨workerMove.sendFail msg b' call, rfl⟩
        | some e' =>
          simp only [hs, he, Outcome.done.injEq, Prod.mk.injEq] at h
          obtain ⟨h1, h2, h3⟩ := h
          subst h1 h2 h3
          exact ⟨workerMove.send msg b' call, rfl⟩
  | sendExit msg =>
    unfold workerStep at h
    simp only [Outcome.done.injEq, Prod.mk.injEq] at h
    obtain ⟨h1, h2, h3⟩ := h
    subst h1 h2 h3
    exact ⟨workerMove.sendExit msg, rfl⟩
  | release msg =>
    unfold workerStep at h
    simp only [Outcome.done.injEq, Prod.mk.injEq] at h
    obtain ⟨h1, h2, h3⟩ := h
    subst h1 h2 h3
    exact ⟨workerMove.release msg, rfl⟩
  | stopped =>
    unfold workerStep at h
    simp at h

theorem flushStep_move (p : pubsubSink) (rr : Nat → Bool) (ctxErr : Option Err) (pc : flushPC)
    (c : flushCase) (pc' : flushPC) (p' : pubsubSink) (evs : List Event)
    (h : flushStep p rr ctxErr pc c = some (pc', p', evs)) :
    flushMove p rr pc pc' evs ∧ p'.numWorkers = p.numWorkers := by
  cases pc with
  | select1 =>
    cases c <;> simp only [flushStep] at h <;> try contradiction
    · cases hc : ctxErr with
      | none => simp [hc] at h
      | some e =>
        simp only [hc, Option.some.injEq, Prod.mk.injEq] at h
        obtain ⟨h1, h2, h3⟩ := h
        subst h1 h2 h3
        exact ⟨flushMove.fail1 e, rfl⟩
    · cases hc : p.errChan with
      | none => simp [hc] at h
      | some e =>
        simp only [hc, Option.some.injEq, Prod.mk.injEq] at h
        obtain ⟨h1, h2, h3⟩ := h
        subst h1 h2 h3
        exact ⟨flushMove.fail1 e, rfl⟩
    · cases hc : ctxErr <;> cases hc' : p.errChan <;> simp [hc, hc'] at h
      obtain ⟨h1, h2, h3⟩ := h
      subst h1 h2 h3
      exact ⟨flushMove.enter, rfl⟩
  | workers i =>
    cases c <;> simp only [flushStep] at h <;> try contradiction
    · cases hc : p.workerCtx with
      | none => simp [hc] at h
      | some e =>
        simp only [hc, Option.some.injEq, Prod.mk.injEq] at h
        obtain ⟨h1, h2, h3⟩ := h
        subst h1 h2 h3
        exact ⟨flushMove.failWorkers i e, rfl⟩
    · by_cases hr : rr i = true
      · simp only [hr, if_true, Option.some.injEq, Prod.mk.injEq] at h
        obtain ⟨h1, h2, h3⟩ := h
        subst h1 h2 h3
        exact ⟨flushMove.marker i hr, rfl⟩
      · simp [hr] at h
  | signal =>
    cases c <;> simp only [flushStep] at h <;> try contradiction
    · cases hc : p.workerCtx with
      | none => simp [hc] at h
      | some e =>
        simp only [hc, Option.some.injEq, Prod.mk.injEq] at h
        obtain ⟨h1, h2, h3⟩ := h
        subst h1 h2 h3
        exact ⟨flushMove.failSignal e, rfl⟩
    · by_cases hr : p.flushDone = true
      · simp [hr] at h
      · simp only [hr, Bool.false_eq_true, if_false, Option.some.injEq, Prod.mk.injEq] at h
        obtain ⟨h1, h2, h3⟩ := h
        subst h1 h2 h3
        exact ⟨flushMove.signalled, rfl⟩
  | select2 =>
    cases c <;> simp only [flushStep] at h <;> try contradiction
    · cases hc : ctxErr with
      | none => simp [hc] at h
      | some e =>
        simp only [hc, Option.some.injEq, Prod.mk.injEq] at h
        obtain ⟨h1, h2, h3⟩ := h
        subst h1 h2 h3
        exact ⟨flushMove.finish _, rfl⟩
    · cases hc : p.errChan with
      | none => simp [hc] at h
      | some e =>
        simp only [hc, Option.some.injEq, Prod.mk.injEq] at h
        obtain ⟨h1, h2, h3⟩ := h
        subst h1 h2 h3
        exact ⟨flushMove.finish _, rfl⟩
    · by_cases hr : p.flushDone = true
      · simp only [hr, if_true, Option.some.injEq, Prod.mk.injEq] at h
        obtain ⟨h1, h2, h3⟩ := h
        subst h1 h2 h3
        exact ⟨flushMove.finish _, (sinkError_frame _).1⟩
      · simp [hr] at h
  | returned r =>
    cases c <;> simp [flushStep] at h

theorem emitResolvedLoop_events (p : pubsubSink) (payload : Bytes) (tr : Nat → Option Err)
    (ts : List (Nat × topicStruct)) (r : Option Err) (evs : List Event)
    (h : emitResolvedLoop p payload tr ts = Outcome.done (r, evs)) :
    ∀ e ∈ evs, ∃ t c, e = Event.publishResolved t c := by
  induction ts generalizing r evs with
  | nil =>
    simp only [emitResolvedLoop, Outcome.done.injEq, Prod.mk.injEq] at h
    intro e he
    rw [← h.2] at he
    simp at he
  | cons hd rest ih =>
    obtain ⟨topicId, t⟩ := hd
    unfold emitResolvedLoop at h
    cases hs : sendMessage p payload topicId [] (tr topicId) with
    | fault => simp [hs] at h
    | blocked => simp [hs] at h
    | done res =>
      obtain ⟨call, r0⟩ := res
      cases r0 with
      | some e0 =>
        simp only [hs, Outcome.done.injEq, Prod.mk.injEq] at h
        intro e he
        rw [← h.2] at he
        exact ⟨topicId, call, by simpa using he⟩
      | none =>
        simp only [hs] at h
        cases hl : emitResolvedLoop p payload tr rest with
        | fault => simp [hl] at h
        | blocked => simp [hl] at h
        | done res' =>
          obtain ⟨r', evs'⟩ := res'
          simp only [hl, Outcome.done.injEq, Prod.mk.injEq] at h
          intro e he
          rw [← h.2] at he
          rcases List.mem_cons.mp he with he | he
          · exact ⟨topicId, call, he⟩
          · exact ih r' evs' hl e he

theorem emitResolvedTimestamp_events (p : pubsubSink) (payload : Bytes) (err : Option Err)
    (tr : Nat → Option Err) (r : Option Err) (evs : List Event)
    (h : emitResolvedTimestamp p payload err tr = Outcome.done (r, evs)) :
    ∀ e ∈ evs, ∃ t c, e = Event.publishResolved t c := by
  unfold emitResolvedTimestamp at h
  cases err with
  | some e0 =>
    simp only [Outcome.done.injEq, Prod.mk.injEq] at h
    intro e he
    rw [← h.2] at he
    simp at he
  | none => exact emitResolvedLoop_events p payload tr p.topics r evs h

theorem set_idle_of_idle (ws : List workerPC) (i : Nat) (h : ws[i]? = some workerPC.idle) :
    ws.set i workerPC.idle = ws := by
  apply List.ext_getElem?
  intro n
  rw [List.getElem?_set']
  by_cases hin : i = n
  · subst hin
    simp [h]
  · simp [hin]

theorem step_moved (s s' : State) (a : Action) (h : step s a = some s') :
    Moved s s' ∧ s'.p.numWorkers = s.p.numWorkers := by
  cases a with
  | emitRow ctxErr topicID key value alloc c =>
    simp only [step] at h
    cases hE : emitRow s.p (recvReady s.workers) ctxErr topicID key value alloc c with
    | fault => simp [hE] at h
    | blocked => simp [hE] at h
    | done res =>
      obtain ⟨r, p', evs⟩ := res
      simp only [hE, Option.some.injEq] at h
      subst h
      refine ⟨?_, emitRow_frame _ _ _ _ _ _ _ _ _ _ _ hE⟩
      rcases emitRow_events _ _ _ _ _ _ _ _ _ _ _ hE with
        ⟨-, hev⟩ | ⟨-, -, -, i, t, hi, hrr, -, hev⟩
      · subst hev
        exact Moved.quiet [] rfl rfl (by simp)
      · subst hev
        exact Moved.accept i _ ((recvReady_iff _ _).mp hrr) rfl hi
          (by simp [deliver, workerRecv]) rfl
  | emitResolvedTimestamp payload err tr =>
    simp only [step] at h
    cases hE : emitResolvedTimestamp s.p payload err tr with
    | fault => simp [hE] at h
    | blocked => simp [hE] at h
    | done res =>
      obtain ⟨r, evs⟩ := res
      simp only [hE, Option.some.injEq] at h
      subst h
      exact ⟨Moved.quiet evs rfl rfl (emitResolvedTimestamp_events _ _ _ _ _ _ hE), rfl⟩
  | flushCall ctxErr =>
    simp only [step, Option.some.injEq] at h
    subst h
    exact ⟨Moved.quiet [] rfl (by simp) (by simp), rfl⟩
  | flushStep t c =>
    simp only [step] at h
    cases ht : s.flushes[t]? with
    | none => simp [ht] at h
    | some th =>
      simp only [ht] at h
      cases hF : flushStep s.p (recvReady s.workers) th.ctxErr th.pc c with
      | none => simp [hF] at h
      | some res =>
        obtain ⟨pc', p', evs⟩ := res
        simp only [hF, Option.some.injEq] at h
        subst h
        obtain ⟨hmove, hn⟩ := flushStep_move _ _ _ _ _ _ _ _ hF
        refine ⟨?_, hn⟩
        generalize th.pc = pc0 at hmove
        cases hmove with
        | marker i hr =>
          have hidle := (recvReady_iff _ _).mp hr
          exact Moved.barrier i hidle
            (by simp [deliver, workerRecv, flushMessage, set_idle_of_idle _ _ hidle]) rfl
        | enter => exact Moved.quiet [] rfl (by simp) (by simp)
        | fail1 e => exact Moved.quiet [] rfl (by simp) (by simp)
        | failWorkers i e => exact Moved.quiet [] rfl (by simp) (by simp)
        | signalled => exact Moved.quiet [] rfl (by simp) (by simp)
        | failSignal e => exact Moved.quiet [] rfl (by simp) (by simp)
        | finish r => exact Moved.quiet [] rfl (by simp) (by simp)
  | ctxCancel t e =>
    simp only [step] at h
    cases ht : s.flushes[t]? with
    | none => simp [ht] at h
    | some th =>
      simp only [ht] at h
      cases hc : th.ctxErr with
      | none =>
        simp only [hc, Option.some.injEq] at h
        subst h
        exact ⟨Moved.quiet [] rfl (by simp) (by simp), rfl⟩
      | some e' =>
        simp only [hc, Option.some.injEq] at h
        subst h
        exact ⟨Moved.quiet [] rfl (by simp) (by simp), rfl⟩
  | workerStep j b err tr =>
    simp only [step] at h
    cases hj : s.workers[j]? with
    | none => simp [hj] at h
    | some pc =>
      simp only [hj] at h
      cases hW : workerStep s.p j pc b err tr with
      | fault => simp [hW] at h
      | blocked => simp [hW] at h
      | done res =>
        obtain ⟨pc', p', evs⟩ := res
        simp only [hW, Option.some.injEq] at h
        subst h
        obtain ⟨hmove, hn⟩ := workerStep_move _ _ _ _ _ _ _ _ _ hW
        exact ⟨Moved.work j pc pc' evs hj rfl rfl hmove, hn⟩
  | parentCancel e =>
    simp only [step] at h
    cases hc : s.p.workerCtx with
    | none =>
      simp only [hc, Option.some.injEq] at h
      subst h
      exact ⟨Moved.quiet [] rfl (by simp) (by simp), rfl⟩
    | some e' =>
      simp only [hc, Option.some.injEq] at h
      subst h
      exact ⟨Moved.quiet [] rfl (by simp) (by simp), rfl⟩

theorem Moved.log_grows {s s' : State} (h : Moved s s') : ∃ evs, s'.log = s.log ++ evs := by
  cases h with
  | quiet evs _ hl _ => exact ⟨evs, hl⟩
  | accept i m _ _ _ _ hl => exact ⟨_, hl⟩
  | barrier i _ _ hl => exact ⟨_, hl⟩
  | work j pc pc' evs _ _ hl _ => exact ⟨evs, hl⟩

/-! ## The invariant of the worker pool -/

theorem quiet_reads (evs : List Event) (hq : ∀ e ∈ evs, ∃ t c, e = Event.publishResolved t c)
    (j : Nat) : handedTo j evs = [] ∧ publishedBy j evs = [] := by
  induction evs with
  | nil => exact ⟨rfl, rfl⟩
  | cons e evs ih =>
    obtain ⟨t, c, rfl⟩ := hq e (List.mem_cons_self _ _)
    have ih' := ih (fun e he => hq e (List.mem_cons_of_mem _ he))
    simp only [handedTo, publishedBy, List.filterMap_cons] at ih' ⊢
    exact ih'

theorem handedTo_append (j : Nat) (l l' : List Event) :
    handedTo j (l ++ l') = handedTo j l ++ handedTo j l' := by
  simp [handedTo]

theorem publishedBy_append (j : Nat) (l l' : List Event) :
    publishedBy j (l ++ l') = publishedBy j l ++ publishedBy j l' := by
  simp [publishedBy]

theorem inflightAt_set (ws : List workerPC) (i j : Nat) (pc pc' : workerPC)
    (h : ws[i]? = some pc) :
    inflightAt (ws.set i pc') j = if i = j then inflight pc' else inflightAt ws j := by
  unfold inflightAt
  rw [List.getElem?_set']
  by_cases hij : i = j
  · subst hij
    simp [h]
  · simp [hij]

theorem inflightAt_of_getElem? (ws : List workerPC) (i : Nat) (pc : workerPC)
    (h : ws[i]? = some pc) : inflightAt ws i = inflight pc := by
  simp [inflightAt, h]

theorem setupWorkers_Inv (topics : List (Nat × topicStruct)) (numWorkers : Nat) :
    Inv (setupWorkers topics numWorkers) := by
  refine ⟨by simp [setupWorkers], ?_, ?_⟩
  · intro j
    simp only [setupWorkers, publishedBy, handedTo, inflightAt, List.filterMap_nil,
      List.nil_append]
    cases h : (List.replicate numWorkers workerPC.idle)[j]? with
    | none => rfl
    | some pc =>
      have hmem : pc ∈ List.replicate numWorkers workerPC.idle := List.getElem?_mem h
      rw [List.eq_of_mem_replicate hmem]
      rfl
  · intro i m hm
    simp [setupWorkers] at hm

theorem Inv_step (s s' : State) (a : Action) (hinv : Inv s) (h : step s a = some s') :
    Inv s' := by
  obtain ⟨hmoved, hn⟩ := step_moved s s' a h
  obtain ⟨hlen, hwork, hidx⟩ := hinv
  cases hmoved with
  | quiet evs hw hl hq =>
    refine ⟨by rw [hw, hn]; exact hlen, ?_, ?_⟩
    · intro j
      rw [hw, hl, handedTo_append, publishedBy_append, (quiet_reads evs hq j).1,
        (quiet_reads evs hq j).2, List.append_nil, List.append_nil]
      exact hwork j
    · intro i m hm hf
      rw [hl] at hm
      rw [hn]
      rcases List.mem_append.mp hm with hm | hm
      · exact hidx i m hm hf
      · obtain ⟨t, c, hc⟩ := hq _ hm
        cases hc
  | accept i m hr hm hi hw hl =>
    refine ⟨by rw [hw, hn, List.length_set]; exact hlen, ?_, ?_⟩
    · intro j
      rw [hw, hl, handedTo_append, publishedBy_append, inflightAt_set _ _ _ _ _ hr]
      have hj := hwork j
      by_cases hij : i = j
      · subst hij
        rw [inflightAt_of_getElem? _ _ _ hr] at hj
        simp only [inflight, List.append_nil] at hj
        simp [handedTo, publishedBy, hm, inflight] at hj ⊢
        rw [hj]
      · simp [handedTo, publishedBy, hij] at hj ⊢
        exact hj
    · intro i' m' hm' hf
      rw [hl] at hm'
      rw [hn]
      rcases List.mem_append.mp hm' with hm' | hm'
      · exact hidx i' m' hm' hf
      · simp only [List.mem_singleton, Event.handoff.injEq] at hm'
        rw [hm'.1, hm'.2]
        exact hi
  | barrier i hr hw hl =>
    refine ⟨by rw [hw, hn]; exact hlen, ?_, ?_⟩
    · intro j
      rw [hw, hl, handedTo_append, publishedBy_append]
      have hj := hwork j
      simp [handedTo, publishedBy, flushMessage] at hj ⊢
      exact hj
    · intro i' m' hm' hf
      rw [hl] at hm'
      rw [hn]
      rcases List.mem_append.mp hm' with hm' | hm'
      · exact hidx i' m' hm' hf
      · simp only [List.mem_singleton, Event.handoff.injEq] at hm'
        rw [hm'.2] at hf
        simp [flushMessage] at hf
  | work j0 pc pc' evs hj0 hw hl hm =>
    refine ⟨by rw [hw, hn, List.length_set]; exact hlen, ?_, ?_⟩
    · intro j
      rw [hw, hl, handedTo_append, publishedBy_append, inflightAt_set _ _ _ _ _ hj0]
      have hj := hwork j
      by_cases hij : j0 = j
      · subst hij
        rw [inflightAt_of_getElem? _ _ _ hj0] at hj
        cases hm <;> simp [handedTo, publishedBy, inflight] at hj ⊢ <;> exact hj
      · cases hm <;> simp [handedTo, publishedBy, hij] at hj ⊢ <;> exact hj
    · intro i' m' hm' hf
      rw [hl] at hm'
      rw [hn]
      rcases List.mem_append.mp hm' with hm' | hm'
      · exact hidx i' m' hm' hf
      · cases hm <;> simp at hm'

theorem Inv_run (acts : List Action) (s s' : State) (hinv : Inv s)
    (h : run s acts = some s') : Inv s' := by
  induction acts generalizing s with
  | nil =>
    simp only [run, Option.some.injEq] at h
    rw [← h]
    exact hinv
  | cons a acts ih =>
    simp only [run] at h
    cases hs : step s a with
    | none => simp [hs] at h
    | some s1 =>
      simp only [hs] at h
      exact ih s1 (Inv_step s s1 a hinv hs) h

theorem Reachable.inv {topics : List (Nat × topicStruct)} {numWorkers : Nat} {s : State}
    (h : Reachable topics numWorkers s) : Inv s := by
  obtain ⟨acts, hrun⟩ := h
  exact Inv_run acts _ s (setupWorkers_Inv topics numWorkers) hrun

/-! ## Key ordering -/

theorem run_numWorkers (acts : List Action) (s s' : State) (h : run s acts = some s') :
    s'.p.numWorkers = s.p.numWorkers := by
  induction acts generalizing s with
  | nil =>
    simp only [run, Option.some.injEq] at h
    rw [← h]
  | cons a acts ih =>
    simp only [run] at h
    cases hs : step s a with
    | none => simp [hs] at h
    | some s1 =>
      simp only [hs] at h
      rw [ih s1 h, (step_moved s s1 a hs).2]

theorem Reachable.numWorkers_eq {topics : List (Nat × topicStruct)} {numWorkers : Nat}
    {s : State} (h : Reachable topics numWorkers s) : s.p.numWorkers = numWorkers := by
  obtain ⟨acts, hrun⟩ := h
  rw [run_numWorkers acts _ s hrun]
  rfl

theorem mem_handedTo (j : Nat) (m : pubsubMessage) (log : List Event) :
    m ∈ handedTo j log ↔ Event.handoff j m ∈ log ∧ m.isFlush = false := by
  unfold handedTo
  rw [List.mem_filterMap]
  constructor
  · rintro ⟨e, he, hm⟩
    cases e with
    | handoff i m' =>
      by_cases hc : i = j ∧ m'.isFlush = false
      · simp only [hc, and_self, if_true, Option.some.injEq] at hm
        subst hm
        obtain ⟨rfl, hf⟩ := hc
        exact ⟨he, hf⟩
      · simp [hc] at hm
    | publish i m' c => simp at hm
    | publishResolved t c => simp at hm
    | release a => simp at hm
  · rintro ⟨he, hf⟩
    exact ⟨_, he, by simp [hf]⟩

theorem mem_publishedBy (j : Nat) (m : pubsubMessage) (log : List Event) :
    m ∈ publishedBy j log ↔ ∃ c, Event.publish j m c ∈ log := by
  unfold publishedBy
  rw [List.mem_filterMap]
  constructor
  · rintro ⟨e, he, hm⟩
    cases e with
    | handoff i m' => simp at hm
    | publish i m' c =>
      by_cases hc : i = j
      · simp only [hc, if_true, Option.some.injEq] at hm
        subst hm
        subst hc
        exact ⟨c, he⟩
      · simp [hc] at hm
    | publishResolved t c => simp at hm
    | release a => simp at hm
  · rintro ⟨c, he⟩
    exact ⟨_, he, by simp⟩

theorem acceptedWithKey_eq (w : Nat) (key : Bytes) (l : List Event)
    (h : ∀ i m, Event.handoff i m ∈ l → m.isFlush = false → m.message.Key = key → i = w) :
    acceptedWithKey key l = (handedTo w l).filter fun m => decide (m.message.Key = key) := by
  induction l with
  | nil => rfl
  | cons e l ih =>
    have ih' := ih (fun i m hm => h i m (List.mem_cons_of_mem _ hm))
    unfold acceptedWithKey handedTo at ih' ⊢
    cases e with
    | handoff i m =>
      by_cases hf : m.isFlush = false
      · by_cases hk : m.message.Key = key
        · have hi : i = w := h i m (List.mem_cons_self _ _) hf hk
          simp [hf, hk, hi, ih']
        · by_cases hi : i = w
          · simp [hf, hk, hi, ih']
          · simp [hf, hk, hi, ih']
      · simp [hf, ih']
    | publish i m c => simpa using ih'
    | publishResolved t c => simpa using ih'
    | release a => simpa using ih'

theorem publishedWithKey_eq (w : Nat) (key : Bytes) (l : List Event)
    (h : ∀ j m c, Event.publish j m c ∈ l → m.message.Key = key → j = w) :
    publishedWithKey key l = (publishedBy w l).filter fun m => decide (m.message.Key = key) := by
  induction l with
  | nil => rfl
  | cons e l ih =>
    have ih' := ih (fun j m c hm => h j m c (List.mem_cons_of_mem _ hm))
    unfold publishedWithKey publishedBy at ih' ⊢
    cases e with
    | handoff i m => simpa using ih'
    | publish i m c =>
      by_cases hk : m.message.Key = key
      · have hi : i = w := h i m c (List.mem_cons_self _ _) hk
        simp [hk, hi, ih']
      · by_cases hi : i = w
        · simp [hk, hi, ih']
        · simp [hk, hi, ih']
    | publishResolved t c => simpa using ih'
    | release a => simpa using ih'

theorem Inv.published_handed {s : State} (hinv : Inv s) (j : Nat) :
    publishedBy j s.log <+: handedTo j s.log :=
  ⟨inflightAt s.workers j, hinv.work j⟩

theorem Inv.publish_index {s : State} (hinv : Inv s) (j : Nat) (m : pubsubMessage)
    (c : transportCall) (h : Event.publish j m c ∈ s.log) :
    Event.handoff j m ∈ s.log ∧ m.isFlush = false ∧
      workerIndex s.p.numWorkers m.message.Key = some j := by
  have h1 : m ∈ publishedBy j s.log := (mem_publishedBy j m s.log).mpr ⟨c, h⟩
  have h2 : m ∈ handedTo j s.log := (hinv.published_handed j).subset h1
  obtain ⟨h3, h4⟩ := (mem_handedTo j m s.log).mp h2
  exact ⟨h3, h4, hinv.idx j m h3 h4⟩

/-- C1: in every state that a sink can reach, under every interleaving of callers
and workers, the row messages with a given key for which the transport was
called are, in the order of the calls, an initial segment of the row messages
with that key that `emitRow` handed over, in the order of handoff.  All of them
were handed to, and published by, the one worker `workerIndex numWorkers key`,
and every worker publishes in the order of handoff to it. -/
theorem key_ordering (topics : List (Nat × topicStruct)) (numWorkers : Nat) (s : State)
    (key : Bytes) (h : Reachable topics numWorkers s) :
    publishedWithKey key s.log <+: acceptedWithKey key s.log ∧
    (∀ i m, Event.handoff i m ∈ s.log → m.isFlush = false → m.message.Key = key →
      workerIndex numWorkers key = some i) ∧
    (∀ j m c, Event.publish j m c ∈ s.log → m.message.Key = key →
      workerIndex numWorkers key = some j ∧ Event.handoff j m ∈ s.log) ∧
    (∀ j, publishedBy j s.log <+: handedTo j s.log) := by
  have hinv := h.inv
  have hn := h.numWorkers_eq
  have hacc : ∀ i m, Event.handoff i m ∈ s.log → m.isFlush = false → m.message.Key = key →
      workerIndex numWorkers key = some i := by
    intro i m hm hf hk
    rw [← hk, ← hn]
    exact hinv.idx i m hm hf
  have hpub : ∀ j m c, Event.publish j m c ∈ s.log → m.message.Key = key →
      workerIndex numWorkers key = some j ∧ Event.handoff j m ∈ s.log := by
    intro j m c hm hk
    obtain ⟨h1, -, h3⟩ := hinv.publish_index j m c hm
    rw [hk, hn] at h3
    exact ⟨h3, h1⟩
  refine ⟨?_, hacc, hpub, hinv.published_handed⟩
  rw [acceptedWithKey_eq ((workerIndex numWorkers key).getD 0) key s.log
      (fun i m hm hf hk => by rw [hacc i m hm hf hk]; rfl),
    publishedWithKey_eq ((workerIndex numWorkers key).getD 0) key s.log
      (fun j m c hm hk => by rw [(hpub j m c hm hk).1]; rfl)]
  exact (hinv.published_handed _).filter _

/-! ## Flush completeness -/

theorem covered_mono (L0 : List Event) (s s' : State) (k : Nat) (evs : List Event)
    (hl : s'.log = s.log ++ evs) (h : covered L0 s k) : covered L0 s' k := by
  intro j hj
  rw [hl, publishedBy_append]
  exact (h j hj).trans ⟨_, rfl⟩

theorem flushProgress_mono (L0 : List Event) (s s' : State) (pc : flushPC) (evs : List Event)
    (hl : s'.log = s.log ++ evs) (hn : s'.p.numWorkers = s.p.numWorkers)
    (h : flushProgress L0 s pc) : flushProgress L0 s' pc := by
  cases pc with
  | select1 => trivial
  | workers i => exact covered_mono L0 s s' i evs hl h
  | signal =>
    simp only [flushProgress] at h ⊢
    rw [hn]
    exact covered_mono L0 s s' _ evs hl h
  | select2 =>
    simp only [flushProgress] at h ⊢
    rw [hn]
    exact covered_mono L0 s s' _ evs hl h
  | returned r =>
    cases r with
    | none =>
      simp only [flushProgress] at h ⊢
      rw [hn]
      exact covered_mono L0 s s' _ evs hl h
    | some e => trivial

theorem flushProgress_flushLoop (L0 : List Event) (s : State) (p : pubsubSink) (i : Nat)
    (hp : p.numWorkers = s.p.numWorkers) (h : covered L0 s i) :
    flushProgress L0 s (flushLoop p i) := by
  unfold flushLoop
  by_cases hi : i < p.numWorkers
  · rw [if_pos hi]
    exact h
  · rw [if_neg hi]
    intro j hj
    exact h j (lt_of_lt_of_le hj (by rw [← hp]; exact Nat.le_of_not_lt hi))

/-- What one step does to the caller `t` inside `flush`. -/
theorem step_flushes (s s' : State) (a : Action) (h : step s a = some s') (t : Nat)
    (th' : flushThread) (ht : s'.flushes[t]? = some th') :
    (s.flushes[t]? = none ∧ th'.pc = flushPC.select1) ∨
    (∃ th, s.flushes[t]? = some th ∧ th'.pc = th.pc) ∨
    (∃ th evs, s.flushes[t]? = some th ∧
      flushMove s.p (recvReady s.workers) th.pc th'.pc evs ∧ s'.log = s.log ++ evs) := by
  cases a with
  | emitRow ctxErr topicID key value alloc c =>
    simp only [step] at h
    cases hE : emitRow s.p (recvReady s.workers) ctxErr topicID key value alloc c with
    | fault => simp [hE] at h
    | blocked => simp [hE] at h
    | done res =>
      obtain ⟨r, p', evs⟩ := res
      simp only [hE, Option.some.injEq] at h
      subst h
      exact Or.inr (Or.inl ⟨th', ht, rfl⟩)
  | emitResolvedTimestamp payload err tr =>
    simp only [step] at h
    cases hE : emitResolvedTimestamp s.p payload err tr with
    | fault => simp [hE] at h
    | blocked => simp [hE] at h
    | done res =>
      obtain ⟨r, evs⟩ := res
      simp only [hE, Option.some.injEq] at h
      subst h
      exact Or.inr (Or.inl ⟨th', ht, rfl⟩)
  | flushCall ctxErr =>
    simp only [step, Option.some.injEq] at h
    subst h
    simp only at ht
    rcases Nat.lt_trichotomy t s.flushes.length with hlt | heq | hgt
    · rw [List.getElem?_append_left hlt] at ht
      exact Or.inr (Or.inl ⟨th', ht, rfl⟩)
    · subst heq
      rw [List.getElem?_append_right (Nat.le_refl _)] at ht
      simp only [Nat.sub_self, List.getElem?_cons_zero, Option.some.injEq] at ht
      subst ht
      exact Or.inl ⟨List.getElem?_eq_none (Nat.le_refl _), rfl⟩
    · rw [List.getElem?_eq_none (by simp; omega)] at ht
      cases ht
  | flushStep t0 c =>
    simp only [step] at h
    cases ht0 : s.flushes[t0]? with
    | none => simp [ht0] at h
    | some th =>
      simp only [ht0] at h
      cases hF : flushStep s.p (recvReady s.workers) th.ctxErr th.pc c with
      | none => simp [hF] at h
      | some res =>
        obtain ⟨pc', p', evs⟩ := res
        simp only [hF, Option.some.injEq] at h
        subst h
        simp only at ht
        rw [List.getElem?_set'] at ht
        by_cases hti : t0 = t
        · subst hti
          simp only [if_true, ht0, Option.map_eq_map, Option.map_some', Function.const_apply,
            Option.some.injEq] at ht
          subst ht
          exact Or.inr (Or.inr ⟨th, evs, ht0, (flushStep_move _ _ _ _ _ _ _ _ hF).1, rfl⟩)
        · rw [if_neg hti] at ht
          exact Or.inr (Or.inl ⟨th', ht, rfl⟩)
  | ctxCancel t0 e =>
    simp only [step] at h
    cases ht0 : s.flushes[t0]? with
    | none => simp [ht0] at h
    | some th =>
      simp only [ht0] at h
      cases hc : th.ctxErr with
      | none =>
        simp only [hc, Option.some.injEq] at h
        subst h
        simp only at ht
        rw [List.getElem?_set'] at ht
        by_cases hti : t0 = t
        · subst hti
          simp only [if_true, ht0, Option.map_eq_map, Option.map_some', Function.const_apply,
            Option.some.injEq] at ht
          subst ht
          exact Or.inr (Or.inl ⟨th, ht0, rfl⟩)
        · rw [if_neg hti] at ht
          exact Or.inr (Or.inl ⟨th', ht, rfl⟩)
      | some e' =>
        simp only [hc, Option.some.injEq] at h
        subst h
        exact Or.inr (Or.inl ⟨th', ht, rfl⟩)
  | workerStep j b err tr =>
    simp only [step] at h
    cases hj : s.workers[j]? with
    | none => simp [hj] at h
    | some pc =>
      simp only [hj] at h
      cases hW : workerStep s.p j pc b err tr with
      | fault => simp [hW] at h
      | blocked => simp [hW] at h
      | done res =>
        obtain ⟨pc', p', evs⟩ := res
        simp only [hW, Option.some.injEq] at h
        subst h
        exact Or.inr (Or.inl ⟨th', ht, rfl⟩)
  | parentCancel e =>
    simp only [step] at h
    cases hc : s.p.workerCtx with
    | none =>
      simp only [hc, Option.some.injEq] at h
      subst h
      exact Or.inr (Or.inl ⟨th', ht, rfl⟩)
    | some e' =>
      simp only [hc, Option.some.injEq] at h
      subst h
      exact Or.inr (Or.inl ⟨th', ht, rfl⟩)

theorem FInv_step (L0 : List Event) (t : Nat) (s s' : State) (a : Action) (hinv : Inv s)
    (hf : FInv L0 t s) (h : step s a = some s') : FInv L0 t s' := by
  obtain ⟨hmoved, hn⟩ := step_moved s s' a h
  obtain ⟨evs0, hl0⟩ := hmoved.log_grows
  obtain ⟨hpre, hprog⟩ := hf
  refine ⟨hpre.trans ⟨evs0, hl0.symm⟩, ?_⟩
  intro th' ht'
  rcases step_flushes s s' a h t th' ht' with ⟨-, hpc⟩ | ⟨th, hth, hpc⟩ | ⟨th, evs, hth, hmove, hl⟩
  · rw [hpc]
    trivial
  · rw [hpc]
    exact flushProgress_mono L0 s s' th.pc evs0 hl0 hn (hprog th hth)
  · have hold := hprog th hth
    generalize th.pc = pc0 at hmove hold
    generalize th'.pc = pc1 at hmove
    cases hmove with
    | enter =>
      exact flushProgress_flushLoop L0 s' s.p 0 hn.symm (fun j hj => absurd hj (Nat.not_lt_zero j))
    | fail1 e => trivial
    | failWorkers i e => trivial
    | failSignal e => trivial
    | signalled =>
      exact flushProgress_mono L0 s s' flushPC.signal evs0 hl0 hn hold
    | finish r =>
      cases r with
      | none => exact flushProgress_mono L0 s s' flushPC.select2 evs0 hl0 hn hold
      | some e => trivial
    | marker i hr =>
      apply flushProgress_flushLoop L0 s' s.p (i + 1) hn.symm
      intro j hj
      rcases Nat.lt_succ_iff_lt_or_eq.mp hj with hlt | heq
      · exact covered_mono L0 s s' i evs0 hl0 hold j hlt
      · subst heq
        have hidle := (recvReady_iff _ _).mp hr
        have hw := hinv.work j
        rw [inflightAt_of_getElem? _ _ _ hidle] at hw
        simp only [inflight, List.append_nil] at hw
        have h1 : handedTo j L0 <+: handedTo j s.log := hpre.filterMap _
        rw [← hw] at h1
        rw [hl0, publishedBy_append]
        exact h1.trans ⟨_, rfl⟩

theorem FInv_run (L0 : List Event) (t : Nat) (acts : List Action) (s s' : State)
    (hinv : Inv s) (hf : FInv L0 t s) (h : run s acts = some s') : FInv L0 t s' := by
  induction acts generalizing s with
  | nil =>
    simp only [run, Option.some.injEq] at h
    rw [← h]
    exact hf
  | cons a acts ih =>
    simp only [run] at h
    cases hs : step s a with
    | none => simp [hs] at h
    | some s1 =>
      simp only [hs] at h
      exact ih s1 (Inv_step s s1 a hinv hs) (FInv_step L0 t s s1 a hinv hf hs) h

/-- C6: take any run of the sink up to a state `s1`, let a caller enter `flush`
there, and let the run go on, under any interleaving, to a state `s` in which
that call has returned nil.  Then for every mailbox the row messages handed
over before the call (all those for which `emitRow` had returned nil) are an
initial segment of the messages for which its worker has called the
transport: the publish call was made for every one of them, by the worker it
was handed to. -/
theorem flush_completeness (topics : List (Nat × topicStruct)) (numWorkers : Nat)
    (acts1 acts2 : List Action) (ctxErr : Option Err) (s1 s : State) (th : flushThread)
    (h1 : run (setupWorkers topics numWorkers) acts1 = some s1)
    (h2 : run s1 (Action.flushCall ctxErr :: acts2) = some s)
    (ht : s.flushes[s1.flushes.length]? = some th)
    (hret : th.pc = flushPC.returned none) :
    (∀ j, handedTo j s1.log <+: publishedBy j s.log) ∧
    (∀ i m, Event.handoff i m ∈ s1.log → m.isFlush = false →
      ∃ call, Event.publish i m call ∈ s.log) := by
  have hinv1 : Inv s1 := Inv_run acts1 _ s1 (setupWorkers_Inv topics numWorkers) h1
  simp only [run] at h2
  cases hs : step s1 (Action.flushCall ctxErr) with
  | none => simp [hs] at h2
  | some s1' =>
    simp only [hs] at h2
    have hinv1' : Inv s1' := Inv_step s1 s1' _ hinv1 hs
    have hf1 : FInv s1.log s1.flushes.length s1' := by
      simp only [step, Option.some.injEq] at hs
      subst hs
      refine ⟨List.prefix_rfl, ?_⟩
      intro th0 hth0
      simp only at hth0
      rw [List.getElem?_append_right (Nat.le_refl _)] at hth0
      simp only [Nat.sub_self, List.getElem?_cons_zero, Option.some.injEq] at hth0
      subst hth0
      trivial
    have hinv : Inv s := Inv_run acts2 s1' s hinv1' h2
    obtain ⟨hpre, hprog⟩ := FInv_run s1.log s1.flushes.length acts2 s1' s hinv1' hf1 h2
    have hcov := hprog th ht
    rw [hret] at hcov
    have hall : ∀ j, handedTo j s1.log <+: publishedBy j s.log := by
      intro j
      by_cases hj : j < s.p.numWorkers
      · exact hcov j hj
      · have hw := hinv.work j
        have hnone : s.workers[j]? = none :=
          List.getElem?_eq_none (by rw [hinv.len]; exact Nat.le_of_not_lt hj)
        simp only [inflightAt, hnone, List.append_nil] at hw
        rw [hw]
        exact hpre.filterMap _
    refine ⟨hall, ?_⟩
    intro i m hm hfl
    have hmem : m ∈ handedTo i s1.log := (mem_handedTo i m s1.log).mpr ⟨hm, hfl⟩
    exact (mem_publishedBy i m s.log).mp ((hall i).subset hmem)

theorem key_ordering_witness :
    publishedWithKey [0x61] sampleState1.log <+: acceptedWithKey [0x61] sampleState1.log ∧
    publishedWithKey [0x61] sampleState1.log = [sampleMessage 5 [0x61]] ∧
    acceptedWithKey [0x61] sampleState1.log = [sampleMessage 5 [0x61], sampleMessage 6 [0x61]] :=
  ⟨(key_ordering sampleTopics 2 sampleState1 [0x61] ⟨sampleRun1, by decide⟩).1,
   by decide, by decide⟩

theorem flush_completeness_witness :
    handedTo 1 sampleState1.log <+: publishedBy 1 sampleState2.log ∧
    handedTo 1 sampleState1.log = [sampleMessage 5 [0x61], sampleMessage 6 [0x61]] ∧
    publishedBy 1 sampleState1.log = [sampleMessage 5 [0x61]] :=
  ⟨(flush_completeness sampleTopics 2 sampleRun1 sampleRun2 none sampleState1 sampleState2
      { pc := flushPC.returned none, ctxErr := none } (by decide) (by decide) (by decide)
      rfl).1 1,
   by decide, by decide⟩

/-! ## Reading the error signal -/

theorem emitRow_cases (p : pubsubSink) (recvReady : Nat → Bool) (ctxErr : Option Err)
    (topicID : Nat) (key value : Bytes) (alloc : Nat) (c : emitCase)
    (r : Option Err) (p' : pubsubSink) (evs : List Event)
    (h : emitRow p recvReady ctxErr topicID key value alloc c = Outcome.done (r, p', evs)) :
    (c = emitCase.workerCtxDone → ∃ w, p.workerCtx = some w ∧
      r = CombineErrors (some w) (sinkError p).1 ∧ p' = (sinkError p).2) ∧
    (c = emitCase.ctxDone → r = ctxErr ∧ r ≠ none ∧ p' = p) ∧
    (c = emitCase.errChan → r = p.errChan ∧ r ≠ none ∧ p' = { p with errChan := none }) ∧
    (c = emitCase.send → r = none ∧ p' = p) := by
  unfold emitRow at h
  cases ht : p.topics.lookup topicID with
  | none => simp [ht] at h
  | some t =>
    cases hi : workerIndex p.numWorkers key with
    | none => simp [ht, hi] at h
    | some i =>
      simp only [ht, hi] at h
      cases c with
      | workerCtxDone =>
        cases hw : p.workerCtx with
        | none => simp [hw] at h
        | some w =>
          simp only [hw, Outcome.done.injEq, Prod.mk.injEq] at h
          obtain ⟨hr, hp, -⟩ := h
          refine ⟨fun _ => ⟨w, rfl, hr.symm, hp.symm⟩, ?_, ?_, ?_⟩ <;> intro hc <;> cases hc
      | ctxDone =>
        cases hc : ctxErr with
        | none => simp [hc] at h
        | some e =>
          simp only [hc, Outcome.done.injEq, Prod.mk.injEq] at h
          obtain ⟨hr, hp, -⟩ := h
          refine ⟨?_, fun _ => ⟨hr.symm, by rw [← hr]; simp, hp.symm⟩, ?_, ?_⟩ <;>
            intro hc <;> cases hc
      | errChan =>
        cases hc : p.errChan with
        | none => simp [hc] at h
        | some e =>
          simp only [hc, Outcome.done.injEq, Prod.mk.injEq] at h
          obtain ⟨hr, hp, -⟩ := h
          refine ⟨?_, ?_, fun _ => ⟨hr.symm, by rw [← hr]; simp, hp.symm⟩, ?_⟩ <;>
            intro hc <;> cases hc
      | send =>
        by_cases hrr : recvReady i = true
        · simp only [hrr, if_true, Outcome.done.injEq, Prod.mk.injEq] at h
          obtain ⟨hr, hp, -⟩ := h
          refine ⟨?_, ?_, ?_, fun _ => ⟨hr.symm, hp.symm⟩⟩ <;> intro hc <;> cases hc
        · simp [hrr] at h

/-- C10, checked against the code: in a sink that a failed publish has left
cancelled with error 3 in the error channel (the state reached by `failRun`),
the case `<-p.workerCtx.Done()` of `emitRow` returns `context.Canceled` with
error 3 attached as secondary error, which is not error 3. -/
theorem emitRow_workerCtxDone_returns_combined :
    (run (setupWorkers sampleTopics 2) failRun).map (fun s => s.p) = some failedSink ∧
    failedSink.errChan = some (Err.external 3) ∧
    emitRow failedSink (fun _ => false) none 7 [0x61] [1] 6 emitCase.workerCtxDone =
      Outcome.done (some (Err.withSecondary Err.canceled (Err.external 3)),
        { failedSink with errChan := none }, []) ∧
    (some (Err.withSecondary Err.canceled (Err.external 3)) : Option Err) ≠
      some (Err.external 3) := by
  decide

/-- C10 (amended): when `emitRow` takes the case `<-p.workerCtx.Done()`, `w` being
`p.workerCtx.Err()`: if the error channel holds `e`, the call returns
`errors.CombineErrors(w, e)`, that is `w` with `e` attached as secondary
error, and takes `e` out of the channel; if the channel is empty it returns
`w` and leaves the sink as it is.  Either way no message is handed over. -/
theorem emitRow_workerCtxDone_error (p : pubsubSink) (recvReady : Nat → Bool)
    (ctxErr : Option Err) (topicID : Nat) (key value : Bytes) (alloc : Nat)
    (r : Option Err) (p' : pubsubSink) (evs : List Event) (w : Err)
    (hw : p.workerCtx = some w)
    (h : emitRow p recvReady ctxErr topicID key value alloc emitCase.workerCtxDone
      = Outcome.done (r, p', evs)) :
    (∀ e, p.errChan = some e →
      r = some (Err.withSecondary w e) ∧ p' = { p with errChan := none }) ∧
    (p.errChan = none → r = some w ∧ p' = p) ∧
    evs = [] := by
  obtain ⟨w', hw', hr, hp⟩ := (emitRow_cases _ _ _ _ _ _ _ _ _ _ _ h).1 rfl
  rw [hw] at hw'
  cases hw'
  refine ⟨?_, ?_, ?_⟩
  · intro e he
    simp only [sinkError, he] at hr hp
    exact ⟨hr, hp⟩
  · intro he
    simp only [sinkError, he] at hr hp
    exact ⟨hr, hp⟩
  · rcases emitRow_events _ _ _ _ _ _ _ _ _ _ _ h with ⟨-, hev⟩ | ⟨-, hc, -⟩
    · exact hev
    · cases hc

theorem emitRow_workerCtxDone_error_witness :
    (some (Err.withSecondary Err.canceled (Err.external 3)) : Option Err) =
      some (Err.withSecondary Err.canceled (Err.external 3)) ∧
    ({ failedSink with errChan := none } : pubsubSink) = { failedSink with errChan := none } :=
  (emitRow_workerCtxDone_error failedSink (fun _ => false) none 7 [0x61] [1] 6
    (some (Err.withSecondary Err.canceled (Err.external 3)))
    { failedSink with errChan := none } [] Err.canceled rfl (by decide)).1
    (Err.external 3) rfl

/-- C8, checked against the code: after `failRun` the error channel holds error 3;
one more call of `emitRow`, whose `select` takes the case `err := <-p.errChan`,
leaves the channel empty, and so does a call of `sinkError`. -/
theorem errChan_emptied_by_read :
    (run (setupWorkers sampleTopics 2) failRun).map (fun s => s.p.errChan) =
      some (some (Err.external 3)) ∧
    (run (setupWorkers sampleTopics 2)
      (failRun ++ [Action.emitRow none 7 [0x61] [1] 6 emitCase.errChan])).map
        (fun s => s.p.errChan) = some none ∧
    (sinkError failedSink).2.errChan = none := by
  decide

/-- C8 (amended): while the error channel holds `e`, no step of the sink puts
another error in its place: after a step that does not receive from the
channel it still holds `e`, and after a step that receives from it (the cases
`err := <-p.errChan` of `emitRow` and `flush`, and the calls of `sinkError` in
the case `<-p.workerCtx.Done()` of `emitRow` and after `<-p.flushDone` in
`flush`) it is empty.  `exitWorkersWithError` leaves `e` in place and
`sinkError` returns it and empties the channel. -/
theorem errChan_kept_until_read (s s' : State) (a : Action) (e : Err)
    (he : s.p.errChan = some e) (hs : step s a = some s') :
    (a.readsErrChan = false → s'.p.errChan = some e) ∧
    (a.readsErrChan = true → s'.p.errChan = none) ∧
    (∀ err, (exitWorkersWithError s.p err).errChan = some e) ∧
    sinkError s.p = (some e, { s.p with errChan := none }) := by
  have hexit : ∀ err, exitWorkersWithError s.p err = s.p := by
    intro err
    simp [exitWorkersWithError, he]
  refine ⟨?_, ?_, fun err => by rw [hexit err]; exact he, by simp [sinkError, he]⟩
  · intro hread
    cases a with
    | emitRow ctxErr topicID key value alloc c =>
      simp only [step] at hs
      cases hE : emitRow s.p (recvReady s.workers) ctxErr topicID key value alloc c with
      | fault => simp [hE] at hs
      | blocked => simp [hE] at hs
      | done res =>
        obtain ⟨r, p', evs⟩ := res
        simp only [hE, Option.some.injEq] at hs
        subst hs
        obtain ⟨-, h2, -, h4⟩ := emitRow_cases _ _ _ _ _ _ _ _ _ _ _ hE
        cases c with
        | workerCtxDone => simp [Action.readsErrChan] at hread
        | errChan => simp [Action.readsErrChan] at hread
        | ctxDone =>
          simp only
          rw [(h2 rfl).2.2]
          exact he
        | send =>
          simp only
          rw [(h4 rfl).2]
          exact he
    | emitResolvedTimestamp payload err tr =>
      simp only [step] at hs
      cases hE : emitResolvedTimestamp s.p payload err tr with
      | fault => simp [hE] at hs
      | blocked => simp [hE] at hs
      | done res =>
        obtain ⟨r, evs⟩ := res
        simp only [hE, Option.some.injEq] at hs
        subst hs
        exact he
    | flushCall ctxErr =>
      simp only [step, Option.some.injEq] at hs
      subst hs
      exact he
    | flushStep t c =>
      simp only [step] at hs
      cases ht : s.flushes[t]? with
      | none => simp [ht] at hs
      | some th =>
        simp only [ht] at hs
        cases hF : flushStep s.p (recvReady s.workers) th.ctxErr th.pc c with
        | none => simp [hF] at hs
        | some res =>
          obtain ⟨pc', p', evs⟩ := res
          simp only [hF, Option.some.injEq] at hs
          subst hs
          simp only
          cases c with
          | errChan => simp [Action.readsErrChan] at hread
          | recvDone => simp [Action.readsErrChan] at hread
          | ctxDone =>
            cases hpc : th.pc <;> simp only [hpc, flushStep] at hF <;> try contradiction
            all_goals
              cases hc : th.ctxErr <;> simp only [hc] at hF <;> try contradiction
              simp only [Option.some.injEq, Prod.mk.injEq] at hF
              rw [← hF.2.1]
              exact he
          | dflt =>
            cases hpc : th.pc <;> simp only [hpc, flushStep] at hF <;> try contradiction
            cases hc : th.ctxErr <;> simp [hc, he] at hF
          | workerCtxDone =>
            cases hpc : th.pc <;> simp only [hpc, flushStep] at hF <;> try contradiction
            all_goals
              cases hc : s.p.workerCtx <;> simp only [hc] at hF <;> try contradiction
              simp only [Option.some.injEq, Prod.mk.injEq] at hF
              rw [← hF.2.1]
              exact he
          | sendFlush =>
            cases hpc : th.pc <;> simp only [hpc, flushStep] at hF <;> try contradiction
            rename_i i
            by_cases hr : recvReady s.workers i = true
            · simp only [hr, if_true, Option.some.injEq, Prod.mk.injEq] at hF
              rw [← hF.2.1]
              exact he
            · simp [hr] at hF
          | sendDone =>
            cases hpc : th.pc <;> simp only [hpc, flushStep] at hF <;> try contradiction
            by_cases hr : s.p.flushDone = true
            · simp [hr] at hF
            · simp only [hr, Bool.false_eq_true, if_false, Option.some.injEq,
                Prod.mk.injEq] at hF
              rw [← hF.2.1]
              exact he
    | ctxCancel t e0 =>
      simp only [step] at hs
      cases ht : s.flushes[t]? with
      | none => simp [ht] at hs
      | some th =>
        simp only [ht] at hs
        cases hc : th.ctxErr <;> simp only [hc, Option.some.injEq] at hs <;> subst hs <;>
          exact he
    | workerStep j b err tr =>
      simp only [step] at hs
      cases hj : s.workers[j]? with
      | none => simp [hj] at hs
      | some pc =>
        simp only [hj] at hs
        cases hW : workerStep s.p j pc b err tr with
        | fault => simp [hW] at hs
        | blocked => simp [hW] at hs
        | done res =>
          obtain ⟨pc', p', evs⟩ := res
          simp only [hW, Option.some.injEq] at hs
          subst hs
          simp only
          cases pc with
          | idle =>
            simp only [workerStep] at hW
            cases hc : s.p.workerCtx <;> simp only [hc] at hW <;> try contradiction
            simp only [Outcome.done.injEq, Prod.mk.injEq] at hW
            rw [← hW.2.1]
            exact he
          | marshal msg =>
            simp only [workerStep] at hW
            cases err with
            | none =>
              simp only [Outcome.done.injEq, Prod.mk.injEq] at hW
              rw [← hW.2.1]
              exact he
            | some e1 =>
              simp only [he, Outcome.done.injEq, Prod.mk.injEq] at hW
              rw [← hW.2.1]
              exact he
          | marshalExit msg b' =>
            simp only [workerStep, Outcome.done.injEq, Prod.mk.injEq] at hW
            rw [← hW.2.1]
            exact he
          | sendExit msg =>
            simp only [workerStep, Outcome.done.injEq, Prod.mk.injEq] at hW
            rw [← hW.2.1]
            exact he
          | send msg b' =>
            simp only [workerStep] at hW
            cases hsm : sendMessage s.p b' msg.topicId msg.message.Key tr with
            | fault => simp [hsm] at hW
            | blocked => simp [hsm] at hW
            | done res =>
              obtain ⟨call, r0⟩ := res
              cases r0 with
              | none =>
                simp only [hsm, Outcome.done.injEq, Prod.mk.injEq] at hW
                rw [← hW.2.1]
                exact he
              | some e1 =>
                simp only [hsm, he, Outcome.done.injEq, Prod.mk.injEq] at hW
                rw [← hW.2.1]
                exact he
          | release msg =>
            simp only [workerStep, Outcome.done.injEq, Prod.mk.injEq] at hW
            rw [← hW.2.1]
            exact he
          | stopped => simp [workerStep] at hW
    | parentCancel e0 =>
      simp only [step] at hs
      cases hc : s.p.workerCtx <;> simp only [hc, Option.some.injEq] at hs <;> subst hs <;>
        exact he
  · intro hread
    cases a with
    | emitRow ctxErr topicID key value alloc c =>
      simp only [step] at hs
      cases hE : emitRow s.p (recvReady s.workers) ctxErr topicID key value alloc c with
      | fault => simp [hE] at hs
      | blocked => simp [hE] at hs
      | done res =>
        obtain ⟨r, p', evs⟩ := res
        simp only [hE, Option.some.injEq] at hs
        subst hs
        obtain ⟨h1, -, h3, -⟩ := emitRow_cases _ _ _ _ _ _ _ _ _ _ _ hE
        cases c with
        | workerCtxDone =>
          obtain ⟨w, -, -, hp⟩ := h1 rfl
          simp only
          rw [hp]
          simp [sinkError, he]
        | errChan =>
          simp only
          rw [(h3 rfl).2.2]
        | ctxDone => simp [Action.readsErrChan] at hread
        | send => simp [Action.readsErrChan] at hread
    | flushStep t c =>
      simp only [step] at hs
      cases ht : s.flushes[t]? with
      | none => simp [ht] at hs
      | some th =>
        simp only [ht] at hs
        cases hF : flushStep s.p (recvReady s.workers) th.ctxErr th.pc c with
        | none => simp [hF] at hs
        | some res =>
          obtain ⟨pc', p', evs⟩ := res
          simp only [hF, Option.some.injEq] at hs
          subst hs
          simp only
          cases c with
          | errChan =>
            cases hpc : th.pc <;> simp only [hpc, flushStep] at hF <;> try contradiction
            all_goals
              simp only [he, Option.some.injEq, Prod.mk.injEq] at hF
              rw [← hF.2.1]
          | recvDone =>
            cases hpc : th.pc <;> simp only [hpc, flushStep] at hF <;> try contradiction
            by_cases hr : s.p.flushDone = true
            · simp only [hr, if_true, Option.some.injEq, Prod.mk.injEq] at hF
              rw [← hF.2.1]
              simp [sinkError, he]
            · simp [hr] at hF
          | ctxDone => simp [Action.readsErrChan] at hread
          | dflt => simp [Action.readsErrChan] at hread
          | workerCtxDone => simp [Action.readsErrChan] at hread
          | sendFlush => simp [Action.readsErrChan] at hread
          | sendDone => simp [Action.readsErrChan] at hread
    | emitResolvedTimestamp payload err tr => simp [Action.readsErrChan] at hread
    | flushCall ctxErr => simp [Action.readsErrChan] at hread
    | ctxCancel t e0 => simp [Action.readsErrChan] at hread
    | workerStep j b err tr => simp [Action.readsErrChan] at hread
    | parentCancel e0 => simp [Action.readsErrChan] at hread

theorem errChan_kept_until_read_witness :
    ((Action.emitRow none 7 [0x61] [1] 6 emitCase.errChan).readsErrChan = true →
      drainedState.p.errChan = none) ∧
    ((Action.workerStep 1 [] none none).readsErrChan = false →
      ((step failedState (Action.workerStep 1 [] none none)).getD failedState).p.errChan
        = some (Err.external 3)) :=
  ⟨(errChan_kept_until_read failedState drainedState
      (Action.emitRow none 7 [0x61] [1] 6 emitCase.errChan) (Err.external 3)
      (by decide) (by decide)).2.1,
   (errChan_kept_until_read failedState
      ((step failedState (Action.workerStep 1 [] none none)).getD failedState)
      (Action.workerStep 1 [] none none) (Err.external 3) (by decide) (by decide)).1⟩

/-! ## Visibility of a recorded error -/

/-- C9, checked against the code, with the publish failure 3 recorded in the error
channel:

* right after the record (state `recordedState`), a call of `emitRow` for a key
  of mailbox 0, whose worker waits in its `select`, hands its message over and
  returns nil;
* once the pool is cancelled and one call of `emitRow` has received error 3
  from the error channel (state `drainedState`), a later call of `emitRow`
  that takes the case `<-p.workerCtx.Done()` returns the bare
  `context.Canceled`, and so does a later `flush`, from `flushWorkers`. -/
theorem later_calls_miss_error :
    recordedState.p.errChan = some (Err.external 3) ∧
    emitRow recordedState.p (recvReady recordedState.workers) none 7 [] [1] 6 emitCase.send =
      Outcome.done (none, recordedState.p, [Event.handoff 0 (sampleMessage 6 [])]) ∧
    failedState.p.errChan = some (Err.external 3) ∧
    failedState.p.workerCtx = some Err.canceled ∧
    emitRow failedState.p (recvReady failedState.workers) none 7 [0x61] [1] 6 emitCase.errChan =
      Outcome.done (some (Err.external 3), drainedState.p, []) ∧
    emitRow drainedState.p (recvReady drainedState.workers) none 7 [0x61] [1] 7
        emitCase.workerCtxDone =
      Outcome.done (some Err.canceled, drainedState.p, []) ∧
    (run drainedState [Action.flushCall none, Action.flushStep 0 flushCase.dflt,
        Action.flushStep 0 flushCase.workerCtxDone]).map (fun s => s.flushes) =
      some [{ pc := flushPC.returned (some Err.canceled), ctxErr := none }] := by
  decide

/-- C9 (amended): while the error channel still holds a recorded failure `e`,

* a call of `emitRow` returns `e` when its `select` takes the case
  `err := <-p.errChan`, and `workerCtx.Err()` with `e` attached as secondary
  error when it takes `<-p.workerCtx.Done()`; either way `e` is taken out of
  the channel.  When it takes `<-ctx.Done()` it returns `ctx.Err()`, and when a
  worker that still waits takes the message it returns nil; these two leave
  the sink as it is;
* a call of `flush` whose context is not cancelled can only take the case
  `err := <-p.errChan` of its first `select`: it returns `e`, at once, and
  takes `e` out of the channel. -/
theorem error_visible_while_held (p : pubsubSink) (recvReady : Nat → Bool)
    (ctxErr : Option Err) (topicID : Nat) (key value : Bytes) (alloc : Nat) (c : emitCase)
    (r : Option Err) (p' : pubsubSink) (evs : List Event) (e : Err)
    (he : p.errChan = some e)
    (h : emitRow p recvReady ctxErr topicID key value alloc c = Outcome.done (r, p', evs)) :
    (c = emitCase.errChan → r = some e ∧ p' = { p with errChan := none }) ∧
    (c = emitCase.workerCtxDone → ∃ w, p.workerCtx = some w ∧
      r = some (Err.withSecondary w e) ∧ p' = { p with errChan := none }) ∧
    (c = emitCase.ctxDone → r = ctxErr ∧ r ≠ none ∧ p' = p) ∧
    (c = emitCase.send → r = none ∧ p' = p) ∧
    flushStep p recvReady none flushPC.select1 flushCase.errChan =
      some (flushPC.returned (some e), { p with errChan := none }, []) ∧
    (∀ c', c' ≠ flushCase.errChan →
      flushStep p recvReady none flushPC.select1 c' = none) := by
  obtain ⟨h1, h2, h3, h4⟩ := emitRow_cases _ _ _ _ _ _ _ _ _ _ _ h
  refine ⟨?_, ?_, h2, h4, ?_, ?_⟩
  · intro hc
    obtain ⟨hr, -, hp⟩ := h3 hc
    exact ⟨by rw [hr, he], hp⟩
  · intro hc
    obtain ⟨w, hw, hr, hp⟩ := h1 hc
    simp only [sinkError, he] at hr hp
    exact ⟨w, hw, hr, hp⟩
  · simp [flushStep, he]
  · intro c' hc'
    cases c' <;> simp [flushStep, he] at hc' ⊢

theorem error_visible_while_held_witness :
    (some (Err.external 3) : Option Err) = some (Err.external 3) ∧
    ({ failedSink with errChan := none } : pubsubSink) = { failedSink with errChan := none } :=
  (error_visible_while_held failedSink (fun _ => false) none 7 [0x61] [1] 6 emitCase.errChan
    (some (Err.external 3)) { failedSink with errChan := none } [] (Err.external 3) rfl
    (by decide)).1 rfl

/-! ## Flush fails fast -/

/-- C11: when the error channel holds `e` and the caller's context is not
cancelled, the first `select` of `flush` can take the case `err := <-p.errChan`
and no other: `flush` returns `e` there and then, with no event (no marker is
handed to a mailbox) and with `flushDone` as it was. -/
theorem flush_fails_fast (p : pubsubSink) (recvReady : Nat → Bool) (e : Err)
    (he : p.errChan = some e) :
    flushStep p recvReady none flushPC.select1 flushCase.errChan =
      some (flushPC.returned (some e), { p with errChan := none }, []) ∧
    ∀ c pc' p' evs, flushStep p recvReady none flushPC.select1 c = some (pc', p', evs) →
      c = flushCase.errChan ∧ pc' = flushPC.returned (some e) ∧ evs = [] ∧
      p'.flushDone = p.flushDone ∧ p'.workerCtx = p.workerCtx := by
  refine ⟨by simp [flushStep, he], ?_⟩
  intro c pc' p' evs h
  cases c <;> simp [flushStep, he] at h
  obtain ⟨h1, h2, h3⟩ := h
  subst h1 h2 h3
  exact ⟨rfl, rfl, rfl, rfl, rfl⟩

theorem flush_fails_fast_witness :
    flushStep failedSink (fun _ => true) none flushPC.select1 flushCase.errChan =
      some (flushPC.returned (some (Err.external 3)), { failedSink with errChan := none }, []) :=
  (flush_fails_fast failedSink (fun _ => true) (Err.external 3) rfl).1

/-! ## Flush markers and failed publishes at the worker -/

/-- C14: a worker that dequeues a message with `isFlush = true` goes straight
back to the head of its loop: the iteration has no event (no transport call,
no `Release`) and leaves the sink as it is (no error recorded, no
cancellation); the receiving worker stays where it was, ready for the next
dequeue, and the marker does not count as a row handed to the mailbox. -/
theorem flush_marker_not_forwarded (p : pubsubSink) (j : Nat) (msg : pubsubMessage)
    (b : Bytes) (err tr : Option Err) (h : msg.isFlush = true) :
    workerRecv msg = workerPC.idle ∧
    workerIteration p j msg b err tr = Outcome.done (workerPC.idle, p, []) ∧
    (∀ ws : List workerPC, ws[j]? = some workerPC.idle →
      deliver ws [Event.handoff j msg] = ws) ∧
    handedTo j [Event.handoff j msg] = [] := by
  have hrecv : workerRecv msg = workerPC.idle := by simp [workerRecv, h]
  refine ⟨hrecv, ?_, ?_, ?_⟩
  · simp [workerIteration, hrecv, workerSteps]
  · intro ws hws
    simp only [deliver, hrecv]
    exact set_idle_of_idle ws j hws
  · simp [handedTo, h]

theorem flush_marker_not_forwarded_witness :
    workerRecv flushMessage = workerPC.idle ∧
    workerIteration failedSink 1 flushMessage [] none none =
      Outcome.done (workerPC.idle, failedSink, []) ∧
    (∀ ws : List workerPC, ws[1]? = some workerPC.idle →
      deliver ws [Event.handoff 1 flushMessage] = ws) ∧
    handedTo 1 [Event.handoff 1 flushMessage] = [] :=
  flush_marker_not_forwarded failedSink 1 flushMessage [] none none rfl

/-- C15: when the transport call for a dequeued row message fails with `e` (the
topic registered and dialed), the iteration of the worker is: the one call of
the transport, `exitWorkersWithError(e)`, `Release`.  So `e` is stored and the
pool cancelled when no error was recorded before, the sink is left alone when
one was, and the message is passed to the transport exactly once. -/
theorem publish_failure_recorded (p : pubsubSink) (j : Nat) (msg : pubsubMessage)
    (b : Bytes) (err : Option Err) (e : Err) (t : topicStruct) (c : topicClient)
    (hmsg : msg.isFlush = false) (ht : p.topics.lookup msg.topicId = some t)
    (hc : t.topicClient = some c) :
    ∃ call evs,
      workerIteration p j msg b err (some e) =
        Outcome.done (workerPC.idle, exitWorkersWithError (exitOnError p err) e, evs) ∧
      evs = [Event.publish j msg call, Event.release msg.alloc] ∧
      (publishedBy j evs).length = 1 ∧
      ((exitOnError p err).errChan = none →
        (exitWorkersWithError (exitOnError p err) e).errChan = some e ∧
        (exitWorkersWithError (exitOnError p err) e).workerCtx ≠ none) ∧
      (∀ e0, (exitOnError p err).errChan = some e0 →
        exitWorkersWithError (exitOnError p err) e = exitOnError p err) := by
  refine ⟨_, _, workerIteration_eq p j msg b err (some e) t c hmsg ht hc, rfl, ?_, ?_, ?_⟩
  · simp [publishedBy]
  · intro h
    unfold exitWorkersWithError exitWorkers
    rw [h]
    refine ⟨rfl, ?_⟩
    cases (exitOnError p err).workerCtx <;> simp
  · intro e0 h
    unfold exitWorkersWithError
    rw [h]

theorem publish_failure_recorded_witness :
    ∃ call evs,
      workerIteration { failedSink with errChan := none, workerCtx := none } 1
          (sampleMessage 5 [0x61]) [] none (some (Err.external 3)) =
        Outcome.done (workerPC.idle,
          exitWorkersWithError
            (exitOnError { failedSink with errChan := none, workerCtx := none } none)
            (Err.external 3), evs) ∧
      evs = [Event.publish 1 (sampleMessage 5 [0x61]) call,
        Event.release (sampleMessage 5 [0x61]).alloc] ∧
      (publishedBy 1 evs).length = 1 ∧
      ((exitOnError { failedSink with errChan := none, workerCtx := none } none).errChan = none →
        (exitWorkersWithError
          (exitOnError { failedSink with errChan := none, workerCtx := none } none)
          (Err.external 3)).errChan = some (Err.external 3) ∧
        (exitWorkersWithError
          (exitOnError { failedSink with errChan := none, workerCtx := none } none)
          (Err.external 3)).workerCtx ≠ none) ∧
      (∀ e0, (exitOnError { failedSink with errChan := none, workerCtx := none } none).errChan
          = some e0 →
        exitWorkersWithError
          (exitOnError { failedSink with errChan := none, workerCtx := none } none)
          (Err.external 3) =
        exitOnError { failedSink with errChan := none, workerCtx := none } none) :=
  publish_failure_recorded { failedSink with errChan := none, workerCtx := none } 1
    (sampleMessage 5 [0x61]) [] none (Err.external 3)
    { topicName := "t", pathName := "projects/p/topics/t", topicClient := some { isGcp := true } }
    { isGcp := true } rfl rfl rfl

/-! ## The method `flushWorkers` -/

theorem flushWorkers_returned (ctxErr : Option Err) (envs : List flushEnv) (pc pc' : flushPC)
    (evs : List Event) (k : Nat) (hpc : pc.inFlushWorkers = false)
    (h : flushWorkers ctxErr envs pc = some (pc', evs, k)) :
    envs = [] ∧ pc' = pc ∧ evs = [] ∧ k = 0 := by
  cases envs with
  | nil =>
    simp only [flushWorkers, Option.some.injEq, Prod.mk.injEq] at h
    exact ⟨rfl, h.1.symm, h.2.1.symm, h.2.2.symm⟩
  | cons env envs => simp [flushWorkers, hpc] at h

theorem flushWorkers_from (n : Nat) (ctxErr : Option Err) (p0 : pubsubSink)
    (hp0 : p0.numWorkers = n) (envs : List flushEnv)
    (hn : ∀ env ∈ envs, env.p.numWorkers = n) (i : Nat) (hi : i ≤ n) (pc' : flushPC)
    (evs : List Event) (k : Nat)
    (h : flushWorkers ctxErr envs (flushLoop p0 i) = some (pc', evs, k)) :
    ∃ m, i + m ≤ n ∧ evs = (List.range' i m).map (fun j => Event.handoff j flushMessage) ∧
      ((pc' = flushPC.select2 ∧ k = 1 ∧ i + m = n) ∨
       (pc' = flushPC.signal ∧ k = 0 ∧ i + m = n) ∨
       (pc' = flushPC.workers (i + m) ∧ k = 0 ∧ i + m < n) ∨
       (∃ e, pc' = flushPC.returned (some e) ∧ k = 0 ∧
          ∃ env ∈ envs, env.c = flushCase.workerCtxDone ∧ env.p.workerCtx = some e)) := by
  induction envs generalizing i evs k with
  | nil =>
    simp only [flushWorkers, Option.some.injEq, Prod.mk.injEq] at h
    obtain ⟨h1, h2, h3⟩ := h
    refine ⟨0, hi, by simp [← h2], ?_⟩
    by_cases hlt : i < n
    · right; right; left
      refine ⟨?_, h3.symm, hlt⟩
      rw [← h1]
      simp [flushLoop, hp0, hlt]
    · right; left
      refine ⟨?_, h3.symm, by omega⟩
      rw [← h1]
      simp [flushLoop, hp0, hlt]
  | cons env envs ih =>
    have henv : env.p.numWorkers = n := hn env (List.mem_cons_self _ _)
    have hn' : ∀ env' ∈ envs, env'.p.numWorkers = n :=
      fun env' h' => hn env' (List.mem_cons_of_mem _ h')
    have hloop : ∀ i', flushLoop env.p i' = flushLoop p0 i' := by
      intro i'
      simp [flushLoop, henv, hp0]
    by_cases hlt : i < n
    · have hpc : flushLoop p0 i = flushPC.workers i := by simp [flushLoop, hp0, hlt]
      rw [hpc] at h
      simp only [flushWorkers, flushPC.inFlushWorkers, if_true] at h
      cases hc : env.c <;> simp only [hc, flushStep] at h <;> try contradiction
      · -- the case `<-p.workerCtx.Done()`
        cases hw : env.p.workerCtx with
        | none => simp [hw] at h
        | some e =>
          simp only [hw] at h
          cases hrest : flushWorkers ctxErr envs (flushPC.returned (some e)) with
          | none => simp [hrest] at h
          | some res =>
            obtain ⟨pc2, evs2, k2⟩ := res
            obtain ⟨-, h2, h3, h4⟩ :=
              flushWorkers_returned ctxErr envs (flushPC.returned (some e)) pc2 evs2 k2 rfl hrest
            simp only [hrest, Option.some.injEq, Prod.mk.injEq] at h
            obtain ⟨g1, g2, g3⟩ := h
            refine ⟨0, hi, by simp [← g2, h3], ?_⟩
            right; right; right
            refine ⟨e, by rw [← g1, h2], by rw [← g3, h4]; simp [tokenPut], env,
              List.mem_cons_self _ _, hc, hw⟩
      · -- the case `p.eventsChans[i] <- pubsubMessage{isFlush: true}`
        by_cases hr : env.recvReady i = true
        · simp only [hr, if_true] at h
          cases hrest : flushWorkers ctxErr envs (flushLoop env.p (i + 1)) with
          | none => simp [hrest] at h
          | some res =>
            obtain ⟨pc2, evs2, k2⟩ := res
            simp only [hrest, Option.some.injEq, Prod.mk.injEq] at h
            obtain ⟨g1, g2, g3⟩ := h
            rw [hloop] at hrest
            obtain ⟨m, hm, hevs, hcases⟩ := ih hn' (i + 1) (by omega) evs2 k2 (g1 ▸ hrest)
            have hk : k = k2 := by rw [← g3]; simp [tokenPut]
            refine ⟨m + 1, by omega, ?_, ?_⟩
            · rw [← g2, hevs, List.range'_succ]
              simp
            · rw [hk]
              have hadd : i + (m + 1) = i + 1 + m := by omega
              rw [hadd]
              rcases hcases with hc1 | hc1 | hc1 | ⟨e, he1, he2, env', henv', he3⟩
              · exact Or.inl hc1
              · exact Or.inr (Or.inl hc1)
              · exact Or.inr (Or.inr (Or.inl hc1))
              · exact Or.inr (Or.inr (Or.inr
                  ⟨e, he1, he2, env', List.mem_cons_of_mem _ henv', he3⟩))
        · simp [hr] at h
    · have hin : i = n := by omega
      have hpc : flushLoop p0 i = flushPC.signal := by simp [flushLoop, hp0, hlt]
      rw [hpc] at h
      simp only [flushWorkers, flushPC.inFlushWorkers, if_true] at h
      cases hc : env.c <;> simp only [hc, flushStep] at h <;> try contradiction
      · cases hw : env.p.workerCtx with
        | none => simp [hw] at h
        | some e =>
          simp only [hw] at h
          cases hrest : flushWorkers ctxErr envs (flushPC.returned (some e)) with
          | none => simp [hrest] at h
          | some res =>
            obtain ⟨pc2, evs2, k2⟩ := res
            obtain ⟨-, h2, h3, h4⟩ :=
              flushWorkers_returned ctxErr envs (flushPC.returned (some e)) pc2 evs2 k2 rfl hrest
            simp only [hrest, Option.some.injEq, Prod.mk.injEq] at h
            obtain ⟨g1, g2, g3⟩ := h
            refine ⟨0, hi, by simp [← g2, h3], ?_⟩
            right; right; right
            refine ⟨e, by rw [← g1, h2], by rw [← g3, h4]; simp [tokenPut], env,
              List.mem_cons_self _ _, hc, hw⟩
      · by_cases hd : env.p.flushDone = true
        · simp [hd] at h
        · simp only [hd, Bool.false_eq_true, if_false] at h
          cases hrest : flushWorkers ctxErr envs flushPC.select2 with
          | none => simp [hrest] at h
          | some res =>
            obtain ⟨pc2, evs2, k2⟩ := res
            obtain ⟨-, h2, h3, h4⟩ :=
              flushWorkers_returned ctxErr envs flushPC.select2 pc2 evs2 k2 rfl hrest
            simp only [hrest, Option.some.injEq, Prod.mk.injEq] at h
            obtain ⟨g1, g2, g3⟩ := h
            refine ⟨0, hi, by simp [← g2, h3], ?_⟩
            left
            refine ⟨by rw [← g1, h2], ?_, by omega⟩
            rw [← g3, h4]
            simp [tokenPut, hd]

/-- C12: run `flushWorkers` from its first line, each step in whatever state the
other goroutines have left the sink in.  At every moment the markers it has
handed over are those for the mailboxes `0, 1, ..., i-1`, in this order, for
some `i ≤ numWorkers`, and one of the following holds:

* it has put its one token into `flushDone` and returned nil, and `i = numWorkers`;
* it waits at the last `select`, with no token put, and `i = numWorkers`;
* it waits at the `select` of the loop for mailbox `i < numWorkers`, with no
  token put;
* it has taken a case `<-p.workerCtx.Done()` and returned `p.workerCtx.Err()`,
  with no token put. -/
theorem flushWorkers_signals_after_all_markers (n : Nat) (ctxErr : Option Err)
    (p0 : pubsubSink) (envs : List flushEnv) (pc' : flushPC) (evs : List Event) (k : Nat)
    (hp0 : p0.numWorkers = n) (hn : ∀ env ∈ envs, env.p.numWorkers = n)
    (h : flushWorkers ctxErr envs (flushLoop p0 0) = some (pc', evs, k)) :
    ∃ i, i ≤ n ∧ evs = (List.range i).map (fun j => Event.handoff j flushMessage) ∧
      ((pc' = flushPC.select2 ∧ k = 1 ∧ i = n) ∨
       (pc' = flushPC.signal ∧ k = 0 ∧ i = n) ∨
       (pc' = flushPC.workers i ∧ k = 0 ∧ i < n) ∨
       (∃ e, pc' = flushPC.returned (some e) ∧ k = 0 ∧
          ∃ env ∈ envs, env.c = flushCase.workerCtxDone ∧ env.p.workerCtx = some e)) := by
  obtain ⟨m, hm, hevs, hcases⟩ :=
    flushWorkers_from n ctxErr p0 hp0 envs hn 0 (Nat.zero_le n) pc' evs k h
  simp only [Nat.zero_add] at hm hcases
  exact ⟨m, hm, by rw [hevs, List.range_eq_range'], hcases⟩

theorem flushWorkers_signals_after_all_markers_witness :
    ∃ i, i ≤ 2 ∧
      [Event.handoff 0 flushMessage, Event.handoff 1 flushMessage] =
        (List.range i).map (fun j => Event.handoff j flushMessage) ∧
      ((flushPC.select2 = flushPC.select2 ∧ 1 = 1 ∧ i = 2) ∨
       (flushPC.select2 = flushPC.signal ∧ 1 = 0 ∧ i = 2) ∨
       (flushPC.select2 = flushPC.workers i ∧ 1 = 0 ∧ i < 2) ∨
       (∃ e, flushPC.select2 = flushPC.returned (some e) ∧ 1 = 0 ∧
          ∃ env ∈ sampleFlushEnvs, env.c = flushCase.workerCtxDone ∧
            env.p.workerCtx = some e)) :=
  flushWorkers_signals_after_all_markers 2 none freshSink sampleFlushEnvs flushPC.select2
    [Event.handoff 0 flushMessage, Event.handoff 1 flushMessage] 1 rfl
    (by intro env henv
        simp only [sampleFlushEnvs, List.mem_cons, List.mem_singleton, List.not_mem_nil,
          or_false] at henv
        rcases henv with rfl | rfl | rfl <;> rfl)
    (by decide)

/-! ## What `flush` returns when the pool is cancelled -/

/-- C13, the code at the failing input: in the run `flushFailRun` the publish of
worker 1 fails with error 3 while a caller of `flush` waits inside
`flushWorkers` to hand its marker to worker 1.  The error is recorded and the
pool cancelled; the caller takes the case `<-p.workerCtx.Done()` and `flush`
returns the bare `context.Canceled`, while error 3 still sits in the error
channel. -/
theorem flush_returns_bare_cancellation :
    (run (setupWorkers sampleTopics 2) flushFailRun).map
      (fun s => (s.flushes, s.p.errChan, s.p.workerCtx)) =
    some ([{ pc := flushPC.returned (some Err.canceled), ctxErr := none }],
      some (Err.external 3), some Err.canceled) := by
  decide

/-! ## Resolved timestamps -/

theorem sendMessage_done (p : pubsubSink) (m : Bytes) (topicId : Nat) (tr r : Option Err)
    (call : transportCall) (h : sendMessage p m topicId [] tr = Outcome.done (call, r)) :
    r = tr ∧ ∃ t, p.topics.lookup topicId = some t ∧ t.topicClient ≠ none ∧
      call = resolvedCall t m := by
  unfold sendMessage at h
  cases ht : p.topics.lookup topicId with
  | none => simp [ht] at h
  | some t =>
    simp only [ht] at h
    cases hc : t.topicClient with
    | none => simp [hc] at h
    | some c =>
      simp only [hc] at h
      by_cases hg : c.isGcp = true
      · simp only [hg, if_true, Outcome.done.injEq, Prod.mk.injEq] at h
        exact ⟨h.2.symm, t, rfl, by simp [hc], by simp [resolvedCall, hc, hg, h.1]⟩
      · simp only [hg, Bool.false_eq_true, if_false, Outcome.done.injEq, Prod.mk.injEq] at h
        exact ⟨h.2.symm, t, rfl, by simp [hc], by simp [resolvedCall, hc, hg, h.1]⟩

theorem sendMessage_resolved (p : pubsubSink) (m : Bytes) (topicId : Nat) (tr : Option Err)
    (t : topicStruct) (ht : p.topics.lookup topicId = some t) (hc : t.topicClient ≠ none) :
    sendMessage p m topicId [] tr = Outcome.done (resolvedCall t m, tr) := by
  cases hcl : t.topicClient with
  | none => exact absurd hcl hc
  | some c =>
    rw [sendMessage_dialed p m topicId [] tr t c ht hcl]
    simp [resolvedCall, hcl]

theorem emitResolvedLoop_calls (p : pubsubSink) (payload : Bytes) (tr : Nat → Option Err)
    (ts : List (Nat × topicStruct)) (r : Option Err) (evs : List Event)
    (h : emitResolvedLoop p payload tr ts = Outcome.done (r, evs)) :
    ∀ ev ∈ evs, ∃ topicId t, p.topics.lookup topicId = some t ∧
      ev = Event.publishResolved topicId (resolvedCall t payload) := by
  induction ts generalizing r evs with
  | nil =>
    simp only [emitResolvedLoop, Outcome.done.injEq, Prod.mk.injEq] at h
    intro ev hev
    rw [← h.2] at hev
    simp at hev
  | cons hd rest ih =>
    obtain ⟨topicId, t0⟩ := hd
    unfold emitResolvedLoop at h
    cases hs : sendMessage p payload topicId [] (tr topicId) with
    | fault => simp [hs] at h
    | blocked => simp [hs] at h
    | done res =>
      obtain ⟨call, r0⟩ := res
      obtain ⟨-, t, ht, -, hcall⟩ := sendMessage_done p payload topicId _ r0 call hs
      cases r0 with
      | some e0 =>
        simp only [hs, Outcome.done.injEq, Prod.mk.injEq] at h
        intro ev hev
        rw [← h.2] at hev
        simp only [List.mem_singleton] at hev
        exact ⟨topicId, t, ht, by rw [hev, hcall]⟩
      | none =>
        simp only [hs] at h
        cases hl : emitResolvedLoop p payload tr rest with
        | fault => simp [hl] at h
        | blocked => simp [hl] at h
        | done res' =>
          obtain ⟨r', evs'⟩ := res'
          simp only [hl, Outcome.done.injEq, Prod.mk.injEq] at h
          intro ev hev
          rw [← h.2] at hev
          rcases List.mem_cons.mp hev with hev | hev
          · exact ⟨topicId, t, ht, by rw [hev, hcall]⟩
          · exact ih r' evs' hl ev hev

/-- C16, checked against the code: on a sink with one dialed GCP topic, of ID 7, a
call of `emitResolvedTimestamp` with payload `[1]` makes the transport request
itself (`Publish` with an empty ordering key) and hands nothing to a mailbox:
as a step of the running sink it leaves both workers waiting and adds only
that request to the log. -/
theorem emitResolvedTimestamp_bypasses_mailboxes :
    emitResolvedTimestamp freshSink [1] none (fun _ => none) =
      Outcome.done (none,
        [Event.publishResolved 7 (transportCall.Publish "projects/p/topics/t" [1] [])]) ∧
    (step (setupWorkers sampleTopics 2)
        (Action.emitResolvedTimestamp [1] none (fun _ => none))).map
      (fun s => (s.workers, s.log)) =
    some ([workerPC.idle, workerPC.idle],
      [Event.publishResolved 7 (transportCall.Publish "projects/p/topics/t" [1] [])]) := by
  decide

/-- C16 (amended): `emitResolvedTimestamp` delivers the payload by calling
`sendMessage`, hence the transport, itself in the calling goroutine: every
event of the call is the transport request for a registry entry, with the
payload as body and an empty ordering key.  It hands nothing to a worker
mailbox, and as a step of the running sink it leaves the sink, the workers and
the callers inside `flush` as they are. -/
theorem emitResolvedTimestamp_calls_transport (p : pubsubSink) (payload : Bytes)
    (err : Option Err) (tr : Nat → Option Err) (r : Option Err) (evs : List Event)
    (h : emitResolvedTimestamp p payload err tr = Outcome.done (r, evs)) :
    (∀ ev ∈ evs, ∃ topicId t, p.topics.lookup topicId = some t ∧
      ev = Event.publishResolved topicId (resolvedCall t payload)) ∧
    (∀ i m, Event.handoff i m ∉ evs) ∧
    (∀ s s' : State, s.p = p →
      step s (Action.emitResolvedTimestamp payload err tr) = some s' →
      s'.p = s.p ∧ s'.workers = s.workers ∧ s'.flushes = s.flushes ∧
      s'.log = s.log ++ evs) := by
  have hcalls : ∀ ev ∈ evs, ∃ topicId t, p.topics.lookup topicId = some t ∧
      ev = Event.publishResolved topicId (resolvedCall t payload) := by
    unfold emitResolvedTimestamp at h
    cases err with
    | some e0 =>
      simp only [Outcome.done.injEq, Prod.mk.injEq] at h
      intro ev hev
      rw [← h.2] at hev
      simp at hev
    | none => exact emitResolvedLoop_calls p payload tr p.topics r evs h
  refine ⟨hcalls, ?_, ?_⟩
  · intro i m hm
    obtain ⟨topicId, t, -, hev⟩ := hcalls _ hm
    cases hev
  · intro s s' hp hs
    subst hp
    simp only [step, h, Option.some.injEq] at hs
    subst hs
    exact ⟨rfl, rfl, rfl, rfl⟩

theorem emitResolvedTimestamp_calls_transport_witness :
    (∀ ev ∈ [Event.publishResolved 7 (transportCall.Publish "projects/p/topics/t" [1] [])],
      ∃ topicId t, freshSink.topics.lookup topicId = some t ∧
        ev = Event.publishResolved topicId (resolvedCall t [1])) ∧
    (∀ i m, Event.handoff i m ∉
      [Event.publishResolved 7 (transportCall.Publish "projects/p/topics/t" [1] [])]) :=
  ⟨(emitResolvedTimestamp_calls_transport freshSink [1] none (fun _ => none) none
      [Event.publishResolved 7 (transportCall.Publish "projects/p/topics/t" [1] [])]
      (by decide)).1,
   (emitResolvedTimestamp_calls_transport freshSink [1] none (fun _ => none) none
      [Event.publishResolved 7 (transportCall.Publish "projects/p/topics/t" [1] [])]
      (by decide)).2.1⟩

theorem lookup_of_mem_nodup (l : List (Nat × topicStruct)) (hnd : (l.map Prod.fst).Nodup)
    (x : Nat × topicStruct) (hx : x ∈ l) : l.lookup x.1 = some x.2 := by
  induction l with
  | nil => simp at hx
  | cons hd es ih =>
    obtain ⟨k, v⟩ := hd
    simp only [List.map_cons, List.nodup_cons] at hnd
    rcases List.mem_cons.mp hx with hx | hx
    · subst hx
      simp [List.lookup]
    · have hne : x.1 ≠ k := by
        intro heq
        exact hnd.1 (heq ▸ List.mem_map_of_mem Prod.fst hx)
      have hbeq : (x.1 == k) = false := by simpa using hne
      simp only [List.lookup, hbeq]
      exact ih hnd.2 hx

theorem emitResolvedLoop_all (p : pubsubSink) (payload : Bytes) (tr : Nat → Option Err)
    (ts : List (Nat × topicStruct))
    (hts : ∀ x ∈ ts, p.topics.lookup x.1 = some x.2 ∧ x.2.topicClient ≠ none)
    (hok : ∀ x ∈ ts, tr x.1 = none) :
    emitResolvedLoop p payload tr ts =
      Outcome.done (none,
        ts.map fun x => Event.publishResolved x.1 (resolvedCall x.2 payload)) := by
  induction ts with
  | nil => rfl
  | cons hd rest ih =>
    obtain ⟨topicId, t⟩ := hd
    obtain ⟨hl, hc⟩ := hts (topicId, t) (List.mem_cons_self _ _)
    have htr : tr topicId = none := hok (topicId, t) (List.mem_cons_self _ _)
    unfold emitResolvedLoop
    rw [sendMessage_resolved p payload topicId _ t hl hc, htr]
    simp only
    rw [ih (fun x hx => hts x (List.mem_cons_of_mem _ hx))
      (fun x hx => hok x (List.mem_cons_of_mem _ hx))]
    simp

theorem emitResolvedLoop_fail (p : pubsubSink) (payload : Bytes) (tr : Nat → Option Err)
    (pre : List (Nat × topicStruct)) (x : Nat × topicStruct) (post : List (Nat × topicStruct))
    (e : Err)
    (hts : ∀ y ∈ pre ++ x :: post, p.topics.lookup y.1 = some y.2 ∧ y.2.topicClient ≠ none)
    (hok : ∀ y ∈ pre, tr y.1 = none) (hx : tr x.1 = some e) :
    emitResolvedLoop p payload tr (pre ++ x :: post) =
      Outcome.done (some (Err.wrap "emiting resolved timestamp" e),
        (pre ++ [x]).map fun y => Event.publishResolved y.1 (resolvedCall y.2 payload)) := by
  induction pre with
  | nil =>
    obtain ⟨topicId, t⟩ := x
    obtain ⟨hl, hc⟩ := hts (topicId, t) (by simp)
    simp only [List.nil_append]
    unfold emitResolvedLoop
    rw [sendMessage_resolved p payload topicId _ t hl hc]
    simp only at hx
    rw [hx]
    simp
  | cons hd rest ih =>
    obtain ⟨topicId, t⟩ := hd
    obtain ⟨hl, hc⟩ := hts (topicId, t) (by simp)
    have htr : tr topicId = none := hok (topicId, t) (List.mem_cons_self _ _)
    simp only [List.cons_append]
    unfold emitResolvedLoop
    rw [sendMessage_resolved p payload topicId _ t hl hc, htr]
    simp only
    rw [ih (fun y hy => hts y (by simp only [List.cons_append]; exact List.mem_cons_of_mem _ hy))
      (fun y hy => hok y (List.mem_cons_of_mem _ hy))]
    simp

/-- C17: on a sink whose registry has every ID once (it is a Go map) and every
topic opened,

* when encoding fails with `e`, `emitResolvedTimestamp` makes no transport
  request and returns `e` wrapped as "encoding resolved timestamp";
* when every send succeeds it makes one request per registry entry, each entry
  once, all with the one payload, and returns nil;
* when the send for the entry `x` is the first to fail, with `e`, it has made the
  requests for the entries before `x` and for `x`, makes none for the entries
  after `x`, and returns `e` wrapped as "emiting resolved timestamp". -/
theorem emitResolvedTimestamp_once_per_topic (p : pubsubSink) (payload : Bytes)
    (tr : Nat → Option Err) (hnd : (p.topics.map Prod.fst).Nodup)
    (hdial : ∀ x ∈ p.topics, x.2.topicClient ≠ none) :
    (∀ e, emitResolvedTimestamp p payload (some e) tr =
      Outcome.done (some (Err.wrap "encoding resolved timestamp" e), [])) ∧
    ((∀ x ∈ p.topics, tr x.1 = none) →
      emitResolvedTimestamp p payload none tr =
        Outcome.done (none,
          p.topics.map fun x => Event.publishResolved x.1 (resolvedCall x.2 payload))) ∧
    (∀ pre x post e, p.topics = pre ++ x :: post → (∀ y ∈ pre, tr y.1 = none) →
      tr x.1 = some e →
      emitResolvedTimestamp p payload none tr =
        Outcome.done (some (Err.wrap "emiting resolved timestamp" e),
          (pre ++ [x]).map fun y => Event.publishResolved y.1 (resolvedCall y.2 payload))) := by
  have hts : ∀ x ∈ p.topics, p.topics.lookup x.1 = some x.2 ∧ x.2.topicClient ≠ none :=
    fun x hx => ⟨lookup_of_mem_nodup p.topics hnd x hx, hdial x hx⟩
  refine ⟨fun e => rfl, ?_, ?_⟩
  · intro hok
    exact emitResolvedLoop_all p payload tr p.topics hts hok
  · intro pre x post e hsplit hok hx
    unfold emitResolvedTimestamp
    simp only
    rw [hsplit]
    exact emitResolvedLoop_fail p payload tr pre x post e (hsplit ▸ hts) hok hx

theorem emitResolvedTimestamp_once_per_topic_witness :
    emitResolvedTimestamp twoTopicSink [1] none
        (fun i => if i = 7 then some (Err.external 4) else none) =
      Outcome.done (some (Err.wrap "emiting resolved timestamp" (Err.external 4)),
        ([] ++ [openMemTopic 7 "t"]).map
          fun (y : Nat × topicStruct) => Event.publishResolved y.1 (resolvedCall y.2 [1])) :=
  (emitResolvedTimestamp_once_per_topic twoTopicSink [1]
    (fun i => if i = 7 then some (Err.external 4) else none) (by decide) (by decide)).2.2
    [] (openMemTopic 7 "t") [openMemTopic 8 "u"] (Err.external 4) rfl (by simp) rfl

/-! ## Close -/

/-- C18, the code at the failing input: on a sink with two opened topics, 7 and 8,
where `Shutdown` fails for topic 7 with error 9, `pubsubSink.close` returns the
wrapped error right after that call: topic 8 is not shut down and none of
`errChan`, `flushDone` and the mailboxes is closed; `gcpPubsubSink.Close`
returns the same and closes neither its client nor its connection.  When no
`Shutdown` fails the whole cleanup runs. -/
theorem close_returns_at_first_failure :
    pubsubSink.close twoTopicSink (fun i => if i = 7 then some (Err.external 9) else none) =
      (some (Err.wrap "closing pubsub topic" (Err.external 9)),
        [cleanupCall.exitWorkers, cleanupCall.Wait, cleanupCall.Shutdown 7]) ∧
    gcpPubsubSink.Close
        { client := true, cleanup := true, pubsubSink := twoTopicSink, conn := true }
        (fun i => if i = 7 then some (Err.external 9) else none) =
      (some (Err.wrap "closing pubsub topic" (Err.external 9)),
        [cleanupCall.exitWorkers, cleanupCall.Wait, cleanupCall.Shutdown 7]) ∧
    pubsubSink.close twoTopicSink (fun _ => none) =
      (none,
        [cleanupCall.exitWorkers, cleanupCall.Wait, cleanupCall.Shutdown 7,
         cleanupCall.Shutdown 8, cleanupCall.closeErrChan, cleanupCall.closeFlushDone,
         cleanupCall.closeEventsChan 0, cleanupCall.closeEventsChan 1]) := by
  decide

/-- C19, the code at the failing input: `memPubsubSink.Dial` opens both topics
of `sampleMemSink`, and `memPubsubSink.Close` on the dialed sink makes no
`Shutdown` call at all; `pubsubSink.close`, which `gcpPubsubSink.Close` goes
through, shuts down both. -/
theorem memClose_skips_shutdown :
    (memPubsubSink.Dial sampleMemSink (fun _ => Sum.inr { isGcp := false })).1 = none ∧
    (memPubsubSink.Dial sampleMemSink (fun _ => Sum.inr { isGcp := false })).2.pubsubSink.topics
      = twoOpenTopics ∧
    memPubsubSink.Close
        (memPubsubSink.Dial sampleMemSink (fun _ => Sum.inr { isGcp := false })).2 =
      (none,
        [cleanupCall.exitWorkers, cleanupCall.Wait, cleanupCall.closeErrChan,
         cleanupCall.closeFlushDone, cleanupCall.closeEventsChan 0,
         cleanupCall.closeEventsChan 1]) ∧
    (pubsubSink.close
        (memPubsubSink.Dial sampleMemSink (fun _ => Sum.inr { isGcp := false })).2.pubsubSink
        (fun _ => none)).2 =
      [cleanupCall.exitWorkers, cleanupCall.Wait, cleanupCall.Shutdown 7,
       cleanupCall.Shutdown 8, cleanupCall.closeErrChan, cleanupCall.closeFlushDone,
       cleanupCall.closeEventsChan 0, cleanupCall.closeEventsChan 1] := by
  decide

/-! ## Dial -/

theorem dialTopics_keeps (openTopic : Nat → Err ⊕ topicClient)
    (store : topicStruct → topicStruct)
    (hstore : ∀ t, (store t).topicClient = t.topicClient) (ts : List (Nat × topicStruct)) :
    dialKeeps openTopic store ts (dialTopics openTopic store ts).1
      (dialTopics openTopic store ts).2 := by
  induction ts with
  | nil =>
    refine ⟨fun _ => ⟨by simp, rfl, by simp [dialTopics]⟩, ?_⟩
    intro e he
    simp [dialTopics] at he
  | cons hd rest ih =>
    obtain ⟨topicId, t⟩ := hd
    obtain ⟨ih1, ih2⟩ := ih
    cases ho : openTopic topicId with
    | inl e0 =>
      refine ⟨?_, ?_⟩
      · intro hr
        simp [dialTopics, ho] at hr
      · intro e he
        simp only [dialTopics, ho, Option.some.injEq] at he
        exact ⟨[], (topicId, t), rest, e0, rfl, by simp, ho, he.symm, by simp [dialTopics, ho]⟩
    | inr h =>
      have hentry : dialEntry openTopic store (topicId, t) =
          (topicId, store { t with topicClient := some h }) := by
        simp [dialEntry, ho]
      refine ⟨?_, ?_⟩
      · intro hr
        simp only [dialTopics, ho] at hr
        obtain ⟨h1, h2, h3⟩ := ih1 hr
        refine ⟨?_, ?_, ?_⟩
        · intro x hx
          rcases List.mem_cons.mp hx with hx | hx
          · subst hx
            exact ⟨h, ho⟩
          · exact h1 x hx
        · simp only [dialTopics, ho, List.map_cons, hentry]
          rw [← h2]
        · intro x hx
          simp only [dialTopics, ho, List.mem_cons] at hx
          rcases hx with hx | hx
          · subst hx
            simp [hstore]
          · exact h3 x hx
      · intro e he
        simp only [dialTopics, ho] at he
        obtain ⟨pre, x, post, e0, h1, h2, h3, h4, h5⟩ := ih2 e he
        refine ⟨(topicId, t) :: pre, x, post, e0, by rw [h1]; rfl, ?_, h3, h4, ?_⟩
        · intro y hy
          rcases List.mem_cons.mp hy with hy | hy
          · subst hy
            exact ⟨h, ho, by rw [hentry]; simp [hstore]⟩
          · exact h2 y hy
        · simp only [dialTopics, ho, List.map_cons, hentry, List.cons_append]
          rw [← h5]

/-- C20: in both `Dial` methods the loop over the registry either opens every
topic, returns nil and leaves a handle in every entry, or stops at the first
entry whose topic fails to open and returns that failure wrapped as "opening
topic", with the handles opened before it stored in their entries and the
entries after it untouched.  `gcpPubsubSink.Dial` returns an error without
touching the registry when the connection or the publisher client cannot be
set up. -/
theorem Dial_keeps_opened_handles (m : memPubsubSink) (g : gcpPubsubSink)
    (openTopic : Nat → Err ⊕ topicClient) (connErr clientErr : Option Err)
    (join : List String → String) (host : String) :
    dialKeeps openTopic id m.pubsubSink.topics (memPubsubSink.Dial m openTopic).1
      (memPubsubSink.Dial m openTopic).2.pubsubSink.topics ∧
    (connErr = none → clientErr = none →
      dialKeeps openTopic (fun t => { t with pathName := createGCPURL join host t.topicName })
        g.pubsubSink.topics
        (gcpPubsubSink.Dial g connErr clientErr openTopic join host).1
        (gcpPubsubSink.Dial g connErr clientErr openTopic join host).2.pubsubSink.topics) ∧
    ((gcpPubsubSink.Dial g connErr clientErr openTopic join host).1 = none →
      connErr = none ∧ clientErr = none) ∧
    (∀ e, connErr = some e →
      gcpPubsubSink.Dial g connErr clientErr openTopic join host =
        (some (Err.wrap "establishing gcp connection" e), g)) ∧
    (∀ e, connErr = none → clientErr = some e →
      (gcpPubsubSink.Dial g connErr clientErr openTopic join host).1 =
        some (Err.wrap "creating publisher client" e) ∧
      (gcpPubsubSink.Dial g connErr clientErr openTopic join host).2.pubsubSink = g.pubsubSink)
    := by
  refine ⟨?_, ?_, ?_, ?_, ?_⟩
  · exact dialTopics_keeps openTopic id (fun _ => rfl) m.pubsubSink.topics
  · intro h1 h2
    subst h1 h2
    exact dialTopics_keeps openTopic
      (fun t => { t with pathName := createGCPURL join host t.topicName }) (fun _ => rfl)
      g.pubsubSink.topics
  · intro h
    cases connErr with
    | some e => simp [gcpPubsubSink.Dial] at h
    | none =>
      cases clientErr with
      | some e => simp [gcpPubsubSink.Dial] at h
      | none => exact ⟨rfl, rfl⟩
  · intro e he
    subst he
    rfl
  · intro e h1 h2
    subst h1 h2
    exact ⟨rfl, rfl⟩

/-- A partial failure on `sampleMemSink`: topic 7 opens, topic 8 does not. -/
theorem Dial_keeps_opened_handles_witness :
    memPubsubSink.Dial sampleMemSink
        (fun i => if i = 7 then Sum.inr { isGcp := false } else Sum.inl (Err.external 5)) =
      (some (Err.wrap "opening topic" (Err.external 5)),
        { pubsubSink := { sampleMemSink.pubsubSink with
            topics := [openMemTopic 7 "t",
              (8, { topicName := "u", pathName := "", topicClient := none })] } }) ∧
    dialKeeps (fun i => if i = 7 then Sum.inr { isGcp := false } else Sum.inl (Err.external 5))
      id sampleMemSink.pubsubSink.topics
      (memPubsubSink.Dial sampleMemSink
        (fun i => if i = 7 then Sum.inr { isGcp := false } else Sum.inl (Err.external 5))).1
      (memPubsubSink.Dial sampleMemSink
        (fun i => if i = 7 then Sum.inr { isGcp := false }
          else Sum.inl (Err.external 5))).2.pubsubSink.topics :=
  ⟨by decide,
   (Dial_keeps_opened_handles sampleMemSink
      { client := false, cleanup := false, pubsubSink := freshSink, conn := false }
      (fun i => if i = 7 then Sum.inr { isGcp := false } else Sum.inl (Err.external 5))
      none none (fun _ => "") "").1⟩

/-! ## Serialisation failures, cancellation of the caller and the completion token -/

/-- C29, the code at the failing input: in the run `marshalFailRun`, `json.Marshal`
fails with error 4 for the row that worker 1 dequeued.  The worker records the
error and then calls the transport all the same, with the buffer that
`json.Marshal` left (here empty); as one iteration: a transport request, then
`Release`. -/
theorem worker_publishes_after_marshal_failure :
    (run (setupWorkers sampleTopics 2) marshalFailRun).map
      (fun s => (s.log, s.p.errChan)) =
    some ([Event.handoff 1 (sampleMessage 5 [0x61]),
           Event.publish 1 (sampleMessage 5 [0x61])
             (transportCall.Publish "projects/p/topics/t" [] [0x61])],
      some (Err.external 4)) ∧
    workerIteration freshSink 1 (sampleMessage 5 [0x61]) [] (some (Err.external 4)) none =
      Outcome.done (workerPC.idle, exitWorkersWithError freshSink (Err.external 4),
        [Event.publish 1 (sampleMessage 5 [0x61])
           (transportCall.Publish "projects/p/topics/t" [] [0x61]),
         Event.release 5]) := by
  decide

/-- C22, the code at the failing input: after `blockedFlushRun` the caller of
`flush` stands in the loop of `flushWorkers` at mailbox 1 with its context
cancelled, worker 1 is busy and the worker context is not cancelled.  No case
of its `select` is ready: the call neither returns nor moves, whatever case is
tried. -/
theorem flushWorkers_ignores_caller_context :
    blockedFlushState.flushes =
      [{ pc := flushPC.workers 1, ctxErr := some Err.canceled }] ∧
    blockedFlushState.p.workerCtx = none ∧
    recvReady blockedFlushState.workers 1 = false ∧
    allFlushCases.all
      (fun c => (step blockedFlushState (Action.flushStep 0 c)).isNone) = true ∧
    allFlushCases.all
      (fun c => (flushStep { freshSink with flushDone := true } (fun _ => true)
        (some Err.canceled) flushPC.signal c).isNone) = true := by
  decide

/-- C28, checked against the code: in the run `leakRun` a caller of `flush` goes
through `flushWorkers`, which puts the token into `flushDone`; its context is
cancelled and its final `select` takes the case `<-ctx.Done()`.  The call
returns the cancellation error and the token stays in `flushDone`.  A second
call of `flush` then hands over its markers and stands at the last `select` of
`flushWorkers` with no case ready. -/
theorem flushDone_token_left_behind :
    leakedState.flushes =
      [{ pc := flushPC.returned (some Err.canceled), ctxErr := some Err.canceled }] ∧
    leakedState.p.flushDone = true ∧
    secondFlushState.flushes =
      [{ pc := flushPC.returned (some Err.canceled), ctxErr := some Err.canceled },
       { pc := flushPC.signal, ctxErr := none }] ∧
    allFlushCases.all
      (fun c => (step secondFlushState (Action.flushStep 1 c)).isNone) = true := by
  decide

theorem flushStep_flushDone (p : pubsubSink) (recvReady : Nat → Bool)
    (ctxErr : Option Err) (pc : flushPC) (c : flushCase) (pc' : flushPC) (p' : pubsubSink)
    (evs : List Event) (h : flushStep p recvReady ctxErr pc c = some (pc', p', evs)) :
    (c = flushCase.sendDone ∧ pc = flushPC.signal ∧ pc' = flushPC.select2 ∧
      p.flushDone = false ∧ p'.flushDone = true) ∨
    (c = flushCase.recvDone ∧ pc = flushPC.select2 ∧ (∃ r, pc' = flushPC.returned r) ∧
      p.flushDone = true ∧ p'.flushDone = false) ∨
    (c ≠ flushCase.sendDone ∧ c ≠ flushCase.recvDone ∧ p'.flushDone = p.flushDone) := by
  have hctx : ∀ (x : Option Err) (q : flushPC),
      (match x with
        | some e => some (flushPC.returned (some e), p, ([] : List Event))
        | none => none) = some (q, p', evs) → p'.flushDone = p.flushDone := by
    intro x q hq
    cases x with
    | none => simp at hq
    | some e =>
      simp only [Option.some.injEq, Prod.mk.injEq] at hq
      rw [← hq.2.1]
  have herr : ∀ (x : Option Err) (q : flushPC),
      (match x with
        | some err => some (flushPC.returned (some err), { p with errChan := none },
            ([] : List Event))
        | none => none) = some (q, p', evs) → p'.flushDone = p.flushDone := by
    intro x q hq
    cases x with
    | none => simp at hq
    | some e =>
      simp only [Option.some.injEq, Prod.mk.injEq] at hq
      rw [← hq.2.1]
  cases pc with
  | select1 =>
    cases c with
    | ctxDone =>
      simp only [flushStep] at h
      exact Or.inr (Or.inr ⟨by simp, by simp, hctx _ _ h⟩)
    | errChan =>
      simp only [flushStep] at h
      exact Or.inr (Or.inr ⟨by simp, by simp, herr _ _ h⟩)
    | dflt =>
      simp only [flushStep] at h
      cases hx : ctxErr <;> cases hy : p.errChan <;> simp only [hx, hy] at h <;>
        try contradiction
      simp only [Option.some.injEq, Prod.mk.injEq] at h
      exact Or.inr (Or.inr ⟨by simp, by simp, by rw [← h.2.1]⟩)
    | workerCtxDone => simp [flushStep] at h
    | sendFlush => simp [flushStep] at h
    | sendDone => simp [flushStep] at h
    | recvDone => simp [flushStep] at h
  | workers i =>
    cases c with
    | workerCtxDone =>
      simp only [flushStep] at h
      exact Or.inr (Or.inr ⟨by simp, by simp, hctx _ _ h⟩)
    | sendFlush =>
      simp only [flushStep] at h
      by_cases hr : recvReady i = true
      · simp only [hr, if_true, Option.some.injEq, Prod.mk.injEq] at h
        exact Or.inr (Or.inr ⟨by simp, by simp, by rw [← h.2.1]⟩)
      · simp [hr] at h
    | ctxDone => simp [flushStep] at h
    | errChan => simp [flushStep] at h
    | dflt => simp [flushStep] at h
    | sendDone => simp [flushStep] at h
    | recvDone => simp [flushStep] at h
  | signal =>
    cases c with
    | workerCtxDone =>
      simp only [flushStep] at h
      exact Or.inr (Or.inr ⟨by simp, by simp, hctx _ _ h⟩)
    | sendDone =>
      simp only [flushStep] at h
      by_cases hd : p.flushDone = true
      · simp [hd] at h
      · simp only [hd, Bool.false_eq_true, if_false, Option.some.injEq, Prod.mk.injEq] at h
        refine Or.inl ⟨rfl, rfl, h.1.symm, by simpa using hd, ?_⟩
        rw [← h.2.1]
    | ctxDone => simp [flushStep] at h
    | errChan => simp [flushStep] at h
    | dflt => simp [flushStep] at h
    | sendFlush => simp [flushStep] at h
    | recvDone => simp [flushStep] at h
  | select2 =>
    cases c with
    | ctxDone =>
      simp only [flushStep] at h
      exact Or.inr (Or.inr ⟨by simp, by simp, hctx _ _ h⟩)
    | errChan =>
      simp only [flushStep] at h
      exact Or.inr (Or.inr ⟨by simp, by simp, herr _ _ h⟩)
    | recvDone =>
      simp only [flushStep] at h
      by_cases hd : p.flushDone = true
      · simp only [hd, if_true, Option.some.injEq, Prod.mk.injEq] at h
        refine Or.inr (Or.inl ⟨rfl, rfl, ⟨_, h.1.symm⟩, hd, ?_⟩)
        rw [← h.2.1]
        exact (sinkError_frame _).2.2.2
      · simp [hd] at h
    | dflt => simp [flushStep] at h
    | workerCtxDone => simp [flushStep] at h
    | sendFlush => simp [flushStep] at h
    | sendDone => simp [flushStep] at h
  | returned r0 => cases c <;> simp [flushStep] at h

/-- C28 (amended): a call of `flush` that returns through the case
`<-p.flushDone` of its final `select` takes the token out of `flushDone`, which
is empty afterwards.  A call that returns through any other case leaves
`flushDone` as that step found it: untouched when the return comes from the
first `select` or from `flushWorkers`, and still holding the token when it
comes from the case `<-ctx.Done()` or `err := <-p.errChan` of the final
`select` before anyone took the token.  The completion handoff puts the token
only into an empty `flushDone` and is not ready while it is full. -/
theorem flushDone_after_return (p : pubsubSink) (recvReady : Nat → Bool)
    (ctxErr : Option Err) (pc : flushPC) (c : flushCase) (r : Option Err) (p' : pubsubSink)
    (evs : List Event)
    (h : flushStep p recvReady ctxErr pc c = some (flushPC.returned r, p', evs)) :
    (c = flushCase.recvDone → pc = flushPC.select2 ∧ p.flushDone = true ∧
      p'.flushDone = false) ∧
    (c ≠ flushCase.recvDone → p'.flushDone = p.flushDone) ∧
    (p.flushDone = true →
      flushStep p recvReady ctxErr flushPC.signal flushCase.sendDone = none) ∧
    (p.flushDone = false →
      flushStep p recvReady ctxErr flushPC.signal flushCase.sendDone =
        some (flushPC.select2, { p with flushDone := true }, [])) := by
  rcases flushStep_flushDone p recvReady ctxErr pc c _ p' evs h with
    ⟨-, -, h3, -, -⟩ | ⟨h1, h2, -, h4, h5⟩ | ⟨-, h2, h3⟩
  · cases h3
  · exact ⟨fun _ => ⟨h2, h4, h5⟩, fun hc => absurd h1 hc, by intro hd; simp [flushStep, hd],
      by intro hd; simp [flushStep, hd]⟩
  · exact ⟨fun hc => absurd hc h2, fun _ => h3, by intro hd; simp [flushStep, hd],
      by intro hd; simp [flushStep, hd]⟩

theorem flushDone_after_return_witness :
    flushStep { freshSink with flushDone := true } (fun _ => true) (some Err.canceled)
        flushPC.select2 flushCase.ctxDone =
      some (flushPC.returned (some Err.canceled), { freshSink with flushDone := true }, []) ∧
    flushStep { freshSink with flushDone := true } (fun _ => true) (some Err.canceled)
        flushPC.signal flushCase.sendDone = none :=
  ⟨by decide,
   (flushDone_after_return { freshSink with flushDone := true } (fun _ => true)
    (some Err.canceled) flushPC.select2 flushCase.ctxDone (some Err.canceled)
    { freshSink with flushDone := true } [] (by decide)).2.2.1 rfl⟩

/-! ## Construction and the registry lookup of `emitRow` -/

/-- C21: `MakePubsubSink` returns an error and no sink when the format option is
not JSON, when the envelope option is not wrapped, and when the scheme is
neither `gcppubsub` nor `mem` (that is, when `isPubsubSink` is false); with
scheme `mem`, format JSON and envelope wrapped it returns an in-memory sink
with 100 workers over the registry of the targets, and no error. -/
theorem MakePubsubSink_configuration (cb : changefeedbase) (scheme pubsubTopicName : String)
    (opts : List (String × String)) (targets : List (Nat × ChangefeedTarget))
    (credsErr : Option Err) :
    (optsGet opts cb.OptFormat ≠ cb.OptFormatJSON →
      ∃ e, (MakePubsubSink cb scheme pubsubTopicName opts targets credsErr).1 = Sum.inl e) ∧
    (optsGet opts cb.OptEnvelope ≠ cb.OptEnvelopeWrapped →
      ∃ e, (MakePubsubSink cb scheme pubsubTopicName opts targets credsErr).1 = Sum.inl e) ∧
    (scheme ≠ gcpScheme → scheme ≠ memScheme →
      ∃ e, (MakePubsubSink cb scheme pubsubTopicName opts targets credsErr).1 = Sum.inl e) ∧
    (isPubsubSink scheme = false ↔ (scheme ≠ gcpScheme ∧ scheme ≠ memScheme)) ∧
    (scheme = memScheme → optsGet opts cb.OptFormat = cb.OptFormatJSON →
      optsGet opts cb.OptEnvelope = cb.OptEnvelopeWrapped →
      MakePubsubSink cb scheme pubsubTopicName opts targets credsErr =
        (Sum.inr (Sink.mem
          { pubsubSink := (setupWorkers (makeTopics pubsubTopicName targets) 100).p }), [])) := by
  refine ⟨?_, ?_, ?_, ?_, ?_⟩
  · intro h
    simp [MakePubsubSink, h]
  · intro h
    by_cases hf : optsGet opts cb.OptFormat = cb.OptFormatJSON
    · simp [MakePubsubSink, hf, h]
    · simp [MakePubsubSink, hf]
  · intro hg hm
    by_cases hf : optsGet opts cb.OptFormat = cb.OptFormatJSON
    · by_cases he : optsGet opts cb.OptEnvelope = cb.OptEnvelopeWrapped
      · simp [MakePubsubSink, hf, he, hg, hm]
      · simp [MakePubsubSink, hf, he]
    · simp [MakePubsubSink, hf]
  · simp [isPubsubSink, not_or]
  · intro hm hf he
    subst hm
    have hg : memScheme ≠ gcpScheme := by decide
    simp [MakePubsubSink, hf, he, hg]

theorem MakePubsubSink_configuration_witness :
    MakePubsubSink sampleBase "mem" "" [("format", "json"), ("envelope", "wrapped")]
        [(7, { StatementTimeName := "t" })] none =
      (Sum.inr (Sink.mem
        { pubsubSink :=
            (setupWorkers (makeTopics "" [(7, { StatementTimeName := "t" })]) 100).p }), []) ∧
    (∃ e, (MakePubsubSink sampleBase "kafka" "" [("format", "json"), ("envelope", "wrapped")]
        [(7, { StatementTimeName := "t" })] none).1 = Sum.inl e) :=
  ⟨(MakePubsubSink_configuration sampleBase "mem" "" [("format", "json"), ("envelope", "wrapped")]
      [(7, { StatementTimeName := "t" })] none).2.2.2.2 rfl rfl rfl,
   (MakePubsubSink_configuration sampleBase "kafka" ""
      [("format", "json"), ("envelope", "wrapped")]
      [(7, { StatementTimeName := "t" })] none).2.2.1 (by decide) (by decide)⟩

theorem lookup_eq_none_iff_not_mem (l : List (Nat × topicStruct)) (k : Nat) :
    l.lookup k = none ↔ k ∉ l.map Prod.fst := by
  induction l with
  | nil => simp
  | cons hd es ih =>
    obtain ⟨k', v⟩ := hd
    by_cases hk : k = k'
    · subst hk
      simp [List.lookup]
    · have hbeq : (k == k') = false := by simpa using hk
      simp only [List.lookup, hbeq, List.map_cons, List.mem_cons, hk, false_or]
      exact ih

theorem makeTopics_keys (pubsubTopicName : String) (targets : List (Nat × ChangefeedTarget)) :
    (makeTopics pubsubTopicName targets).map Prod.fst = targets.map Prod.fst := by
  simp [makeTopics, Function.comp_def]

/-- C30: with `workerIndex` defined for the key (as in every sink made by
`MakePubsubSink`, which has 100 workers),

* for a topic ID that is a key of `p.topics`, no case of `emitRow` faults, and
  the message that the call hands over has that ID as `topicId` and the
  registered `topicName` as `Topic`;
* for a topic ID that is not a key of `p.topics`, `emitRow` faults on the lookup,
  whatever case its `select` would take;
* the registry that `MakePubsubSink` builds has the IDs of the targets as its
  keys, and it maps the ID of a target to the URL parameter `topic_name` when
  that is non-empty, else to the statement-time name of the target. -/
theorem emitRow_registry_lookup (p : pubsubSink) (recvReady : Nat → Bool)
    (ctxErr : Option Err) (topicID : Nat) (key value : Bytes) (alloc i : Nat)
    (hi : workerIndex p.numWorkers key = some i) :
    (∀ t, p.topics.lookup topicID = some t →
      (∀ c, emitRow p recvReady ctxErr topicID key value alloc c ≠ Outcome.fault) ∧
      (recvReady i = true →
        emitRow p recvReady ctxErr topicID key value alloc emitCase.send =
          Outcome.done (none, p,
            [Event.handoff i
              { alloc := alloc, isFlush := false, topicId := topicID,
                message := { Key := key, Value := value, Topic := t.topicName } }]))) ∧
    (p.topics.lookup topicID = none →
      ∀ c, emitRow p recvReady ctxErr topicID key value alloc c = Outcome.fault) ∧
    (p.topics.lookup topicID = none ↔ topicID ∉ p.topics.map Prod.fst) ∧
    (∀ (pubsubTopicName : String) (targets : List (Nat × ChangefeedTarget)),
      (∀ k, (makeTopics pubsubTopicName targets).lookup k = none ↔
        k ∉ targets.map Prod.fst) ∧
      ((targets.map Prod.fst).Nodup → ∀ x ∈ targets,
        (makeTopics pubsubTopicName targets).lookup x.1 =
          some (makeTopic pubsubTopicName x.2) ∧
        (makeTopic pubsubTopicName x.2).topicName =
          if pubsubTopicName = "" then x.2.StatementTimeName else pubsubTopicName)) := by
  refine ⟨?_, ?_, lookup_eq_none_iff_not_mem _ _, ?_⟩
  · intro t ht
    refine ⟨?_, ?_⟩
    · intro c
      unfold emitRow
      simp only [ht, hi]
      cases c with
      | workerCtxDone => cases p.workerCtx <;> simp
      | ctxDone => cases ctxErr <;> simp
      | errChan => cases p.errChan <;> simp
      | send => by_cases hr : recvReady i = true <;> simp [hr]
    · intro hr
      simp [emitRow, ht, hi, hr]
  · intro ht c
    simp [emitRow, ht]
  · intro pubsubTopicName targets
    refine ⟨?_, ?_⟩
    · intro k
      rw [lookup_eq_none_iff_not_mem, makeTopics_keys]
    · intro hnd x hx
      have hmem : (x.1, makeTopic pubsubTopicName x.2) ∈
          makeTopics pubsubTopicName targets := by
        unfold makeTopics
        exact List.mem_map.mpr ⟨x, hx, rfl⟩
      exact ⟨lookup_of_mem_nodup (makeTopics pubsubTopicName targets)
        (by rw [makeTopics_keys]; exact hnd) _ hmem, rfl⟩

theorem emitRow_registry_lookup_witness :
    workerIndex freshSink.numWorkers [0x61] = some 1 ∧
    emitRow freshSink (fun _ => true) none 7 [0x61] [1] 5 emitCase.send =
      Outcome.done (none, freshSink, [Event.handoff 1 (sampleMessage 5 [0x61])]) ∧
    emitRow freshSink (fun _ => true) none 9 [0x61] [1] 5 emitCase.send = Outcome.fault :=
  ⟨by decide,
   ((emitRow_registry_lookup freshSink (fun _ => true) none 7 [0x61] [1] 5 1 (by decide)).1
      { topicName := "t", pathName := "projects/p/topics/t",
        topicClient := some { isGcp := true } } (by decide)).2 rfl,
   (emitRow_registry_lookup freshSink (fun _ => true) none 9 [0x61] [1] 5 1 (by decide)).2.1
      (by decide) emitCase.send⟩

/-! ## Topic paths -/

theorem reMatch_lit (c : Char) (r : List reItem) (s : List Char)
    (h : reMatch (reItem.lit c :: r) s = true) : ∃ s1, s = c :: s1 ∧ reMatch r s1 = true := by
  cases s with
  | nil => simp [reMatch] at h
  | cons x s =>
    simp only [reMatch, Bool.and_eq_true, beq_iff_eq] at h
    exact ⟨s, by rw [h.1], h.2⟩

theorem reMatch_plusNot (c : Char) (r : List reItem) (s : List Char)
    (h : reMatch (reItem.plusNot c :: r) s = true) :
    ∃ a s1, s = a ++ s1 ∧ a ≠ [] ∧ (∀ x ∈ a, x ≠ c) ∧ reMatch r s1 = true := by
  induction s with
  | nil => simp [reMatch] at h
  | cons x s ih =>
    simp only [reMatch, Bool.and_eq_true, bne_iff_ne, ne_eq, Bool.or_eq_true] at h
    obtain ⟨hx, h | h⟩ := h
    · exact ⟨[x], s, rfl, by simp, by simpa using hx, h⟩
    · obtain ⟨a, s1, hs, _, ha, hr⟩ := ih h
      refine ⟨x :: a, s1, by rw [hs]; rfl, by simp, ?_, hr⟩
      intro y hy
      rcases List.mem_cons.mp hy with hy | hy
      · rw [hy]
        exact hx
      · exact ha y hy

theorem reMatch_nil (s : List Char) (h : reMatch [] s = true) : s = [] := by
  cases s with
  | nil => rfl
  | cons x s => simp [reMatch] at h

theorem cut_sep (sep : Char) (a rest : List Char) (ha : ∀ x ∈ a, x ≠ sep) :
    strings.cut sep (a ++ sep :: rest) = (a, some rest) := by
  induction a with
  | nil => simp [strings.cut]
  | cons x a ih =>
    have hx : x ≠ sep := ha x (List.mem_cons_self _ _)
    have := ih fun y hy => ha y (List.mem_cons_of_mem _ hy)
    simp [strings.cut, hx, this]

/-- A text that `fullTopicPathRE` matches is `projects/a/topics/b` with `a` and
`b` not empty and without a slash. -/
theorem fullTopicPathRE_shape (s : List Char) (h : reMatch fullTopicPathRE s = true) :
    ∃ a b, s = "projects".data ++ '/' :: (a ++ '/' :: ("topics".data ++ '/' :: b)) ∧
      a ≠ [] ∧ b ≠ [] ∧ (∀ x ∈ a, x ≠ '/') ∧ (∀ x ∈ b, x ≠ '/') := by
  have hre : fullTopicPathRE =
      reItem.lit 'p' :: reItem.lit 'r' :: reItem.lit 'o' :: reItem.lit 'j' :: reItem.lit 'e' ::
      reItem.lit 'c' :: reItem.lit 't' :: reItem.lit 's' :: reItem.lit '/' ::
      reItem.plusNot '/' :: reItem.lit '/' :: reItem.lit 't' :: reItem.lit 'o' ::
      reItem.lit 'p' :: reItem.lit 'i' :: reItem.lit 'c' :: reItem.lit 's' :: reItem.lit '/' ::
      [reItem.plusNot '/'] := rfl
  rw [hre] at h
  obtain ⟨s1, e1, h⟩ := reMatch_lit _ _ _ h
  obtain ⟨s2, e2, h⟩ := reMatch_lit _ _ _ h
  obtain ⟨s3, e3, h⟩ := reMatch_lit _ _ _ h
  obtain ⟨s4, e4, h⟩ := reMatch_lit _ _ _ h
  obtain ⟨s5, e5, h⟩ := reMatch_lit _ _ _ h
  obtain ⟨s6, e6, h⟩ := reMatch_lit _ _ _ h
  obtain ⟨s7, e7, h⟩ := reMatch_lit _ _ _ h
  obtain ⟨s8, e8, h⟩ := reMatch_lit _ _ _ h
  obtain ⟨s9, e9, h⟩ := reMatch_lit _ _ _ h
  obtain ⟨a, t0, ea, hane, ha, h⟩ := reMatch_plusNot _ _ _ h
  obtain ⟨t1, f1, h⟩ := reMatch_lit _ _ _ h
  obtain ⟨t2, f2, h⟩ := reMatch_lit _ _ _ h
  obtain ⟨t3, f3, h⟩ := reMatch_lit _ _ _ h
  obtain ⟨t4, f4, h⟩ := reMatch_lit _ _ _ h
  obtain ⟨t5, f5, h⟩ := reMatch_lit _ _ _ h
  obtain ⟨t6, f6, h⟩ := reMatch_lit _ _ _ h
  obtain ⟨t7, f7, h⟩ := reMatch_lit _ _ _ h
  obtain ⟨t8, f8, h⟩ := reMatch_lit _ _ _ h
  obtain ⟨b, t9, eb, hbne, hb, h⟩ := reMatch_plusNot _ _ _ h
  have h9 := reMatch_nil _ h
  refine ⟨a, b, ?_, hane, hbne, ha, hb⟩
  rw [e1, e2, e3, e4, e5, e6, e7, e8, e9, ea, f1, f2, f3, f4, f5, f6, f7, f8, eb, h9]
  simp

/-- `strings.SplitN(fullPath, "/", 4)` gives four parts for a text that
`fullTopicPathRE` matches. -/
theorem SplitN_fullTopicPath (s : List Char) (h : reMatch fullTopicPathRE s = true) :
    (strings.SplitN s '/' 4).length = 4 := by
  obtain ⟨a, b, hs, _, _, ha, _⟩ := fullTopicPathRE_shape s h
  rw [hs]
  have h1 : strings.cut '/' ("projects".data ++ '/' :: (a ++ '/' :: ("topics".data ++ '/' :: b))) =
      ("projects".data, some (a ++ '/' :: ("topics".data ++ '/' :: b))) :=
    cut_sep '/' _ _ (by decide)
  have h2 : strings.cut '/' (a ++ '/' :: ("topics".data ++ '/' :: b)) =
      (a, some ("topics".data ++ '/' :: b)) := cut_sep '/' _ _ ha
  have h3 : strings.cut '/' ("topics".data ++ '/' :: b) = ("topics".data, some b) :=
    cut_sep '/' _ _ (by decide)
  simp only [strings.SplitN, h1, h2, h3, List.length_cons, List.length_nil]

/-- C26: `parseGCPURL` returns the full path of a properly formatted URL.  When
the joined host and path match `fullTopicPathRE`, `SplitN` gives four parts and
the result is the joined path with a nil error; the error "unexpected number of
components" is returned for no input; when the joined path matches neither
`fullTopicPathRE` nor `shortTopicPathRE` the result is the error "could not
parse project and topic". -/
theorem parseGCPURL_full_path (join : List String → String) (uHost uPath : String) :
    (reMatch fullTopicPathRE (join [uHost, uPath]).data = true →
      (strings.SplitN (join [uHost, uPath]).data '/' 4).length = 4 ∧
      parseGCPURL join uHost uPath = (join [uHost, uPath], none)) ∧
    (∀ s, parseGCPURL join uHost uPath ≠ ("", some (parseError.unexpectedComponents s))) ∧
    (reMatch fullTopicPathRE (join [uHost, uPath]).data = false →
      reMatch shortTopicPathRE (join [uHost, uPath]).data = false →
      parseGCPURL join uHost uPath =
        ("", some (parseError.couldNotParse (join [uHost, uPath])))) := by
  refine ⟨?_, ?_, ?_⟩
  · intro h
    have h4 := SplitN_fullTopicPath _ h
    refine ⟨h4, ?_⟩
    simp [parseGCPURL, h, h4]
  · intro s
    unfold parseGCPURL
    by_cases h : reMatch fullTopicPathRE (join [uHost, uPath]).data = true
    · have h4 := SplitN_fullTopicPath _ h
      simp [h, h4]
    · by_cases h2 : reMatch shortTopicPathRE (join [uHost, uPath]).data = true
      · simp [h, h2]
      · simp [h, h2]
  · intro h h2
    simp [parseGCPURL, h, h2]

theorem parseGCPURL_full_path_witness :
    reMatch fullTopicPathRE (path.Join ["projects", "/p/topics/t"]).data = true ∧
    parseGCPURL path.Join "projects" "/p/topics/t" = ("projects/p/topics/t", none) ∧
    parseGCPURL path.Join "p" "" = ("", some (parseError.couldNotParse "p")) :=
  ⟨by decide,
   ((parseGCPURL_full_path path.Join "projects" "/p/topics/t").1 (by decide)).2,
   (parseGCPURL_full_path path.Join "p" "").2.2 (by decide) (by decide)⟩

/-- C27, checked against the code: for the URL with host `a` and path
`/../b/c`, `path.Join` of host and path is `b/c`, which `shortTopicPathRE`
matches and `fullTopicPathRE` does not; `parseGCPURL` returns
`path.Join("projects", "a", "topics", "/../b/c")`, that is `projects/a/b/c`,
with a nil error, and `fullTopicPathRE` does not match that path. -/
theorem parseGCPURL_short_form_not_full :
    path.Join ["a", "/../b/c"] = "b/c" ∧
    reMatch shortTopicPathRE "b/c".data = true ∧
    reMatch fullTopicPathRE "b/c".data = false ∧
    parseGCPURL path.Join "a" "/../b/c" = ("projects/a/b/c", none) ∧
    reMatch fullTopicPathRE "projects/a/b/c".data = false := by
  decide


theorem pathElement_spec (e : List Char) (h : pathElement e = true) :
    e ≠ [] ∧ (∀ x ∈ e, x ≠ '/') ∧ e ≠ ['.'] ∧ e ≠ ['.', '.'] := by
  simp only [pathElement, Bool.and_eq_true, Bool.not_eq_true', bne_iff_ne, ne_eq] at h
  obtain ⟨⟨⟨h1, h2⟩, h3⟩, h4⟩ := h
  refine ⟨?_, ?_, h3, h4⟩
  · intro he
    rw [he] at h1
    simp at h1
  · intro x hx hs
    rw [hs] at hx
    have : e.contains '/' = true := by simpa using hx
    rw [this] at h2
    exact absurd h2 (by simp)

theorem cut_none (sep : Char) (a : List Char) (ha : ∀ x ∈ a, x ≠ sep) :
    strings.cut sep a = (a, none) := by
  induction a with
  | nil => rfl
  | cons x a ih =>
    have hx : x ≠ sep := ha x (List.mem_cons_self _ _)
    have := ih fun y hy => ha y (List.mem_cons_of_mem _ hy)
    simp [strings.cut, hx, this]

/-- `strings.SplitN` on elements without the separator that are joined by it
gives these elements, when the count allows as many. -/
theorem SplitN_joined (sep : Char) (segs : List (List Char)) (last : List Char) (n : Nat)
    (hsegs : ∀ a ∈ segs, ∀ x ∈ a, x ≠ sep) (hlast : ∀ x ∈ last, x ≠ sep)
    (hn : segs.length < n) :
    strings.SplitN (segs.foldr (fun a acc => a ++ sep :: acc) last) sep n = segs ++ [last] := by
  induction segs generalizing n with
  | nil =>
    obtain ⟨k, rfl⟩ : ∃ k, n = k + 1 := ⟨n - 1, by simp at hn; omega⟩
    cases k with
    | zero => rfl
    | succ k => simp [strings.SplitN, cut_none sep last hlast]
  | cons a segs ih =>
    obtain ⟨k, rfl⟩ : ∃ k, n = k + 2 := ⟨n - 2, by simp at hn; omega⟩
    have hc := cut_sep sep a (segs.foldr (fun a acc => a ++ sep :: acc) last)
      (hsegs a (List.mem_cons_self _ _))
    have := ih (k + 1) (fun b hb => hsegs b (List.mem_cons_of_mem _ hb))
      (by simp at hn; omega)
    simp [strings.SplitN, hc, this]

theorem reMatch_plusNot_cons (c : Char) (r : List reItem) (x : Char) (s : List Char) :
    reMatch (reItem.plusNot c :: r) (x :: s) =
      (x != c && (reMatch r s || reMatch (reItem.plusNot c :: r) s)) := by
  rw [reMatch]

theorem reMatch_plusNot_of (c : Char) (r : List reItem) (a s : List Char) (hne : a ≠ [])
    (ha : ∀ x ∈ a, x ≠ c) (hr : reMatch r s = true) :
    reMatch (reItem.plusNot c :: r) (a ++ s) = true := by
  induction a with
  | nil => exact absurd rfl hne
  | cons x a ih =>
    have hx : x ≠ c := ha x (List.mem_cons_self _ _)
    rw [List.cons_append, reMatch_plusNot_cons]
    cases a with
    | nil => simp [hx, hr]
    | cons y a =>
      rw [ih (by simp) fun z hz => ha z (List.mem_cons_of_mem _ hz)]
      simp [hx]

theorem intercalate_snoc (segs : List (List Char)) (last : List Char) :
    ['/'].intercalate (segs ++ [last]) =
      segs.foldr (fun a acc => a ++ '/' :: acc) last := by
  induction segs with
  | nil => simp [List.intercalate]
  | cons a segs ih =>
    cases segs with
    | nil => simp [List.intercalate]
    | cons b segs =>
      have key : ['/'].intercalate (a :: b :: (segs ++ [last])) =
          a ++ '/' :: ['/'].intercalate (b :: (segs ++ [last])) := by
        simp [List.intercalate]
      rw [List.cons_append, List.cons_append, key, ← List.cons_append, ih]
      rfl

theorem foldr_length (segs : List (List Char)) (last : List Char) :
    segs.length ≤ (segs.foldr (fun a acc => a ++ '/' :: acc) last).length := by
  induction segs with
  | nil => simp
  | cons a segs ih =>
    simp only [List.foldr_cons, List.length_append, List.length_cons]
    omega

theorem cleanElems_elements (rooted : Bool) (es out rest : List (List Char))
    (hes : ∀ e ∈ es, pathElement e = true) :
    path.cleanElems rooted out (es ++ rest) = path.cleanElems rooted (es.reverse ++ out) rest := by
  induction es generalizing out with
  | nil => rfl
  | cons e es ih =>
    obtain ⟨h1, -, h3, h4⟩ := pathElement_spec e (hes e (List.mem_cons_self _ _))
    have hstep : path.cleanElems rooted out (e :: (es ++ rest)) =
        path.cleanElems rooted (e :: out) (es ++ rest) := by
      simp only [path.cleanElems, h1, h3, h4, or_self, if_false]
    rw [List.cons_append, hstep, ih (e :: out) fun x hx => hes x (List.mem_cons_of_mem _ hx)]
    simp

/-- `path.Join` of elements that `path.Clean` keeps, the last one with a slash
in front as the path of a URL has it: the elements joined by slashes. -/
theorem Join_elements (e : List Char) (init : List (List Char)) (t : List Char)
    (he : pathElement e = true)
    (hinit : ∀ x ∈ init, pathElement x = true) (ht : pathElement t = true) :
    path.Join (((e :: init).map String.mk) ++ [String.mk ('/' :: t)]) =
      String.mk (['/'].intercalate ((e :: init) ++ [t])) := by
  have hall : ∀ x ∈ e :: init, pathElement x = true := by
    intro x hx
    rcases List.mem_cons.mp hx with hx | hx
    · rw [hx]
      exact he
    · exact hinit x hx
  obtain ⟨he1, he2, -, -⟩ := pathElement_spec e he
  obtain ⟨-, ht2, -, -⟩ := pathElement_spec t ht
  have hfilter : ((((e :: init).map String.mk) ++ [String.mk ('/' :: t)]).filter
      fun x => decide (x ≠ "")) = ((e :: init).map String.mk) ++ [String.mk ('/' :: t)] := by
    rw [List.filter_eq_self]
    intro x hx
    rcases List.mem_append.mp hx with hx | hx
    · obtain ⟨a, ha, rfl⟩ := List.mem_map.mp hx
      have := (pathElement_spec a (hall a ha)).1
      simp only [ne_eq, decide_not, Bool.not_eq_true', decide_eq_false_iff_not]
      intro hc
      exact this (congrArg String.data hc)
    · rw [List.mem_singleton.mp hx]
      simp only [ne_eq, decide_not, Bool.not_eq_true', decide_eq_false_iff_not]
      intro hc
      exact absurd (congrArg String.data hc) (List.cons_ne_nil _ _)
  have hsplit : strings.Split '/' (['/'].intercalate ((e :: init) ++ ['/' :: t])) =
      (e :: init) ++ [[], t] := by
    have hs : ['/'].intercalate ((e :: init) ++ ['/' :: t]) =
        ((e :: init) ++ [[]]).foldr (fun a acc => a ++ '/' :: acc) t := by
      rw [intercalate_snoc, List.foldr_append]
      rfl
    rw [hs]
    unfold strings.Split
    rw [SplitN_joined '/' ((e :: init) ++ [[]]) t]
    · simp
    · intro a ha
      rcases List.mem_append.mp ha with ha | ha
      · exact (pathElement_spec a (hall a ha)).2.1
      · rw [List.mem_singleton.mp ha]
        simp
    · exact ht2
    · exact Nat.lt_succ_of_le (foldr_length _ _)
  have hrooted : (['/'].intercalate ((e :: init) ++ ['/' :: t])).head? ≠ some '/' := by
    rw [intercalate_snoc]
    cases e with
    | nil => exact absurd rfl he1
    | cons x e =>
      simp only [List.foldr_cons, List.cons_append, List.head?_cons, ne_eq, Option.some.injEq]
      exact he2 x (List.mem_cons_self _ _)
  have hclean : path.cleanElems false [] ((e :: init) ++ [[], t]) = (e :: init) ++ [t] := by
    obtain ⟨h1, -, h3, h4⟩ := pathElement_spec t ht
    rw [cleanElems_elements false (e :: init) [] [[], t] hall]
    simp [path.cleanElems, h1, h3, h4]
  have hout : ['/'].intercalate ((e :: init) ++ [t]) ≠ [] := by
    rw [intercalate_snoc]
    cases e with
    | nil => exact absurd rfl he1
    | cons x e => simp
  unfold path.Join
  simp only [hfilter]
  have hdata : (((e :: init).map String.mk) ++ [String.mk ('/' :: t)]).map String.data =
      (e :: init) ++ ['/' :: t] := by
    simp [Function.comp_def]
  rw [hdata]
  have hne : (e :: init) ++ ['/' :: t] ≠ [] := by simp
  rw [if_neg hne]
  unfold path.Clean
  simp only [hrooted, decide_False, hsplit, hclean, Bool.false_eq_true, if_false, hout]

/-- C27 (amended): a path that `parseGCPURL` returns without error is either the
joined host and path, which `fullTopicPathRE` matches, or, when the joined path
matches `shortTopicPathRE` and not `fullTopicPathRE`, the path
`path.Join("projects", u.Host, "topics", u.Path)`, which is built from the host
and the path as given and is not matched against `fullTopicPathRE`.  With
`path.Join` of package `path`, the second case gives a well-formed full topic
path when the host is one path element `h` and the path is a slash followed by
one path element `t`: the result is `projects/h/topics/t`. -/
theorem parseGCPURL_well_formed (join : List String → String) (uHost uPath : String)
    (h t : List Char) :
    (∀ r, parseGCPURL join uHost uPath = (r, none) →
      (r = join [uHost, uPath] ∧ reMatch fullTopicPathRE r.data = true) ∨
      (reMatch fullTopicPathRE (join [uHost, uPath]).data = false ∧
        reMatch shortTopicPathRE (join [uHost, uPath]).data = true ∧
        r = join ["projects", uHost, "topics", uPath])) ∧
    (pathElement h = true → pathElement t = true →
      path.Join [String.mk h, String.mk ('/' :: t)] = String.mk (h ++ '/' :: t) ∧
      reMatch shortTopicPathRE (h ++ '/' :: t) = true ∧
      parseGCPURL path.Join (String.mk h) (String.mk ('/' :: t)) =
        (String.mk ("projects/".data ++ h ++ "/topics/".data ++ t), none) ∧
      reMatch fullTopicPathRE ("projects/".data ++ h ++ "/topics/".data ++ t) = true) := by
  constructor
  · intro r hr
    unfold parseGCPURL at hr
    by_cases hf : reMatch fullTopicPathRE (join [uHost, uPath]).data = true
    · have h4 := SplitN_fullTopicPath _ hf
      simp only [hf, if_true, h4, lt_self_iff_false, if_false, Prod.mk.injEq, and_true] at hr
      left
      rw [← hr]
      exact ⟨rfl, hf⟩
    · by_cases hs : reMatch shortTopicPathRE (join [uHost, uPath]).data = true
      · have hf2 : reMatch fullTopicPathRE (join [uHost, uPath]).data = false := by
          simpa using hf
        simp only [hf2, Bool.false_eq_true, if_false, hs, if_true, Prod.mk.injEq,
          and_true] at hr
        right
        exact ⟨hf2, hs, hr.symm⟩
      · simp [hf, hs] at hr
  · intro hh ht
    obtain ⟨h1, h2, -, -⟩ := pathElement_spec h hh
    obtain ⟨t1, t2, -, -⟩ := pathElement_spec t ht
    have hj2 : path.Join [String.mk h, String.mk ('/' :: t)] = String.mk (h ++ '/' :: t) := by
      have := Join_elements h [] t hh (by simp) ht
      rw [intercalate_snoc] at this
      exact this
    have hj4 : path.Join ["projects", String.mk h, "topics", String.mk ('/' :: t)] =
        String.mk ("projects/".data ++ h ++ "/topics/".data ++ t) := by
      have := Join_elements "projects".data [h, "topics".data] t (by decide)
        (by
          intro x hx
          rcases List.mem_cons.mp hx with hx | hx
          · rw [hx]
            exact hh
          · rw [List.mem_singleton.mp hx]
            decide) ht
      rw [intercalate_snoc] at this
      rw [show ["projects", String.mk h, "topics", String.mk ('/' :: t)] =
        List.map String.mk ("projects".data :: [h, "topics".data]) ++ [String.mk ('/' :: t)]
        from rfl, this]
      simp
    have hlast : reMatch [reItem.plusNot '/'] t = true := by
      have := reMatch_plusNot_of '/' [] t [] t1 t2 rfl
      rwa [List.append_nil] at this
    have hshort : reMatch shortTopicPathRE (h ++ '/' :: t) = true := by
      unfold shortTopicPathRE
      refine reMatch_plusNot_of '/' _ h _ h1 h2 ?_
      simp [reMatch, hlast]
    have hnotfull : reMatch fullTopicPathRE (h ++ '/' :: t) = false := by
      cases hm : reMatch fullTopicPathRE (h ++ '/' :: t) with
      | false => rfl
      | true =>
        obtain ⟨a, b, hs, -, -, -, -⟩ := fullTopicPathRE_shape _ hm
        have c1 := cut_sep '/' h t h2
        have c2 := cut_sep '/' "projects".data (a ++ '/' :: ("topics".data ++ '/' :: b))
          (by decide)
        rw [hs, c2] at c1
        have ht' : a ++ '/' :: ("topics".data ++ '/' :: b) = t := by
          simpa using congrArg Prod.snd c1
        exact absurd rfl (t2 '/' (by rw [← ht']; simp))
    have hfull : reMatch fullTopicPathRE ("projects/".data ++ h ++ "/topics/".data ++ t) =
        true := by
      have hmid : reMatch (reItem.plusNot '/' :: (reLit "/topics/" ++ [reItem.plusNot '/']))
          (h ++ ("/topics/".data ++ t)) = true := by
        refine reMatch_plusNot_of '/' _ h _ h1 h2 ?_
        simp [reLit, reMatch, hlast]
      have hre : fullTopicPathRE = reLit "projects/" ++
          (reItem.plusNot '/' :: (reLit "/topics/" ++ [reItem.plusNot '/'])) := by
        simp [fullTopicPathRE]
      rw [hre, List.append_assoc, List.append_assoc]
      simp only [reLit, List.map_cons, List.map_nil, List.cons_append, List.nil_append,
        reMatch, beq_self_eq_true, Bool.true_and]
      simpa [reLit] using hmid
    refine ⟨hj2, hshort, ?_, hfull⟩
    simp only [parseGCPURL, hj2, hnotfull, Bool.false_eq_true, if_false, hshort, if_true, hj4]

theorem parseGCPURL_well_formed_witness :
    pathElement ['p'] = true ∧ pathElement ['t'] = true ∧
    parseGCPURL path.Join "p" "/t" = ("projects/p/topics/t", none) ∧
    reMatch fullTopicPathRE "projects/p/topics/t".data = true :=
  ⟨by decide, by decide,
   ((parseGCPURL_well_formed path.Join "p" "/t" ['p'] ['t']).2 (by decide) (by decide)).2.2.1,
   ((parseGCPURL_well_formed path.Join "p" "/t" ['p'] ['t']).2 (by decide) (by decide)).2.2.2⟩

end changefeedccl

/-! # Theorems of other packages -/

namespace main

/-! ## The error report of optgen -/

theorem wrapInt_of_range (x : Int) (h1 : -(2 ^ 63) ≤ x) (h2 : x < 2 ^ 63) : wrapInt x = x := by
  unfold wrapInt
  omega

theorem errorLines_map {E : Type} (l : List E) :
    errorLines (l.map Line.error) = l.length := by
  induction l with
  | nil => rfl
  | cons a l ih =>
    simp only [errorLines, List.map_cons, List.filter_cons, List.length_cons] at ih ⊢
    simp [ih]

theorem errorLines_append_tooMany {E : Type} (l : List E) (c : Int) :
    errorLines (l.map Line.error ++ [Line.tooManyErrors c]) = l.length := by
  have := errorLines_map l
  simp only [errorLines, List.filter_append, List.length_append] at this ⊢
  simp [this]

theorem printErrors_all {E : Type} (g : optgen) (len : Int)
    (h : wrapInt (wrapInt (len - g.maxErrors) + 1) ≤ 1) (rest : List E) (i : Nat) :
    g.printErrors len i rest = rest.map Line.error := by
  induction rest generalizing i with
  | nil => rfl
  | cons a rest ih =>
    have hn : ¬ ((i : Int) ≥ wrapInt (g.maxErrors - 1) ∧
        wrapInt (wrapInt (len - g.maxErrors) + 1) > 1) := by
      intro hc
      omega
    simp only [optgen.printErrors, hn, if_false, List.map_cons, ih]

theorem printErrors_cut {E : Type} (g : optgen) (len : Int) (m : Nat)
    (hm : wrapInt (g.maxErrors - 1) = (m : Int))
    (h : wrapInt (wrapInt (len - g.maxErrors) + 1) > 1) (rest : List E) (i : Nat)
    (hlen : m - i < rest.length) :
    g.printErrors len i rest =
      (rest.take (m - i)).map Line.error ++
        [Line.tooManyErrors (wrapInt (wrapInt (len - g.maxErrors) + 1))] := by
  induction rest generalizing i with
  | nil => simp at hlen
  | cons a rest ih =>
    by_cases hi : m ≤ i
    · have hc : (i : Int) ≥ wrapInt (g.maxErrors - 1) ∧
          wrapInt (wrapInt (len - g.maxErrors) + 1) > 1 := by
        refine ⟨?_, h⟩
        rw [hm]
        exact_mod_cast hi
      have h0 : m - i = 0 := by omega
      simp only [optgen.printErrors, hc, and_self, if_true, h0, List.take_zero, List.map_nil,
        List.nil_append]
    · have hc : ¬ ((i : Int) ≥ wrapInt (g.maxErrors - 1) ∧
          wrapInt (wrapInt (len - g.maxErrors) + 1) > 1) := by
        rintro ⟨h1, _⟩
        rw [hm] at h1
        have : m ≤ i := by exact_mod_cast h1
        exact hi this
      have hs : m - i = (m - (i + 1)) + 1 := by omega
      have hl : m - (i + 1) < rest.length := by
        simp only [List.length_cons] at hlen
        omega
      simp only [optgen.printErrors, hc, if_false, hs, List.take_succ_cons, List.map_cons,
        List.cons_append, ih (i + 1) hl]

/-- C25: `maxErrors` bounds the error lines of `run`. For `maxErrors` between 1
and the largest `int`, at most `maxErrors` error lines are written; a list of
at most `maxErrors` errors is written in full with no message; a longer list
gives exactly its first `maxErrors - 1` errors and then the message, whose count
`len(errors) - maxErrors + 1` is the number of errors that were not written. -/
theorem reportErrors_maxErrors {E : Type} (g : optgen) (errors : List E)
    (hmin : 1 ≤ g.maxErrors) (hmax : g.maxErrors < 2 ^ 63)
    (hlen : (errors.length : Int) < 2 ^ 63) :
    errorLines (g.reportErrors errors) ≤ g.maxErrors.toNat ∧
    ((errors.length : Int) ≤ g.maxErrors →
      g.reportErrors errors = errors.map Line.error) ∧
    (g.maxErrors < (errors.length : Int) →
      g.reportErrors errors =
        (errors.take (g.maxErrors.toNat - 1)).map Line.error ++
          [Line.tooManyErrors ((errors.length : Int) - g.maxErrors + 1)] ∧
      (errors.take (g.maxErrors.toNat - 1)).length = g.maxErrors.toNat - 1 ∧
      (errors.length : Int) - g.maxErrors + 1 =
        ((errors.drop (g.maxErrors.toNat - 1)).length : Int)) := by
  have hw1 : wrapInt (g.maxErrors - 1) = ((g.maxErrors.toNat - 1 : Nat) : Int) := by
    rw [wrapInt_of_range _ (by omega) (by omega)]
    omega
  have hw2 : wrapInt (wrapInt ((errors.length : Int) - g.maxErrors) + 1) =
      (errors.length : Int) - g.maxErrors + 1 := by
    rw [wrapInt_of_range ((errors.length : Int) - g.maxErrors) (by omega) (by omega)]
    exact wrapInt_of_range _ (by omega) (by omega)
  have hall : (errors.length : Int) ≤ g.maxErrors →
      g.reportErrors errors = errors.map Line.error := by
    intro h
    exact printErrors_all g _ (by rw [hw2]; omega) errors 0
  have hcut : g.maxErrors < (errors.length : Int) →
      g.reportErrors errors =
        (errors.take (g.maxErrors.toNat - 1)).map Line.error ++
          [Line.tooManyErrors ((errors.length : Int) - g.maxErrors + 1)] := by
    intro h
    have := printErrors_cut g (errors.length : Int) (g.maxErrors.toNat - 1) hw1
      (by rw [hw2]; omega) errors 0 (by omega)
    rw [hw2] at this
    exact this
  refine ⟨?_, hall, fun h => ⟨hcut h, ?_, ?_⟩⟩
  · by_cases h : (errors.length : Int) ≤ g.maxErrors
    · rw [hall h, errorLines_map]
      omega
    · rw [hcut (by omega), errorLines_append_tooMany, List.length_take]
      omega
  · rw [List.length_take]
    omega
  · rw [List.length_drop]
    omega

theorem reportErrors_maxErrors_witness :
    errorLines (optgen.reportErrors { maxErrors := 3 } [10, 11, 12, 13, 14]) ≤ 3 ∧
    optgen.reportErrors { maxErrors := 3 } [10, 11, 12, 13, 14] =
      [Line.error 10, Line.error 11, Line.tooManyErrors 3] ∧
    optgen.reportErrors { maxErrors := 3 } [10, 11, 12] =
      [Line.error 10, Line.error 11, Line.error 12] := by
  have h := reportErrors_maxErrors { maxErrors := 3 } [10, 11, 12, 13, 14]
    (by decide) (by decide) (by decide)
  have h2 := reportErrors_maxErrors { maxErrors := 3 } [10, 11, 12]
    (by decide) (by decide) (by decide)
  exact ⟨h.1, (h.2.2 (by decide)).1, h2.2.1 (by decide)⟩

end main

namespace row

/-! ## The lookup queue of FK work -/

theorem getTable_queue (sb : sqlbase) (q : tableLookupQueue) (tableID : ID) :
    (q.getTable sb tableID).2.queue = q.queue ∧
    (q.getTable sb tableID).2.alreadyChecked = q.alreadyChecked := by
  unfold tableLookupQueue.getTable
  split
  · exact ⟨rfl, rfl⟩
  · split
    · exact ⟨rfl, rfl⟩
    · split
      · split
        · exact ⟨rfl, rfl⟩
        · split
          · exact ⟨rfl, rfl⟩
          · exact ⟨rfl, rfl⟩
      · exact ⟨rfl, rfl⟩

theorem checked_congr (q q1 : tableLookupQueue) (h : q1.alreadyChecked = q.alreadyChecked)
    (x : ID × FKCheckType) : q1.checked x = q.checked x := by
  unfold tableLookupQueue.checked
  rw [h]

theorem checked_noted (q : tableLookupQueue) (tableID : ID) (usage : FKCheckType)
    (queue : List tableLookupQueueElement) (x : ID × FKCheckType) :
    tableLookupQueue.checked
      { q with
        alreadyChecked :=
          (tableID, usage :: (q.alreadyChecked.lookup tableID).getD []) :: q.alreadyChecked,
        queue := queue } x =
      (q.checked x || decide (x = (tableID, usage))) := by
  obtain ⟨i, u⟩ := x
  unfold tableLookupQueue.checked
  simp only [List.lookup_cons]
  by_cases hi : i = tableID
  · subst hi
    simp only [beq_self_eq_true, Prod.mk.injEq, true_and]
    cases hl : q.alreadyChecked.lookup i with
    | none =>
      by_cases hu : u = usage <;> simp [hu]
    | some inner =>
      by_cases hu : u = usage
      · simp [hu]
      · simp [hu]
  · have hb : (i == tableID) = false := by simpa using hi
    simp only [hb, Prod.mk.injEq, hi, false_and, decide_False, Bool.or_false]

/-- What a call of `enqueue` does to the queue and to `alreadyChecked`: notes
stay, and either the queue is as before, or one element with the usage of the
call is appended, for a pair that was not noted before and is noted after. -/
theorem enqueue_spec (sb : sqlbase) (q : tableLookupQueue) (tableID : ID)
    (usage : FKCheckType) :
    (∀ x, q.checked x = true → (q.enqueue sb tableID usage).2.checked x = true) ∧
    ((q.enqueue sb tableID usage).2.queue = q.queue ∨
     ∃ elem, (q.enqueue sb tableID usage).2.queue = q.queue ++ [elem] ∧
       elem.usage = usage ∧ (q.enqueue sb tableID usage).1 = none ∧
       q.checked (tableID, usage) = false ∧
       (q.enqueue sb tableID usage).2.checked (tableID, usage) = true) := by
  have hg := getTable_queue sb q tableID
  unfold tableLookupQueue.enqueue
  generalize q.getTable sb tableID = g at hg
  obtain ⟨⟨tableEntry, err⟩, q1⟩ := g
  obtain ⟨hq, ha⟩ := hg
  simp only at hq ha
  have hc := checked_congr q q1 ha
  cases err with
  | some err => exact ⟨fun x hx => by simpa [hc] using hx, Or.inl hq⟩
  | none =>
    simp only []
    cases hT : tableEntry.Table with
    | none => exact ⟨fun x hx => by simpa [hc] using hx, Or.inl hq⟩
    | some table =>
      simp only []
      by_cases hin : (match q1.alreadyChecked.lookup tableID with
          | some inner => inner.contains usage
          | none => false) = true
      · rw [if_pos hin]
        exact ⟨fun x hx => by simpa [hc] using hx, Or.inl hq⟩
      · rw [if_neg hin]
        have hnot : q.checked (tableID, usage) = false := by
          rw [← hc]
          simpa [tableLookupQueue.checked] using hin
        have hmono : ∀ (queue : List tableLookupQueueElement) (x : ID × FKCheckType),
            q.checked x = true →
            tableLookupQueue.checked
              { q1 with
                alreadyChecked :=
                  (tableID, usage :: (q1.alreadyChecked.lookup tableID).getD []) ::
                    q1.alreadyChecked,
                queue := queue } x = true := by
          intro queue x hx
          rw [checked_noted, hc, hx]
          rfl
        cases hA : tableEntry.IsAdding with
        | true =>
          simp only [if_true]
          exact ⟨hmono q1.queue, Or.inl hq⟩
        | false =>
          simp only [Bool.false_eq_true, if_false]
          split
          · exact ⟨hmono q1.queue, Or.inl hq⟩
          · refine ⟨hmono _, Or.inr ⟨_, by rw [← hq], rfl, rfl, hnot, ?_⟩⟩
            rw [checked_noted]
            simp

theorem appendedPairs_append (a b : List queueEvent) :
    appendedPairs (a ++ b) = appendedPairs a ++ appendedPairs b := by
  induction a with
  | nil => rfl
  | cons e a ih => cases e <;> simp [appendedPairs, ih]

theorem appendedElems_append (a b : List queueEvent) :
    appendedElems (a ++ b) = appendedElems a ++ appendedElems b := by
  induction a with
  | nil => rfl
  | cons e a ih => cases e <;> simp [appendedElems, ih]

theorem dequeuedElems_append (a b : List queueEvent) :
    dequeuedElems (a ++ b) = dequeuedElems a ++ dequeuedElems b := by
  induction a with
  | nil => rfl
  | cons e a ih => cases e <;> simp [dequeuedElems, ih]

/-- One call: the queue before with the appended elements is the dequeued
elements with the queue after; notes stay; a pair for which an element is
appended is that of the call, was not noted before and is noted after. -/
theorem run_spec (sb : sqlbase) (q : tableLookupQueue) (c : queueCall) :
    q.queue ++ appendedElems (c.run sb q).2 =
      dequeuedElems (c.run sb q).2 ++ (c.run sb q).1.queue ∧
    (∀ x, q.checked x = true → (c.run sb q).1.checked x = true) ∧
    (∀ x ∈ appendedPairs (c.run sb q).2,
      c = queueCall.enqueue x.1 x.2 ∧ q.checked x = false ∧
      (c.run sb q).1.checked x = true) ∧
    (appendedPairs (c.run sb q).2).Nodup := by
  cases c with
  | enqueue tableID usage =>
    obtain ⟨hmono, hq⟩ := enqueue_spec sb q tableID usage
    simp only [queueCall.run]
    rcases hq with hq | ⟨elem, hq, hu, _, hnot, hnow⟩
    · rw [hq]
      simp only [List.drop_length, List.map_nil, appendedElems, dequeuedElems,
        List.append_nil, List.nil_append, appendedPairs, List.not_mem_nil, List.nodup_nil,
        and_true, true_and, false_imp_iff, implies_true]
      exact hmono
    · rw [hq]
      simp only [List.drop_left, List.map_cons, List.map_nil, appendedElems, dequeuedElems,
        List.nil_append, appendedPairs, List.mem_singleton, true_and, List.nodup_cons,
        List.not_mem_nil, not_false_eq_true, List.nodup_nil, and_true]
      refine ⟨hmono, ?_⟩
      intro x hx
      subst hx
      simp only [hu]
      exact ⟨trivial, hnot, hnow⟩
  | dequeue =>
    simp only [queueCall.run, tableLookupQueue.dequeue]
    cases hqq : q.queue with
    | nil => simp [appendedElems, dequeuedElems, appendedPairs, hqq]
    | cons elem rest =>
      simp [appendedElems, dequeuedElems, appendedPairs, tableLookupQueue.checked]

theorem mem_enqueuedIDs (cs : List queueCall) (tableID : ID) (usage : FKCheckType)
    (h : queueCall.enqueue tableID usage ∈ cs) :
    tableID ∈ enqueuedIDs cs ∧ usage ∈ enqueuedUsages cs := by
  induction cs with
  | nil => simp at h
  | cons c cs ih =>
    rcases List.mem_cons.mp h with h1 | h1
    · subst h1
      simp [enqueuedIDs, enqueuedUsages]
    · cases c <;> simp [enqueuedIDs, enqueuedUsages, ih h1]

/-- A sequence of calls: first in, first out; and the pairs for which an element
is appended are pairwise different, each that of an `enqueue` call of the
sequence and none noted in `alreadyChecked` at the start. -/
theorem runCalls_spec (sb : sqlbase) (cs : List queueCall) (q : tableLookupQueue) :
    q.queue ++ appendedElems (runCalls sb q cs).2 =
      dequeuedElems (runCalls sb q cs).2 ++ (runCalls sb q cs).1.queue ∧
    (appendedPairs (runCalls sb q cs).2).Nodup ∧
    (∀ x ∈ appendedPairs (runCalls sb q cs).2,
      queueCall.enqueue x.1 x.2 ∈ cs ∧ q.checked x = false) := by
  induction cs generalizing q with
  | nil => simp [runCalls, appendedElems, dequeuedElems, appendedPairs]
  | cons c cs ih =>
    obtain ⟨h1, h2, h3, h4⟩ := run_spec sb q c
    obtain ⟨i1, i2, i3⟩ := ih (c.run sb q).1
    simp only [runCalls, appendedElems_append, dequeuedElems_append, appendedPairs_append]
    refine ⟨?_, ?_, ?_⟩
    · rw [← List.append_assoc, h1, List.append_assoc, i1, List.append_assoc]
    · refine List.Nodup.append h4 i2 ?_
      intro x hx hy
      have := (h3 x hx).2.2
      rw [(i3 x hy).2] at this
      exact absurd this (by simp)
    · intro x hx
      rcases List.mem_append.mp hx with hx | hx
      · exact ⟨by rw [(h3 x hx).1]; exact List.mem_cons_self _ _, (h3 x hx).2.1⟩
      · refine ⟨List.mem_cons_of_mem _ (i3 x hx).1, ?_⟩
        cases hc : q.checked x with
        | false => rfl
        | true =>
          have := h2 x hc
          rw [(i3 x hx).2] at this
          exact absurd this (by simp)

/-- C23: `dequeue` on an empty queue returns the zero `TableEntry`, 0 and
`false` and leaves the queue as it is; on a queue with first element `elem` it
returns the entry and the usage of `elem` with `true`, and the queue after is
the rest, all other fields kept.  Over any sequence of `enqueue` and `dequeue`
calls, a call of `enqueue` changes the queue at most by one element at its end,
and the elements come out in the order they were appended: the dequeued
elements followed by the queue that is left are the queue at the start followed
by the appended elements. -/
theorem dequeue_fifo (sb : sqlbase) (q : tableLookupQueue) (cs : List queueCall)
    (tableID : ID) (usage : FKCheckType) :
    (q.queue = [] → q.dequeue = ((TableEntry.zero, 0, false), q)) ∧
    (∀ elem rest, q.queue = elem :: rest →
      q.dequeue = ((elem.tableEntry, elem.usage, true), { q with queue := rest })) ∧
    ((q.enqueue sb tableID usage).2.queue = q.queue ∨
      ∃ elem, (q.enqueue sb tableID usage).2.queue = q.queue ++ [elem]) ∧
    dequeuedElems (runCalls sb q cs).2 ++ (runCalls sb q cs).1.queue =
      q.queue ++ appendedElems (runCalls sb q cs).2 := by
  refine ⟨?_, ?_, ?_, (runCalls_spec sb cs q).1.symm⟩
  · intro h
    simp only [tableLookupQueue.dequeue, h]
  · intro elem rest h
    simp only [tableLookupQueue.dequeue, h]
  · rcases (enqueue_spec sb q tableID usage).2 with h | ⟨elem, h, _⟩
    · exact Or.inl h
    · exact Or.inr ⟨elem, h⟩

theorem dequeue_fifo_witness :
    sampleQueue.dequeue.1 = (TableEntry.zero, 0, false) ∧
    (runCalls sampleSqlbase sampleQueue (sampleCalls.take 1)).1.dequeue.1 =
      ({ Table := some { Name := "a" }, IsAdding := false, CheckHelper := none },
        CheckUpdates, true) ∧
    dequeuedElems (runCalls sampleSqlbase sampleQueue sampleCalls).2 ++
        (runCalls sampleSqlbase sampleQueue sampleCalls).1.queue =
      [{ tableEntry := { Table := some { Name := "a" }, IsAdding := false, CheckHelper := none },
         usage := CheckUpdates },
       { tableEntry := { Table := some { Name := "b" }, IsAdding := false, CheckHelper := none },
         usage := CheckDeletes },
       { tableEntry := { Table := some { Name := "a" }, IsAdding := false, CheckHelper := none },
         usage := CheckDeletes }] := by
  refine ⟨?_, ?_, ?_⟩
  · rw [(dequeue_fifo sampleSqlbase sampleQueue sampleCalls 1 CheckUpdates).1 rfl]
  · rw [(dequeue_fifo sampleSqlbase
      (runCalls sampleSqlbase sampleQueue (sampleCalls.take 1)).1 [] 1 CheckUpdates).2.1
        { tableEntry := { Table := some { Name := "a" }, IsAdding := false, CheckHelper := none },
          usage := CheckUpdates } [] (by decide)]
  · rw [(dequeue_fifo sampleSqlbase sampleQueue sampleCalls 1 CheckUpdates).2.2.2]
    decide

/-- C24: over any sequence of `enqueue` (and `dequeue`) calls on one queue whose
usages are the three declared values of `FKCheckType`, the pairs of table ID and
usage for which an element is appended are pairwise different, each is the pair
of an `enqueue` call of the sequence and was not noted in `alreadyChecked`
before, and the number of appended elements is at most 3 times the number of
distinct table IDs of the calls. -/
theorem enqueue_once_per_pair (sb : sqlbase) (q : tableLookupQueue) (cs : List queueCall)
    (husage : ∀ u ∈ enqueuedUsages cs, u = CheckDeletes ∨ u = CheckInserts ∨ u = CheckUpdates) :
    (appendedPairs (runCalls sb q cs).2).Nodup ∧
    (∀ x ∈ appendedPairs (runCalls sb q cs).2,
      queueCall.enqueue x.1 x.2 ∈ cs ∧ q.checked x = false) ∧
    (appendedElems (runCalls sb q cs).2).length =
      (appendedPairs (runCalls sb q cs).2).length ∧
    (appendedElems (runCalls sb q cs).2).length ≤ 3 * (enqueuedIDs cs).dedup.length := by
  obtain ⟨_, hnd, hmem⟩ := runCalls_spec sb cs q
  have hlen : ∀ evs : List queueEvent,
      (appendedElems evs).length = (appendedPairs evs).length := by
    intro evs
    induction evs with
    | nil => rfl
    | cons e evs ih => cases e <;> simp [appendedElems, appendedPairs, ih]
  refine ⟨hnd, hmem, hlen _, ?_⟩
  rw [hlen]
  have hsub : appendedPairs (runCalls sb q cs).2 ⊆
      (enqueuedIDs cs).dedup ×ˢ [CheckDeletes, CheckInserts, CheckUpdates] := by
    intro x hx
    obtain ⟨hi, hu⟩ := mem_enqueuedIDs cs x.1 x.2 (hmem x hx).1
    obtain ⟨i, u⟩ := x
    refine List.pair_mem_product.mpr ?_
    refine ⟨List.mem_dedup.mpr hi, ?_⟩
    rcases husage u hu with h | h | h <;> simp [h]
  have := (List.subperm_of_subset hnd hsub).length_le
  rw [List.length_product] at this
  simp only [List.length_cons, List.length_nil] at this
  omega

theorem enqueue_once_per_pair_witness :
    appendedPairs (runCalls sampleSqlbase sampleQueue sampleCalls).2 =
      [(1, CheckUpdates), (2, CheckDeletes), (1, CheckDeletes)] ∧
    (appendedPairs (runCalls sampleSqlbase sampleQueue sampleCalls).2).Nodup ∧
    (appendedElems (runCalls sampleSqlbase sampleQueue sampleCalls).2).length ≤
      3 * (enqueuedIDs sampleCalls).dedup.length :=
  have h := enqueue_once_per_pair sampleSqlbase sampleQueue sampleCalls (by decide)
  ⟨by decide, h.1, h.2.2.2⟩

end row
